import Mathlib

/-!
# Timetable generator (`timetableGenerator.js`)

A shallow embedding of the class `TimetableGenerator` and a verification of
its specification.

Conventions of the embedding.

* An `'HH:MM'` string is the pair of its two numbers (`HHMM`).  Two such
  strings are equal exactly when the pairs are equal.
* A `Date` produced by `parseTime` is the number of minutes since the
  midnight of the day on which the generator runs; comparing two such
  `Date`s compares these numbers.
* Object ids are natural numbers; a `null` reference is `none`.
* An entry of the reference array `preferredSubjects` is the `ObjectId`
  stored in the array or, after `populate('preferredSubjects')`, the course
  document it refers to.  `toString()` of an `ObjectId` is its string of hex
  digits; `toString()` of a document is the printed document, which is the
  hex string of no `ObjectId`.
* `JSON.parse(JSON.stringify(x))` is the identity on the plain data of the
  model, so a deep copy is the value itself and an operation that writes
  only to a copy is a function that returns the copy.
* `Math.random()` is an oracle `rnd : Nat → Nat` read at an explicit
  position: the draw `r` used as `Math.floor(Math.random() * n)` selects the
  index `r % n`, the draw `r` used as `Math.random() < 0.1` passes when
  `r % 10 = 0`.
* A `while` loop without a static bound takes a fuel argument and returns
  `none` when the fuel runs out before the loop has exited.
-/

namespace TimetableGenerator

/-! ## Data model -/

/-- Exceptions raised by the JavaScript runtime inside the generator. -/
inductive JsError where
  | typeError
  | syntaxError
  deriving DecidableEq, Repr

/-- Outcome of a method that updates its argument in place: the final state
of the argument, reached by a normal return or at the point where an
exception left the method. -/
inductive Run (σ : Type) where
  | returned (s : σ)
  | raised (e : JsError) (s : σ)
  deriving Repr

/-- The final state of a run, however it ended. -/
def Run.state {σ : Type} : Run σ → σ
  | .returned s => s
  | .raised _ s => s

/-- An `'HH:MM'` time string. -/
structure HHMM where
  hh : Nat
  mm : Nat
  deriving DecidableEq, Repr

/-- The values that reach `parseTime`: a time string, or a `Date` object. -/
inductive TimeVal where
  | str (s : HHMM)
  | date (minutes : Nat)
  deriving DecidableEq, Repr

/-- Days of `this.days` (the enum of the `Timetable` schema). -/
inductive Day where
  | monday | tuesday | wednesday | thursday | friday | saturday
  deriving DecidableEq, Repr

/-- A calendar slot `{ start, end }` of `this.timeSlots`. -/
structure Slot where
  start : HHMM
  end_ : HHMM
  deriving DecidableEq, Repr

/-- A pair of `Date`s `{ start, end }` of `usedSlots`. -/
structure UsedSlot where
  start : Nat
  end_ : Nat
  deriving DecidableEq, Repr

/-- One entry of `schedule[i].timeSlots`. -/
structure Assignment where
  startTime : HHMM
  endTime : HHMM
  course : Nat
  faculty : Option Nat
  classroom : Option Nat
  batch : String
  isLabSession : Bool
  deriving DecidableEq, Repr

/-- One entry of `schedule`. -/
structure DaySchedule where
  day : Day
  timeSlots : List Assignment
  deriving DecidableEq, Repr

/-- A `{ start, end }` window of the constraints block. -/
structure TimeRange where
  start : HHMM
  end_ : HHMM
  deriving DecidableEq, Repr

/-- The constraints block of a timetable. -/
structure Constraints where
  maxClassesPerDay : Int
  minGapBetweenClasses : Int
  workingHours : TimeRange
  lunchBreak : Option TimeRange
  deriving DecidableEq, Repr

inductive ConflictType where
  | facultyConflict | roomConflict | studentConflict | timeConflict
  deriving DecidableEq, Repr

inductive Severity where
  | low | medium | high
  deriving DecidableEq, Repr

/-- A conflict record. -/
structure Conflict where
  type : ConflictType
  description : String
  severity : Severity
  deriving DecidableEq, Repr

/-- A candidate timetable. -/
structure Timetable where
  department : Nat
  semester : Nat
  academicYear : String
  schedule : List DaySchedule
  constraints : Constraints
  fitnessScore : Int
  conflicts : List Conflict
  deriving DecidableEq, Repr

inductive CourseType where
  | theory | practical | tutorial | project
  deriving DecidableEq, Repr

/-- The fields of a course document that the generator reads. -/
structure Course where
  _id : Nat
  department : Nat
  semester : Nat
  type : CourseType
  hoursPerWeek : Nat
  batchSize : Nat
  isLabRequired : Bool
  deriving DecidableEq, Repr

/-- The strings that `toString()` returns inside the generator: the hex
digits of an `ObjectId`, or the printed form of a course document. -/
inductive IdText where
  | hex (id : Nat)
  | document (course : Course)
  deriving DecidableEq, Repr

/-- An entry of `preferredSubjects`: the `ObjectId` stored in the array, or
the course document that `populate('preferredSubjects')` has put in its
place. -/
inductive SubjectRef where
  | objectId (id : Nat)
  | populated (course : Course)
  deriving DecidableEq, Repr

/-- The call `ps.toString()` on an entry of `preferredSubjects`. -/
def SubjectRef.toString : SubjectRef → IdText
  | .objectId id => .hex id
  | .populated course => .document course

/-- The fields of a faculty document that the generator reads. -/
structure Faculty where
  _id : Nat
  department : Nat
  preferredSubjects : List SubjectRef
  deriving DecidableEq, Repr

inductive ClassroomType where
  | classroom | laboratory | seminarHall | auditorium
  deriving DecidableEq, Repr

/-- The fields of a classroom document that the generator reads. -/
structure Classroom where
  _id : Nat
  capacity : Nat
  type : ClassroomType
  availableFor : List Nat
  deriving DecidableEq, Repr

/-- The source of random draws. -/
abbrev Rand := Nat → Nat

/-- `Math.floor(Math.random() * n)` for the draw `r`. -/
def randomIndex (r n : Nat) : Nat := if n = 0 then 0 else r % n

/-- `Math.random() < 0.1` for the draw `r`. -/
def mutationGate (r : Nat) : Bool := r % 10 == 0

/-! ## Calendar -/

/-- `this.days`. -/
def days : List Day :=
  [.monday, .tuesday, .wednesday, .thursday, .friday, .saturday]

/-- Minutes since midnight denoted by a time string (`setHours(hours, minutes, 0, 0)`). -/
def minutesOf (s : HHMM) : Nat := s.hh * 60 + s.mm

/-- `parseTime(timeStr)`: `timeStr.split` exists on a string only. -/
def parseTime : TimeVal → Except JsError Nat
  | .str s => .ok (minutesOf s)
  | .date _ => .error .typeError

/-- `formatTime(date)`: the first five characters of `toTimeString()`. -/
def formatTime (date : Nat) : HHMM := ⟨(date / 60) % 24, date % 60⟩

/-- The `while (currentTime < end)` loop of `generateTimeSlots`. -/
def generateTimeSlotsLoop (endT duration : Nat) : Nat → Nat → List Slot → Option (List Slot)
  | 0, _, _ => none
  | fuel + 1, currentTime, slots =>
    if currentTime < endT then
      let startStr := formatTime currentTime
      let currentTime1 := currentTime + duration
      let endStr := formatTime currentTime1
      if currentTime1 ≤ endT then
        generateTimeSlotsLoop endT duration fuel currentTime1 (slots ++ [⟨startStr, endStr⟩])
      else
        generateTimeSlotsLoop endT duration fuel currentTime1 slots
    else some slots

/-- `generateTimeSlots(startTime, endTime, duration)`. -/
def generateTimeSlots (fuel : Nat) (startTime endTime : HHMM) (duration : Nat) :
    Option (List Slot) :=
  generateTimeSlotsLoop (minutesOf endTime) duration fuel (minutesOf startTime) []

/-- `this.timeSlots`, set by the constructor:
`generateTimeSlots('08:00', '17:00', 60)`. -/
def timeSlots : List Slot :=
  (generateTimeSlots 10 ⟨8, 0⟩ ⟨17, 0⟩ 60).getD []

/-! ## Free slots of a day -/

/-- The callback of `usedSlots.some(...)`, applied from left to right. -/
def hasOverlap (slotStart slotEnd : Nat) : List UsedSlot → Except JsError Bool
  | [] => .ok false
  | used :: rest =>
    match parseTime (.date used.end_) with
    | .error e => .error e
    | .ok usedEnd =>
      if slotStart < usedEnd then
        match parseTime (.date used.start) with
        | .error e => .error e
        | .ok usedStart =>
          if usedStart < slotEnd then .ok true else hasOverlap slotStart slotEnd rest
      else hasOverlap slotStart slotEnd rest

/-- The lunch test: `constraints.lunchBreak && slotStart >= ... && slotEnd <= ...`. -/
def isLunchBreak (constraints : Constraints) (slotStart slotEnd : Nat) : Bool :=
  match constraints.lunchBreak with
  | none => false
  | some lb => decide (minutesOf lb.start ≤ slotStart) && decide (slotEnd ≤ minutesOf lb.end_)

/-- The callback of `this.timeSlots.filter(...)`. -/
def slotIsAvailable (usedSlots : List UsedSlot) (constraints : Constraints) (slot : Slot) :
    Except JsError Bool :=
  let slotStart := minutesOf slot.start
  let slotEnd := minutesOf slot.end_
  match hasOverlap slotStart slotEnd usedSlots with
  | .error e => .error e
  | .ok overlap => .ok (!overlap && !isLunchBreak constraints slotStart slotEnd)

/-- The array method `filter` with a callback that may raise. -/
def filterSlots (usedSlots : List UsedSlot) (constraints : Constraints) :
    List Slot → Except JsError (List Slot)
  | [] => .ok []
  | slot :: rest =>
    match slotIsAvailable usedSlots constraints slot with
    | .error e => .error e
    | .ok keep =>
      match filterSlots usedSlots constraints rest with
      | .error e => .error e
      | .ok kept => .ok (if keep then slot :: kept else kept)

/-- `getAvailableSlots(daySchedule, constraints)`. -/
def getAvailableSlots (daySchedule : DaySchedule) (constraints : Constraints) :
    Except JsError (List Slot) :=
  let usedSlots : List UsedSlot := daySchedule.timeSlots.map
    (fun slot => ⟨minutesOf slot.startTime, minutesOf slot.endTime⟩)
  filterSlots usedSlots constraints timeSlots

/-! ## Conflicts and fitness -/

/-- A key of the `Map`s of `detectConflicts`: the string
`${id}-${day.day}-${slot.startTime}`. -/
structure Key where
  id : Nat
  day : Day
  startTime : HHMM
  deriving DecidableEq, Repr

/-- The record pushed by the faculty pass. -/
def facultyConflictRecord : Conflict :=
  ⟨.facultyConflict, "Faculty assigned to multiple classes at same time", .high⟩

/-- The record pushed by the room pass. -/
def roomConflictRecord : Conflict :=
  ⟨.roomConflict, "Room double booked at same time", .high⟩

/-- The inner loop `for (const slot of day.timeSlots)` of one pass; the state
is the conflict list and the keys already set in the `Map`. -/
def scanSlots (resource : Assignment → Option Nat) (record : Conflict) (day : Day) :
    List Assignment → List Conflict × List Key → List Conflict × List Key
  | [], st => st
  | slot :: rest, (conflicts, seen) =>
    match resource slot with
    | some r =>
      let key : Key := ⟨r, day, slot.startTime⟩
      scanSlots resource record day rest
        (if key ∈ seen then conflicts ++ [record] else conflicts, key :: seen)
    | none => scanSlots resource record day rest (conflicts, seen)

/-- The outer loop `for (const day of timetable.schedule)` of one pass. -/
def scanDays (resource : Assignment → Option Nat) (record : Conflict) :
    List DaySchedule → List Conflict × List Key → List Conflict × List Key
  | [], st => st
  | day :: rest, st =>
    scanDays resource record rest (scanSlots resource record day.day day.timeSlots st)

/-- `detectConflicts(timetable)`. -/
def detectConflicts (timetable : Timetable) : List Conflict :=
  let afterFaculty :=
    scanDays (fun slot => slot.faculty) facultyConflictRecord timetable.schedule ([], [])
  let afterRoom :=
    scanDays (fun slot => slot.classroom) roomConflictRecord timetable.schedule
      (afterFaculty.1, [])
  afterRoom.1

/-- `calculateFitness(timetable)`: the returned score and the timetable with
its `conflicts` field replaced. -/
def calculateFitness (timetable : Timetable) : Int × Timetable :=
  let conflicts := detectConflicts timetable
  let score : Int := 100 - (conflicts.length : Int) * 10
  (max 0 score, { timetable with conflicts := conflicts })

/-! ## Building a candidate -/

/-- `calculateFacultyWorkload(faculty)`: the placeholder of the source. -/
def calculateFacultyWorkload (_faculty : Faculty) : Int := 0

/-- `selectFacultyForCourse(course, faculties)`; `sort` is stable. -/
def selectFacultyForCourse (course : Course) (faculties : List Faculty) : Option Faculty :=
  match faculties.find? (fun f =>
      f.preferredSubjects.any (fun ps => ps.toString == IdText.hex course._id)) with
  | some preferredFaculty => some preferredFaculty
  | none =>
    ((faculties.filter (fun f => f.department == course.department)).insertionSort
      (fun a b => calculateFacultyWorkload a ≤ calculateFacultyWorkload b)).head?

/-- `selectClassroomForCourse(course, classrooms)`; `sort` is stable. -/
def selectClassroomForCourse (course : Course) (classrooms : List Classroom) :
    Option Classroom :=
  ((classrooms.filter (fun c =>
      decide (course.batchSize ≤ c.capacity) &&
      (c.type == (if course.isLabRequired then ClassroomType.laboratory
        else ClassroomType.classroom)) &&
      c.availableFor.any (fun dept => dept == course.department))).insertionSort
    (fun a b => a.capacity ≤ b.capacity)).head?

/-- `Math.ceil(a / b)` for natural numbers, `b > 0`. -/
def ceilDiv (a b : Nat) : Nat := (a + b - 1) / b

/-- `splitBatch(batchSize)`. -/
def splitBatch (batchSize : Nat) : String :=
  let batches := ceilDiv batchSize 60
  if batches > 1 then "Multiple" else "A"

/-- `requiredSlots` of `assignCourseRandomly`. -/
def requiredSlots (course : Course) : Nat :=
  ceilDiv course.hoursPerWeek (if course.type = CourseType.practical then 2 else 1)

/-- `timetable.schedule.find(s => s.day === randomDay)`. -/
def findDay (schedule : List DaySchedule) (randomDay : Day) : Option DaySchedule :=
  schedule.find? (fun s => s.day == randomDay)

/-- A write to the day object returned by `find`: the first entry of the
schedule with that label is replaced. -/
def updateDay (randomDay : Day) (f : DaySchedule → DaySchedule) :
    List DaySchedule → List DaySchedule
  | [] => []
  | s :: rest => if s.day == randomDay then f s :: rest else s :: updateDay randomDay f rest

/-- The object pushed by `assignCourseRandomly`. -/
def newAssignment (course : Course) (faculties : List Faculty) (classrooms : List Classroom)
    (randomSlot : Slot) : Assignment :=
  { startTime := randomSlot.start
    endTime := randomSlot.end_
    course := course._id
    faculty := (selectFacultyForCourse course faculties).map (fun f => f._id)
    classroom := (selectClassroomForCourse course classrooms).map (fun c => c._id)
    batch := if course.batchSize > 60 then splitBatch course.batchSize else "A"
    isLabSession := course.type == CourseType.practical }

/-- The statement `daySchedule.timeSlots.push(a)` on the day found for
`randomDay`. -/
def pushAssignment (timetable : Timetable) (randomDay : Day) (a : Assignment) : Timetable :=
  { timetable with
    schedule := updateDay randomDay (fun d => { d with timeSlots := d.timeSlots ++ [a] })
      timetable.schedule }

/-- The loop `while (assignedSlots < requiredSlots)` of `assignCourseRandomly`;
the state is the timetable and the position in the random source. -/
def assignLoop (course : Course) (faculties : List Faculty) (classrooms : List Classroom)
    (rnd : Rand) (required : Nat) :
    Nat → Timetable → Nat → Nat → Option (Run (Timetable × Nat))
  | 0, _, _, _ => none
  | fuel + 1, timetable, pos, assignedSlots =>
    if assignedSlots < required then
      let randomDay := days.getD (randomIndex (rnd pos) days.length) Day.monday
      match findDay timetable.schedule randomDay with
      | none => some (.raised .typeError (timetable, pos + 1))
      | some daySchedule =>
        if (daySchedule.timeSlots.length : Int) < timetable.constraints.maxClassesPerDay then
          match getAvailableSlots daySchedule timetable.constraints with
          | .error e => some (.raised e (timetable, pos + 1))
          | .ok availableSlots =>
            if availableSlots.length > 0 then
              match availableSlots[randomIndex (rnd (pos + 1)) availableSlots.length]? with
              | none => some (.raised .typeError (timetable, pos + 2))
              | some randomSlot =>
                assignLoop course faculties classrooms rnd required fuel
                  (pushAssignment timetable randomDay
                    (newAssignment course faculties classrooms randomSlot))
                  (pos + 2) (assignedSlots + 1)
            else
              assignLoop course faculties classrooms rnd required fuel timetable (pos + 1)
                assignedSlots
        else
          assignLoop course faculties classrooms rnd required fuel timetable (pos + 1)
            assignedSlots
    else some (.returned (timetable, pos))

/-- `assignCourseRandomly(timetable, course, faculties, classrooms)`. -/
def assignCourseRandomly (fuel : Nat) (timetable : Timetable) (course : Course)
    (faculties : List Faculty) (classrooms : List Classroom) (rnd : Rand) (pos : Nat) :
    Option (Run (Timetable × Nat)) :=
  assignLoop course faculties classrooms rnd (requiredSlots course) fuel timetable pos 0

/-- The loop `for (const course of courses)` of `generateInitialPopulation`. -/
def assignCourses (fuel : Nat) (faculties : List Faculty) (classrooms : List Classroom)
    (rnd : Rand) : List Course → Timetable → Nat → Option (Except JsError (Timetable × Nat))
  | [], timetable, pos => some (.ok (timetable, pos))
  | course :: rest, timetable, pos =>
    match assignCourseRandomly fuel timetable course faculties classrooms rnd pos with
    | none => none
    | some (.raised e _) => some (.error e)
    | some (.returned (timetable1, pos1)) =>
      assignCourses fuel faculties classrooms rnd rest timetable1 pos1

/-- The loop `for (let i = 0; i < populationSize; i++)` of
`generateInitialPopulation`. -/
def populationLoop (fuel : Nat) (baseTimetable : Timetable) (courses : List Course)
    (faculties : List Faculty) (classrooms : List Classroom) (rnd : Rand) :
    Nat → List Timetable → Nat → Option (Except JsError (List Timetable × Nat))
  | 0, population, pos => some (.ok (population, pos))
  | remaining + 1, population, pos =>
    match assignCourses fuel faculties classrooms rnd courses baseTimetable pos with
    | none => none
    | some (.error e) => some (.error e)
    | some (.ok (timetable, pos1)) =>
      let scored := calculateFitness timetable
      populationLoop fuel baseTimetable courses faculties classrooms rnd remaining
        (population ++ [{ scored.2 with fitnessScore := scored.1 }]) pos1

/-- `generateInitialPopulation(baseTimetable, courses, faculties, classrooms,
populationSize)`; `fuel` bounds every run of the placement loop. -/
def generateInitialPopulation (fuel : Nat) (baseTimetable : Timetable) (courses : List Course)
    (faculties : List Faculty) (classrooms : List Classroom) (populationSize : Nat)
    (rnd : Rand) (pos : Nat) : Option (Except JsError (List Timetable × Nat)) :=
  populationLoop fuel baseTimetable courses faculties classrooms rnd populationSize [] pos

/-! ## Genetic operators -/

/-- `xs.sort((a, b) => b.fitnessScore - a.fitnessScore)`: stable, descending. -/
def sortByFitness (xs : List Timetable) : List Timetable :=
  xs.insertionSort (fun a b => b.fitnessScore ≤ a.fitnessScore)

/-- One tournament of `selectParents`: three draws with replacement. -/
def tournament (population : List Timetable) (rnd : Rand) (pos : Nat) : List Timetable :=
  [pos, pos + 1, pos + 2].filterMap
    (fun p => population[randomIndex (rnd p) population.length]?)

/-- The loop `while (parents.length < population.length / 2)` of
`selectParents`; it exits within `population.length` rounds. -/
def selectParentsLoop (population : List Timetable) (rnd : Rand) :
    Nat → Nat → List Timetable → List Timetable × Nat
  | 0, pos, parents => (parents, pos)
  | fuel + 1, pos, parents =>
    if 2 * parents.length < population.length then
      selectParentsLoop population rnd fuel (pos + 3)
        (parents ++ ((sortByFitness (tournament population rnd pos)).head?).toList)
    else (parents, pos)

/-- `selectParents(population)`. -/
def selectParents (population : List Timetable) (rnd : Rand) (pos : Nat) :
    List Timetable × Nat :=
  selectParentsLoop population rnd (population.length + 1) pos []

/-- The statement `child.schedule[i].timeSlots = copy(parent2.schedule[i].timeSlots)`. -/
def crossoverStep (parent2 : Timetable) (child : Timetable) (i : Nat) :
    Except JsError Timetable :=
  match parent2.schedule[i]?, child.schedule[i]? with
  | some d2, some dc =>
    .ok { child with schedule := child.schedule.set i { dc with timeSlots := d2.timeSlots } }
  | _, _ => .error .typeError

/-- The loop `for (let i = crossoverPoint; i < this.days.length; i++)`. -/
def crossoverLoop (parent2 : Timetable) : List Nat → Timetable → Except JsError Timetable
  | [], child => .ok child
  | i :: rest, child =>
    match crossoverStep parent2 child i with
    | .error e => .error e
    | .ok child1 => crossoverLoop parent2 rest child1

/-- The body of `crossover` for a given cut point. -/
def crossoverAt (crossoverPoint : Nat) (parent1 parent2 : Timetable) :
    Except JsError Timetable :=
  crossoverLoop parent2 (List.range' crossoverPoint (days.length - crossoverPoint)) parent1

/-- `crossover(parent1, parent2)`. -/
def crossover (parent1 parent2 : Timetable) (rnd : Rand) (pos : Nat) :
    Except JsError (Timetable × Nat) :=
  match crossoverAt (randomIndex (rnd pos) days.length) parent1 parent2 with
  | .error e => .error e
  | .ok child => .ok (child, pos + 1)

/-- The two writes `slot.startTime = newSlot.start; slot.endTime = newSlot.end`. -/
def relocate (newSlot : Slot) (slot : Assignment) : Assignment :=
  { slot with startTime := newSlot.start, endTime := newSlot.end_ }

/-- `mutate(timetable)`. -/
def mutate (timetable : Timetable) (rnd : Rand) (pos : Nat) : Run (Timetable × Nat) :=
  if mutationGate (rnd pos) then
    let randomDay := days.getD (randomIndex (rnd (pos + 1)) days.length) Day.monday
    match findDay timetable.schedule randomDay with
    | none => .raised .typeError (timetable, pos + 2)
    | some daySchedule =>
      if daySchedule.timeSlots.length > 0 then
        let randomSlotIndex := randomIndex (rnd (pos + 2)) daySchedule.timeSlots.length
        match getAvailableSlots daySchedule timetable.constraints with
        | .error e => .raised e (timetable, pos + 3)
        | .ok availableSlots =>
          if availableSlots.length > 0 then
            match availableSlots[randomIndex (rnd (pos + 3)) availableSlots.length]? with
            | none => .raised .typeError (timetable, pos + 4)
            | some newSlot =>
              .returned
                ({ timetable with
                    schedule := updateDay randomDay (fun d =>
                      { d with timeSlots :=
                          d.timeSlots.modify (relocate newSlot) randomSlotIndex })
                      timetable.schedule },
                  pos + 4)
          else .returned (timetable, pos + 3)
      else .returned (timetable, pos + 2)
  else .returned (timetable, pos + 1)

/-! ## Evolution -/

/-- One round of the loop `while (newGeneration.length < population.length)`. -/
def breedChild (parents : List Timetable) (rnd : Rand) (pos : Nat) :
    Except JsError (Timetable × Nat) :=
  match parents[randomIndex (rnd pos) parents.length]?,
      parents[randomIndex (rnd (pos + 1)) parents.length]? with
  | some parent1, some parent2 =>
    match crossover parent1 parent2 rnd (pos + 2) with
    | .error e => .error e
    | .ok (child, pos1) =>
      match mutate child rnd pos1 with
      | .raised e _ => .error e
      | .returned (child1, pos2) =>
        let scored := calculateFitness child1
        .ok ({ scored.2 with fitnessScore := scored.1 }, pos2)
  | _, _ => .error .syntaxError

/-- The loop `while (newGeneration.length < population.length)`; it exits
after `size` rounds. -/
def breedLoop (parents : List Timetable) (rnd : Rand) (size : Nat) :
    Nat → List Timetable → Nat → Except JsError (List Timetable × Nat)
  | 0, newGeneration, pos => .ok (newGeneration, pos)
  | fuel + 1, newGeneration, pos =>
    if newGeneration.length < size then
      match breedChild parents rnd pos with
      | .error e => .error e
      | .ok (child, pos1) => breedLoop parents rnd size fuel (newGeneration ++ [child]) pos1
    else .ok (newGeneration, pos)

/-- The loop `for (let gen = 0; gen < generations; gen++)` of `evolvePopulation`:
the population after the last generation. -/
def evolveGenerations (rnd : Rand) :
    Nat → List Timetable → Nat → Except JsError (List Timetable × Nat)
  | 0, population, pos => .ok (population, pos)
  | generations + 1, population, pos =>
    let selected := selectParents population rnd pos
    match breedLoop selected.1 rnd population.length population.length [] selected.2 with
    | .error e => .error e
    | .ok (newGeneration, pos1) => evolveGenerations rnd generations newGeneration pos1

/-- `evolvePopulation(population, generations)`; `none` is `undefined`. -/
def evolvePopulation (population : List Timetable) (generations : Nat) (rnd : Rand)
    (pos : Nat) : Except JsError (Option Timetable × Nat) :=
  match evolveGenerations rnd generations population pos with
  | .error e => .error e
  | .ok (final, pos1) => .ok ((sortByFitness final).head?, pos1)

/-! ## The timetable handed to the search -/

/-- The constraints block that `generateTimetable` uses when the caller
passes none. -/
def defaultConstraints : Constraints :=
  { maxClassesPerDay := 6
    minGapBetweenClasses := 10
    workingHours := ⟨⟨8, 0⟩, ⟨17, 0⟩⟩
    lunchBreak := some ⟨⟨12, 0⟩, ⟨13, 0⟩⟩ }

/-- The object `timetable` built at the start of `generateTimetable`. -/
def emptyTimetable (departmentId semester : Nat) (academicYear : String)
    (constraints : Option Constraints) : Timetable :=
  { department := departmentId
    semester := semester
    academicYear := academicYear
    schedule := days.map (fun day => ⟨day, []⟩)
    constraints := constraints.getD defaultConstraints
    fitnessScore := 0
    conflicts := [] }

/-! ## Vocabulary of the specification -/

/-- The keys `(id, day, startTime)` carried by the assignments with a non-null
resource, in the order in which `detectConflicts` visits them. -/
def resourceKeys (resource : Assignment → Option Nat) (schedule : List DaySchedule) :
    List Key :=
  schedule.flatMap (fun day =>
    day.timeSlots.filterMap (fun slot => (resource slot).map (fun r => ⟨r, day.day, slot.startTime⟩)))

/-- Number of keys of a list that repeat a key of `seen` or an earlier key
of the list. -/
def repeats : List Key → List Key → Nat
  | _, [] => 0
  | seen, k :: rest => (if k ∈ seen then 1 else 0) + repeats (k :: seen) rest

/-- Number of assignments of the course with id `c` across the week. -/
def courseCount (c : Nat) (schedule : List DaySchedule) : Nat :=
  (schedule.map (fun d => d.timeSlots.countP (fun a => a.course == c))).sum

/-- The schedule `s1` grows into `s2` by appended assignments that satisfy `Q`:
same days in the same order, every day keeps its list as a prefix. -/
def ExtendsBy (Q : Assignment → Prop) (s1 s2 : List DaySchedule) : Prop :=
  List.Forall₂ (fun d1 d2 => d2.day = d1.day ∧
    ∃ added, d2.timeSlots = d1.timeSlots ++ added ∧ ∀ a ∈ added, Q a) s1 s2

/-- The schedule `s2` is `s1` with some assignments moved to a time that
satisfies `Q`: same days and, position by position, the same assignment up to
its `startTime` and `endTime`. -/
def RelocatesBy (Q : Assignment → Prop) (s1 s2 : List DaySchedule) : Prop :=
  List.Forall₂ (fun d1 d2 => d2.day = d1.day ∧
    List.Forall₂ (fun a1 a2 => a2 = a1 ∨
      ({ a2 with startTime := a1.startTime, endTime := a1.endTime } = a1 ∧ Q a2))
      d1.timeSlots d2.timeSlots) s1 s2

/-- The assignment `a` was built by `assignCourseRandomly` for `course` on a
calendar slot that the lunch test of `constraints` lets pass. -/
def PlacedFor (course : Course) (faculties : List Faculty) (classrooms : List Classroom)
    (constraints : Constraints) (a : Assignment) : Prop :=
  ∃ slot ∈ timeSlots,
    isLunchBreak constraints (minutesOf slot.start) (minutesOf slot.end_) = false ∧
    a = newAssignment course faculties classrooms slot

/-- The schedule of the child of a crossover at cut point `k`. -/
def crossedSchedule (k : Nat) (s1 s2 : List DaySchedule) : List DaySchedule :=
  s1.take k ++
    List.zipWith (fun d1 d2 => { d1 with timeSlots := d2.timeSlots }) (s1.drop k) (s2.drop k)

/-- A calendar slot is free on a day: it overlaps no assignment of the day and
the lunch test lets it pass. -/
def FreeOn (constraints : Constraints) (d : DaySchedule) (slot : Slot) : Prop :=
  slot ∈ timeSlots ∧
    (∀ b ∈ d.timeSlots, ¬ (minutesOf slot.start < minutesOf b.endTime ∧
      minutesOf b.startTime < minutesOf slot.end_)) ∧
    isLunchBreak constraints (minutesOf slot.start) (minutesOf slot.end_) = false

/-- The schedule `s2` is `s1`, or `s1` with one assignment moved to a slot
that was free on its day. -/
def MovedAtMostOne (constraints : Constraints) (s1 s2 : List DaySchedule) : Prop :=
  s2 = s1 ∨ ∃ (i j : Nat) (d : DaySchedule) (a : Assignment) (slot : Slot),
    s1[i]? = some d ∧ d.timeSlots[j]? = some a ∧ FreeOn constraints d slot ∧
    s2 = s1.set i { d with timeSlots := d.timeSlots.set j (relocate slot a) }

/-- The id of the course that an entry of `preferredSubjects` refers to. -/
def SubjectRef.courseId : SubjectRef → Nat
  | .objectId id => id
  | .populated course => course._id

/-- The faculty's `preferredSubjects` contains the course. -/
def Prefers (f : Faculty) (course : Course) : Prop :=
  ∃ ps ∈ f.preferredSubjects, ps.courseId = course._id

/-- The faculty list as `Faculty.find(...).populate('preferredSubjects')`
returns it: every entry of every `preferredSubjects` is a course document. -/
def Populated (faculties : List Faculty) : Prop :=
  ∀ f ∈ faculties, ∀ ps ∈ f.preferredSubjects, ∃ course, ps = SubjectRef.populated course

/-- The faculty list as stored: every entry of every `preferredSubjects` is
an `ObjectId`. -/
def Unpopulated (faculties : List Faculty) : Prop :=
  ∀ f ∈ faculties, ∀ ps ∈ f.preferredSubjects, ∃ id, ps = SubjectRef.objectId id

/-! ## Example data -/

/-- Faculty 5 booked twice on Monday at 09:00, in rooms 1 and 2. -/
def doubleBooked : Timetable :=
  { emptyTimetable 1 1 "2025" none with
    schedule :=
      [⟨Day.monday, [⟨⟨9, 0⟩, ⟨10, 0⟩, 7, some 5, some 1, "A", false⟩,
          ⟨⟨9, 0⟩, ⟨10, 0⟩, 8, some 5, some 2, "A", false⟩]⟩,
        ⟨Day.tuesday, []⟩, ⟨Day.wednesday, []⟩, ⟨Day.thursday, []⟩, ⟨Day.friday, []⟩,
        ⟨Day.saturday, []⟩] }

/-- A theory course of three weekly hours. -/
def algebra : Course := ⟨7, 1, 1, .theory, 3, 60, false⟩

/-- A practical course of three weekly hours. -/
def chemLab : Course := ⟨8, 1, 1, .practical, 3, 30, true⟩

/-- A faculty pool of one member, who prefers `algebra`. -/
def staff : List Faculty := [⟨5, 1, [.populated algebra]⟩]

/-- Faculty 4 of the department of `algebra`, with no preferred subject. -/
def colleague : Faculty := ⟨4, 1, []⟩

/-- Faculty 6 of the same department, whose `preferredSubjects` holds the
populated `algebra` document. -/
def algebraist : Faculty := ⟨6, 1, [.populated algebra]⟩

/-- The two of them in the order in which the query returns them. -/
def lecturers : List Faculty := [colleague, algebraist]

/-- Faculty 3 of another department, who also prefers `algebra`. -/
def visitor : Faculty := ⟨3, 2, [.populated algebra]⟩

/-- A lecture room and a laboratory. -/
def rooms : List Classroom := [⟨1, 60, .classroom, [1]⟩, ⟨2, 40, .laboratory, [1]⟩]

/-- The candidate that `generateInitialPopulation` builds from `algebra` and
`chemLab` with the draws `fun i => i / 2`. -/
def seededCandidate : Timetable :=
  { emptyTimetable 1 1 "2025" none with
    schedule :=
      [⟨Day.monday, [⟨⟨8, 0⟩, ⟨9, 0⟩, 7, some 5, some 1, "A", false⟩]⟩,
        ⟨Day.tuesday, [⟨⟨9, 0⟩, ⟨10, 0⟩, 7, some 5, some 1, "A", false⟩]⟩,
        ⟨Day.wednesday, [⟨⟨10, 0⟩, ⟨11, 0⟩, 7, some 5, some 1, "A", false⟩]⟩,
        ⟨Day.thursday, [⟨⟨11, 0⟩, ⟨12, 0⟩, 8, some 5, some 2, "A", true⟩]⟩,
        ⟨Day.friday, [⟨⟨13, 0⟩, ⟨14, 0⟩, 8, some 5, some 2, "A", true⟩]⟩,
        ⟨Day.saturday, []⟩]
    fitnessScore := 100 }

/-- A tutorial of one weekly hour. -/
def seminar : Course := ⟨9, 1, 1, .tutorial, 1, 60, false⟩

/-- The session that `assignCourseRandomly` builds for `seminar` at 08:00
without faculty and room pools. -/
def seminarSession : Assignment := ⟨⟨8, 0⟩, ⟨9, 0⟩, 9, none, none, "A", false⟩

/-- The empty timetable with the seminar on Monday at 08:00. -/
def seminarPlaced (constraints : Option Constraints) : Timetable :=
  { emptyTimetable 1 1 "2025" constraints with
    schedule :=
      [⟨Day.monday, [seminarSession]⟩, ⟨Day.tuesday, []⟩, ⟨Day.wednesday, []⟩,
        ⟨Day.thursday, []⟩, ⟨Day.friday, []⟩, ⟨Day.saturday, []⟩] }

/-- A scored candidate: the seminar on Monday. -/
def mondayPlan : Timetable := { seminarPlaced none with fitnessScore := 100 }

/-- A scored candidate: the seminar on Tuesday. -/
def tuesdayPlan : Timetable :=
  { emptyTimetable 1 1 "2025" none with
    schedule :=
      [⟨Day.monday, []⟩, ⟨Day.tuesday, [seminarSession]⟩, ⟨Day.wednesday, []⟩,
        ⟨Day.thursday, []⟩, ⟨Day.friday, []⟩, ⟨Day.saturday, []⟩]
    fitnessScore := 100 }

/-- The child of `mondayPlan` and `tuesdayPlan` for the cut point 1. -/
def bothDaysPlan : Timetable :=
  { emptyTimetable 1 1 "2025" none with
    schedule :=
      [⟨Day.monday, [seminarSession]⟩, ⟨Day.tuesday, [seminarSession]⟩, ⟨Day.wednesday, []⟩,
        ⟨Day.thursday, []⟩, ⟨Day.friday, []⟩, ⟨Day.saturday, []⟩]
    fitnessScore := 100 }

/-- A scored candidate with one faculty conflict. -/
def clash : Timetable :=
  { doubleBooked with fitnessScore := 90, conflicts := [facultyConflictRecord] }

/-- A finite list of draws, continued by the draw 1. -/
def draws (l : List Nat) : Rand := fun i => l.getD i 1

/-- Constraints of a caller whose working day is 09:00-16:00. -/
def shortDay : Constraints := { defaultConstraints with workingHours := ⟨⟨9, 0⟩, ⟨16, 0⟩⟩ }

/-- Constraints of a caller whose lunch break is 12:30-13:30. -/
def lateLunch : Constraints :=
  { defaultConstraints with lunchBreak := some ⟨⟨12, 30⟩, ⟨13, 30⟩⟩ }

/-- Constraints that admit no class on any day. -/
def noClasses : Constraints := { defaultConstraints with maxClassesPerDay := 0 }

/-- Constraints that admit one class a day. -/
def oneClass : Constraints := { defaultConstraints with maxClassesPerDay := 1 }

/-- A timetable with one session on every day. -/
def fullWeek : Timetable :=
  { emptyTimetable 1 1 "2025" (some oneClass) with
    schedule := days.map (fun day => ⟨day, [seminarSession]⟩) }

/-- The classroom passes the filter of `selectClassroomForCourse`. -/
def classroomFits (course : Course) (c : Classroom) : Prop :=
  course.batchSize ≤ c.capacity ∧
    c.type = (if course.isLabRequired then ClassroomType.laboratory
      else ClassroomType.classroom) ∧
    course.department ∈ c.availableFor

/-- The inner loop of a pass of `detectConflicts`, where each record is kept
with the place of the assignment that made the loop push it: the index of
the day in the schedule and the index of the assignment in the day. -/
def scanSlotsTraced (resource : Assignment → Option Nat) (record : Conflict) (day : Day)
    (dayIndex : Nat) :
    Nat → List Assignment → List (Conflict × Nat × Nat) × List Key →
      List (Conflict × Nat × Nat) × List Key
  | _, [], st => st
  | slotIndex, slot :: rest, (conflicts, seen) =>
    match resource slot with
    | some r =>
      let key : Key := ⟨r, day, slot.startTime⟩
      scanSlotsTraced resource record day dayIndex (slotIndex + 1) rest
        (if key ∈ seen then conflicts ++ [(record, dayIndex, slotIndex)] else conflicts,
          key :: seen)
    | none => scanSlotsTraced resource record day dayIndex (slotIndex + 1) rest (conflicts, seen)

/-- The outer loop of a pass of `detectConflicts`, with the places kept. -/
def scanDaysTraced (resource : Assignment → Option Nat) (record : Conflict) :
    Nat → List DaySchedule → List (Conflict × Nat × Nat) × List Key →
      List (Conflict × Nat × Nat) × List Key
  | _, [], st => st
  | dayIndex, day :: rest, st =>
    scanDaysTraced resource record (dayIndex + 1) rest
      (scanSlotsTraced resource record day.day dayIndex 0 day.timeSlots st)

/-- `detectConflicts(timetable)` with the place of the triggering assignment
next to each record. -/
def detectConflictsTraced (timetable : Timetable) : List (Conflict × Nat × Nat) :=
  let afterFaculty :=
    scanDaysTraced (fun slot => slot.faculty) facultyConflictRecord 0 timetable.schedule
      ([], [])
  let afterRoom :=
    scanDaysTraced (fun slot => slot.classroom) roomConflictRecord 0 timetable.schedule
      (afterFaculty.1, [])
  afterRoom.1

/-- The place `p` comes before the place `q` in day order, then slot order. -/
def placeBefore (p q : Nat × Nat) : Prop := p.1 < q.1 ∨ (p.1 = q.1 ∧ p.2 < q.2)

/-- Monday holds a room conflict (room 1 at 09:00), Tuesday a faculty
conflict (faculty 5 at 09:00). -/
def mixedClash : Timetable :=
  { emptyTimetable 1 1 "2025" none with
    schedule :=
      [⟨Day.monday, [⟨⟨9, 0⟩, ⟨10, 0⟩, 7, some 5, some 1, "A", false⟩,
          ⟨⟨9, 0⟩, ⟨10, 0⟩, 8, some 6, some 1, "A", false⟩]⟩,
        ⟨Day.tuesday, [⟨⟨9, 0⟩, ⟨10, 0⟩, 7, some 5, some 1, "A", false⟩,
          ⟨⟨9, 0⟩, ⟨10, 0⟩, 8, some 5, some 2, "A", false⟩]⟩,
        ⟨Day.wednesday, []⟩, ⟨Day.thursday, []⟩, ⟨Day.friday, []⟩, ⟨Day.saturday, []⟩] }

/-- `generateTimetable(departmentId, semester, academicYear, courses,
faculties, classrooms, constraints)`, with a population of 50 and 100
generations; `fuel` bounds every run of the placement loop. -/
def generateTimetable (fuel : Nat) (departmentId semester : Nat) (academicYear : String)
    (courses : List Course) (faculties : List Faculty) (classrooms : List Classroom)
    (constraints : Option Constraints) (rnd : Rand) (pos : Nat) :
    Option (Except JsError (Option Timetable × Nat)) :=
  let timetable := emptyTimetable departmentId semester academicYear constraints
  let semesterCourses := courses.filter (fun course => course.semester == semester)
  match generateInitialPopulation fuel timetable semesterCourses faculties classrooms 50
      rnd pos with
  | none => none
  | some (.error e) => some (.error e)
  | some (.ok (population, pos1)) => some (evolvePopulation population 100 rnd pos1)

/-- The timetable without any assignment, scored: no conflict, score 100. -/
def emptyScored (departmentId semester : Nat) (academicYear : String)
    (constraints : Option Constraints) : Timetable :=
  { emptyTimetable departmentId semester academicYear constraints with fitnessScore := 100 }

/-- The genetic operators reproduce the timetable: crossing it with itself,
mutating it and scoring it give the timetable back. -/
def Stationary (T : Timetable) : Prop :=
  (∀ (rnd : Rand) (pos : Nat), crossover T T rnd pos = .ok (T, pos + 1)) ∧
  (∀ (rnd : Rand) (pos : Nat), ∃ pos1, mutate T rnd pos = .returned (T, pos1)) ∧
  ({ (calculateFitness T).2 with fitnessScore := (calculateFitness T).1 } : Timetable) = T

/-- The empty timetable with one session of `algebra` on Monday at 08:00,
placed without faculty and room pools. -/
def algebraOnMonday : Timetable :=
  { emptyTimetable 1 1 "2025" none with
    schedule :=
      [⟨Day.monday, [⟨⟨8, 0⟩, ⟨9, 0⟩, 7, none, none, "A", false⟩]⟩, ⟨Day.tuesday, []⟩,
        ⟨Day.wednesday, []⟩, ⟨Day.thursday, []⟩, ⟨Day.friday, []⟩, ⟨Day.saturday, []⟩] }

/-- Every day holds at most `constraints.maxClassesPerDay` assignments. -/
def WithinDailyCap (t : Timetable) : Prop :=
  ∀ d ∈ t.schedule, (d.timeSlots.length : Int) ≤ t.constraints.maxClassesPerDay

/-- The virtual `totalClasses` of the `Timetable` schema: the number of
assignments in the week. -/
def totalClasses (t : Timetable) : Nat :=
  (t.schedule.map (fun d => d.timeSlots.length)).sum

/-- The candidates obtained from the members of `init` by the steps of a
generation of `evolvePopulation`: crossover of two candidates, mutation, and
scoring. -/
inductive Reachable (init : List Timetable) : Timetable → Prop where
  | seed {t : Timetable} : t ∈ init → Reachable init t
  | cross {p1 p2 child : Timetable} (rnd : Rand) (pos pos1 : Nat) :
      Reachable init p1 → Reachable init p2 →
      crossover p1 p2 rnd pos = .ok (child, pos1) → Reachable init child
  | mutation {t : Timetable} (rnd : Rand) (pos : Nat) :
      Reachable init t → Reachable init (mutate t rnd pos).state.1
  | score {t : Timetable} :
      Reachable init t →
      Reachable init { (calculateFitness t).2 with fitnessScore := (calculateFitness t).1 }

/-- The six days in order, each with at most one assignment. -/
def OnePerDay (t : Timetable) : Prop :=
  t.schedule.map (fun d => d.day) = days ∧ ∀ d ∈ t.schedule, d.timeSlots.length ≤ 1

/-- A candidate with at most one assignment per day that is scored 100 with
an empty conflict list. -/
def CleanCandidate (t : Timetable) : Prop :=
  OnePerDay t ∧ t.fitnessScore = 100 ∧ t.conflicts = []

/-! ## Conflict detection and fitness -/

theorem repeats_append (seen ks ks2 : List Key) :
    repeats seen (ks ++ ks2) = repeats seen ks + repeats (ks.reverse ++ seen) ks2 := by
  induction ks generalizing seen with
  | nil => simp [repeats]
  | cons k rest ih =>
    have h := ih (k :: seen)
    have e : (k :: rest).reverse ++ seen = rest.reverse ++ k :: seen := by simp
    rw [e]
    show (if k ∈ seen then 1 else 0) + repeats (k :: seen) (rest ++ ks2) =
      (if k ∈ seen then 1 else 0) + repeats (k :: seen) rest + _
    rw [h, Nat.add_assoc]

theorem scanSlots_eq (resource : Assignment → Option Nat) (record : Conflict) (day : Day)
    (slots : List Assignment) (conflicts : List Conflict) (seen : List Key) :
    scanSlots resource record day slots (conflicts, seen) =
      (conflicts ++ List.replicate
          (repeats seen (slots.filterMap
            (fun slot => (resource slot).map (fun r => ⟨r, day, slot.startTime⟩)))) record,
        (slots.filterMap
            (fun slot => (resource slot).map (fun r => ⟨r, day, slot.startTime⟩))).reverse
          ++ seen) := by
  induction slots generalizing conflicts seen with
  | nil => simp [scanSlots, repeats]
  | cons slot rest ih =>
    cases hr : resource slot with
    | none => simp [scanSlots, hr, ih]
    | some r =>
      simp only [scanSlots, hr, ih, List.filterMap_cons, Option.map_some', repeats]
      by_cases hk : (⟨r, day, slot.startTime⟩ : Key) ∈ seen
      · simp [hk, List.replicate_succ, Nat.add_comm 1]
      · simp [hk]

theorem resourceKeys_cons (resource : Assignment → Option Nat) (day : DaySchedule)
    (rest : List DaySchedule) :
    resourceKeys resource (day :: rest) =
      day.timeSlots.filterMap
          (fun slot => (resource slot).map (fun r => ⟨r, day.day, slot.startTime⟩)) ++
        resourceKeys resource rest := by
  simp [resourceKeys]

theorem scanDays_eq (resource : Assignment → Option Nat) (record : Conflict)
    (schedule : List DaySchedule) (conflicts : List Conflict) (seen : List Key) :
    scanDays resource record schedule (conflicts, seen) =
      (conflicts ++ List.replicate (repeats seen (resourceKeys resource schedule)) record,
        (resourceKeys resource schedule).reverse ++ seen) := by
  induction schedule generalizing conflicts seen with
  | nil => simp [scanDays, resourceKeys, repeats]
  | cons day rest ih =>
    rw [scanDays, scanSlots_eq, ih, resourceKeys_cons, repeats_append, List.replicate_add,
      List.reverse_append, List.append_assoc, List.append_assoc]

theorem detectConflicts_eq (t : Timetable) :
    detectConflicts t =
      List.replicate (repeats [] (resourceKeys (fun slot => slot.faculty) t.schedule))
          facultyConflictRecord ++
        List.replicate (repeats [] (resourceKeys (fun slot => slot.classroom) t.schedule))
          roomConflictRecord := by
  simp [detectConflicts, scanDays_eq]

theorem repeats_add_card (seen ks : List Key) :
    repeats seen ks + (ks.toFinset \ seen.toFinset).card = ks.length := by
  induction ks generalizing seen with
  | nil => simp [repeats]
  | cons k rest ih =>
    have h := ih (k :: seen)
    simp only [repeats, List.toFinset_cons, List.length_cons] at h ⊢
    by_cases hk : k ∈ seen
    · have e : insert k rest.toFinset \ seen.toFinset
          = rest.toFinset \ insert k seen.toFinset := by
        have hk2 : k ∈ seen.toFinset := by simpa using hk
        rw [Finset.insert_sdiff_of_mem _ hk2, Finset.insert_eq_of_mem hk2]
      rw [e, if_pos hk]; omega
    · have hk2 : k ∉ seen.toFinset := by simpa using hk
      have e : insert k rest.toFinset \ seen.toFinset
          = insert k (rest.toFinset \ insert k seen.toFinset) := by
        rw [Finset.insert_sdiff_of_not_mem _ hk2]
        ext x
        simp only [Finset.mem_insert, Finset.mem_sdiff, not_or]
        constructor
        · rintro (h1 | ⟨h1, h2⟩)
          · exact Or.inl h1
          · by_cases hx : x = k
            · exact Or.inl hx
            · exact Or.inr ⟨h1, hx, h2⟩
        · rintro (h1 | ⟨h1, _, h2⟩)
          · exact Or.inl h1
          · exact Or.inr ⟨h1, h2⟩
      have hn : k ∉ rest.toFinset \ insert k seen.toFinset := by simp
      rw [e, if_neg hk, Finset.card_insert_of_not_mem hn]; omega

theorem sum_count_pred_add_card (ks : List Key) :
    (∑ k in ks.toFinset, (ks.count k - 1)) + ks.toFinset.card = ks.length := by
  have h1 : ∑ k in ks.toFinset, ((ks.count k - 1) + 1) = ∑ k in ks.toFinset, ks.count k := by
    apply Finset.sum_congr rfl
    intro k hk
    have : 0 < ks.count k := List.count_pos_iff.mpr (by simpa using hk)
    omega
  rw [Finset.sum_add_distrib, List.sum_toFinset_count_eq_length] at h1
  simpa using h1

theorem repeats_nil_eq_sum (ks : List Key) :
    repeats [] ks = ∑ k in ks.toFinset, (ks.count k - 1) := by
  have h1 := repeats_add_card [] ks
  have h2 := sum_count_pred_add_card ks
  simp only [List.toFinset_nil, Finset.sdiff_empty] at h1
  omega

/-- Claim C1: `calculateFitness` returns `max(0, 100 - 10 * n)` for `n` the
number of records of `detectConflicts`; the score lies in `[0, 100]`, is 100
exactly when there is no conflict and 0 exactly when there are ten or more. -/
theorem calculateFitness_score (t : Timetable) :
    (calculateFitness t).1 = max 0 (100 - 10 * ((detectConflicts t).length : Int)) ∧
    0 ≤ (calculateFitness t).1 ∧ (calculateFitness t).1 ≤ 100 ∧
    ((calculateFitness t).1 = 100 ↔ (detectConflicts t).length = 0) ∧
    ((calculateFitness t).1 = 0 ↔ 10 ≤ (detectConflicts t).length) := by
  simp only [calculateFitness]
  omega

/-- Claim C2: for each resource kind the number of conflict records of that
kind is the sum over the keys `(day, startTime, id)` of the number of
assignments carrying the key minus one; every record has severity high; two
assignments on one day with the same start and faculty and different rooms
give exactly one record, a faculty conflict of severity high. -/
theorem detectConflicts_counts (t : Timetable) :
    ((detectConflicts t).filter (fun c => c.type == ConflictType.facultyConflict)).length =
        ∑ k in (resourceKeys (fun slot => slot.faculty) t.schedule).toFinset,
          ((resourceKeys (fun slot => slot.faculty) t.schedule).count k - 1) ∧
    ((detectConflicts t).filter (fun c => c.type == ConflictType.roomConflict)).length =
        ∑ k in (resourceKeys (fun slot => slot.classroom) t.schedule).toFinset,
          ((resourceKeys (fun slot => slot.classroom) t.schedule).count k - 1) ∧
    (∀ c ∈ detectConflicts t, c.severity = Severity.high) ∧
    (∀ (f r1 r2 : Nat) (a1 a2 : Assignment), r1 ≠ r2 → a1.startTime = a2.startTime →
      a1.faculty = some f → a2.faculty = some f →
      a1.classroom = some r1 → a2.classroom = some r2 →
      t.schedule = [⟨Day.monday, [a1, a2]⟩, ⟨Day.tuesday, []⟩, ⟨Day.wednesday, []⟩,
        ⟨Day.thursday, []⟩, ⟨Day.friday, []⟩, ⟨Day.saturday, []⟩] →
      detectConflicts t = [⟨ConflictType.facultyConflict,
        "Faculty assigned to multiple classes at same time", Severity.high⟩]) := by
  refine ⟨?_, ?_, ?_, ?_⟩
  · rw [detectConflicts_eq, ← repeats_nil_eq_sum]
    simp [List.filter_append, List.filter_replicate, facultyConflictRecord, roomConflictRecord]
  · rw [detectConflicts_eq, ← repeats_nil_eq_sum]
    simp [List.filter_append, List.filter_replicate, facultyConflictRecord, roomConflictRecord]
  · intro c hc
    rw [detectConflicts_eq] at hc
    simp only [List.mem_append, List.mem_replicate] at hc
    rcases hc with ⟨_, rfl⟩ | ⟨_, rfl⟩ <;> rfl
  · intro f r1 r2 a1 a2 hne hs hf1 hf2 hr1 hr2 hsch
    simp [detectConflicts, hsch, scanDays, scanSlots, hf1, hf2, hr1, hr2, hs, Ne.symm hne,
      facultyConflictRecord]

/-- The scenario of claim C2 on a concrete timetable: faculty 5 is booked
twice on Monday at 09:00, in rooms 1 and 2. -/
theorem detectConflicts_counts_witness :
    detectConflicts doubleBooked =
      [⟨ConflictType.facultyConflict,
        "Faculty assigned to multiple classes at same time", Severity.high⟩] :=
  (detectConflicts_counts doubleBooked).2.2.2 5 1 2
    ⟨⟨9, 0⟩, ⟨10, 0⟩, 7, some 5, some 1, "A", false⟩
    ⟨⟨9, 0⟩, ⟨10, 0⟩, 8, some 5, some 2, "A", false⟩
    (by decide) rfl rfl rfl rfl rfl rfl

/-! ## Session counts of a built candidate -/

theorem ceilDiv_one (a : Nat) : ceilDiv a 1 = a := by simp [ceilDiv]

theorem requiredSlots_eq_ceil (course : Course) :
    requiredSlots course =
      ⌈(course.hoursPerWeek : ℚ) / (if course.type = CourseType.practical then 2 else 1)⌉₊ := by
  unfold requiredSlots ceilDiv
  by_cases h : course.type = CourseType.practical
  · simp only [h, if_true]
    symm
    have h2 : (course.hoursPerWeek + 2 - 1) / 2 = (course.hoursPerWeek + 1) / 2 := by omega
    rw [h2]
    by_cases h0 : (course.hoursPerWeek + 1) / 2 = 0
    · have : course.hoursPerWeek = 0 := by omega
      simp [this]
    · rw [Nat.ceil_eq_iff h0]
      have e : ((course.hoursPerWeek + 1) / 2 : ℕ) * 2 ≤ course.hoursPerWeek + 1 :=
        Nat.div_mul_le_self _ _
      have e2 : course.hoursPerWeek < ((course.hoursPerWeek + 1) / 2 : ℕ) * 2 + 1 := by omega
      have e3 : 1 ≤ (course.hoursPerWeek + 1) / 2 := by omega
      constructor
      · rw [lt_div_iff₀ (by norm_num)]
        have : (((course.hoursPerWeek + 1) / 2 - 1 : ℕ) : ℚ) * 2 < (course.hoursPerWeek : ℚ) := by
          have : ((course.hoursPerWeek + 1) / 2 - 1) * 2 < course.hoursPerWeek := by omega
          exact_mod_cast this
        exact this
      · rw [div_le_iff₀ (by norm_num)]
        have : course.hoursPerWeek ≤ ((course.hoursPerWeek + 1) / 2) * 2 := by omega
        exact_mod_cast this
  · simp [h]

theorem findDay_updateDay_courseCount (c : Nat) (d : Day) (a : Assignment)
    (schedule : List DaySchedule) (daySchedule : DaySchedule)
    (h : findDay schedule d = some daySchedule) :
    courseCount c
        (updateDay d (fun s => { s with timeSlots := s.timeSlots ++ [a] }) schedule) =
      courseCount c schedule + (if a.course = c then 1 else 0) := by
  induction schedule with
  | nil => simp [findDay] at h
  | cons s rest ih =>
    by_cases hs : s.day = d
    · simp only [updateDay, hs, beq_self_eq_true, if_true, courseCount, List.map_cons,
        List.sum_cons, List.countP_append, List.countP_cons, List.countP_nil, beq_iff_eq]
      omega
    · have hf : findDay rest d = some daySchedule := by
        simpa [findDay, List.find?_cons, hs] using h
      have := ih hf
      simp only [courseCount] at this
      simp only [updateDay, beq_iff_eq, hs, if_false, courseCount, List.map_cons, List.sum_cons,
        this]
      omega

theorem assignLoop_invariant (course : Course) (faculties : List Faculty)
    (classrooms : List Classroom) (rnd : Rand) (required : Nat) (P : Timetable → Nat → Prop)
    (hstep : ∀ (t : Timetable) (k : Nat) (d : Day) (daySchedule : DaySchedule)
        (slots : List Slot) (slot : Slot),
        P t k → k < required → findDay t.schedule d = some daySchedule →
        (daySchedule.timeSlots.length : Int) < t.constraints.maxClassesPerDay →
        getAvailableSlots daySchedule t.constraints = .ok slots → slot ∈ slots →
        P (pushAssignment t d (newAssignment course faculties classrooms slot)) (k + 1)) :
    ∀ (fuel : Nat) (t : Timetable) (pos k : Nat) (r : Run (Timetable × Nat)),
      P t k → assignLoop course faculties classrooms rnd required fuel t pos k = some r →
      ∃ kf, P r.state.1 kf ∧ ((∃ s, r = .returned s) → required ≤ kf) := by
  intro fuel
  induction fuel with
  | zero => intro t pos k r _ h; simp [assignLoop] at h
  | succ fuel ih =>
    intro t pos k r hP h
    rw [assignLoop] at h
    split at h
    · rename_i hk
      simp only at h
      split at h
      · simp only [Option.some.injEq] at h
        subst h
        exact ⟨k, hP, by simp⟩
      · rename_i daySchedule hfind
        split at h
        · rename_i hlen
          split at h
          · simp only [Option.some.injEq] at h
            subst h
            exact ⟨k, hP, by simp⟩
          · rename_i slots hslots
            split at h
            · split at h
              · simp only [Option.some.injEq] at h
                subst h
                exact ⟨k, hP, by simp⟩
              · rename_i slot hslot
                exact ih _ _ _ r
                  (hstep t k _ daySchedule slots slot hP hk hfind hlen hslots
                    (List.getElem?_mem hslot)) h
            · exact ih _ _ _ r hP h
        · exact ih _ _ _ r hP h
    · simp only [Option.some.injEq] at h
      subst h
      exact ⟨k, hP, fun _ => by simpa using (Nat.le_of_not_lt ‹_›)⟩

theorem assignCourseRandomly_courseCount (fuel : Nat) (t : Timetable) (course : Course)
    (faculties : List Faculty) (classrooms : List Classroom) (rnd : Rand) (pos : Nat)
    (t1 : Timetable) (pos1 : Nat)
    (h : assignCourseRandomly fuel t course faculties classrooms rnd pos =
      some (.returned (t1, pos1))) (c : Nat) :
    courseCount c t1.schedule =
      courseCount c t.schedule + (if course._id = c then requiredSlots course else 0) := by
  have key := assignLoop_invariant course faculties classrooms rnd (requiredSlots course)
    (fun t2 k => k ≤ requiredSlots course ∧ ∀ c, courseCount c t2.schedule =
      courseCount c t.schedule + (if course._id = c then k else 0))
    (by
      intro t2 k d daySchedule slots slot hP hk hfind _ _ _
      refine ⟨hk, fun c => ?_⟩
      rw [pushAssignment, findDay_updateDay_courseCount c d _ _ daySchedule hfind, hP.2 c]
      simp only [newAssignment]
      split <;> simp_all
      omega)
    fuel t pos 0 _ ⟨Nat.zero_le _, fun c => by simp⟩ h
  obtain ⟨kf, ⟨hle, hcount⟩, hge⟩ := key
  have : kf = requiredSlots course := Nat.le_antisymm hle (hge ⟨_, rfl⟩)
  subst this
  exact hcount c

theorem assignCourses_courseCount (fuel : Nat) (faculties : List Faculty)
    (classrooms : List Classroom) (rnd : Rand) (courses : List Course) :
    ∀ (t : Timetable) (pos : Nat) (t1 : Timetable) (pos1 : Nat),
      assignCourses fuel faculties classrooms rnd courses t pos = some (.ok (t1, pos1)) →
      ∀ c, courseCount c t1.schedule = courseCount c t.schedule +
        ((courses.filter (fun x => x._id == c)).map requiredSlots).sum := by
  induction courses with
  | nil =>
    intro t pos t1 pos1 h c
    simp only [assignCourses, Option.some.injEq, Except.ok.injEq, Prod.mk.injEq] at h
    simp [h.1]
  | cons course rest ih =>
    intro t pos t1 pos1 h c
    rw [assignCourses] at h
    split at h
    · simp at h
    · simp at h
    · rename_i t2 pos2 hrun
      rw [ih t2 pos2 t1 pos1 h c,
        assignCourseRandomly_courseCount fuel t course faculties classrooms rnd pos t2 pos2 hrun c]
      by_cases hc : course._id = c
      · simp [List.filter_cons, hc]; omega
      · simp [List.filter_cons, hc]

theorem filter_id_eq_singleton (courses : List Course) (c : Course)
    (hids : (courses.map (fun x => x._id)).Nodup) (hc : c ∈ courses) :
    courses.filter (fun x => x._id == c._id) = [c] := by
  induction courses with
  | nil => simp at hc
  | cons x rest ih =>
    simp only [List.map_cons, List.nodup_cons, List.mem_map, not_exists, not_and] at hids
    rcases List.mem_cons.mp hc with rfl | hmem
    · have : rest.filter (fun x => x._id == c._id) = [] := by
        simp only [List.filter_eq_nil_iff, beq_iff_eq]
        intro y hy heq
        exact hids.1 y hy heq
      simp [List.filter_cons, this]
    · have hne : x._id ≠ c._id := fun heq => hids.1 c hmem heq.symm
      simp [List.filter_cons, hne, ih hids.2 hmem]

theorem populationLoop_members (fuel : Nat) (baseTimetable : Timetable) (courses : List Course)
    (faculties : List Faculty) (classrooms : List Classroom) (rnd : Rand) :
    ∀ (remaining : Nat) (population : List Timetable) (pos : Nat) (result : List Timetable)
      (pos1 : Nat),
      populationLoop fuel baseTimetable courses faculties classrooms rnd remaining population pos
        = some (.ok (result, pos1)) →
      ∀ t ∈ result, t ∈ population ∨ ∃ (built : Timetable) (p p1 : Nat),
        assignCourses fuel faculties classrooms rnd courses baseTimetable p
          = some (.ok (built, p1)) ∧
        t = { (calculateFitness built).2 with fitnessScore := (calculateFitness built).1 } := by
  intro remaining
  induction remaining with
  | zero =>
    intro population pos result pos1 h t ht
    simp only [populationLoop, Option.some.injEq, Except.ok.injEq, Prod.mk.injEq] at h
    exact Or.inl (h.1 ▸ ht)
  | succ n ih =>
    intro population pos result pos1 h t ht
    rw [populationLoop] at h
    split at h
    · simp at h
    · simp at h
    · rename_i built p1 hbuilt
      rcases ih _ _ _ _ h t ht with hmem | hnew
      · rcases List.mem_append.mp hmem with hold | hlast
        · exact Or.inl hold
        · refine Or.inr ⟨built, pos, p1, hbuilt, ?_⟩
          simpa using hlast
      · exact Or.inr hnew

/-- Claim C3: when `generateInitialPopulation` returns on a base timetable
without assignments and courses with pairwise distinct ids, every candidate
holds, for each course `c`, exactly `ceil(c.hoursPerWeek / d)` assignments of
`c`, with `d = 2` for a practical course and `d = 1` otherwise. -/
theorem generateInitialPopulation_session_counts (fuel : Nat) (baseTimetable : Timetable)
    (courses : List Course) (faculties : List Faculty) (classrooms : List Classroom)
    (populationSize : Nat) (rnd : Rand) (pos : Nat) (population : List Timetable) (pos1 : Nat)
    (hbase : ∀ d ∈ baseTimetable.schedule, d.timeSlots = [])
    (hids : (courses.map (fun c => c._id)).Nodup)
    (hret : generateInitialPopulation fuel baseTimetable courses faculties classrooms
      populationSize rnd pos = some (.ok (population, pos1))) :
    ∀ t ∈ population, ∀ c ∈ courses,
      courseCount c._id t.schedule =
        ⌈(c.hoursPerWeek : ℚ) / (if c.type = CourseType.practical then 2 else 1)⌉₊ := by
  intro t ht c hc
  have hzero : courseCount c._id baseTimetable.schedule = 0 := by
    simp only [courseCount]
    apply List.sum_eq_zero
    intro x hx
    simp only [List.mem_map] at hx
    obtain ⟨d, hd, rfl⟩ := hx
    simp [hbase d hd]
  rcases populationLoop_members fuel baseTimetable courses faculties classrooms rnd
    populationSize [] pos population pos1 hret t ht with hnil | ⟨built, p, p1, hbuilt, rfl⟩
  · simp at hnil
  · have := assignCourses_courseCount fuel faculties classrooms rnd courses baseTimetable p
      built p1 hbuilt c._id
    simp only [calculateFitness]
    rw [this, hzero, filter_id_eq_singleton courses c hids hc, ← requiredSlots_eq_ceil]
    simp


/-- The count of claim C3 on the population built from two courses. -/
theorem generateInitialPopulation_session_counts_witness :
    generateInitialPopulation 8 (emptyTimetable 1 1 "2025" none) [algebra, chemLab] staff
        rooms 1 (fun i => i / 2) 0 = some (.ok ([seededCandidate], 10)) ∧
    ∀ t ∈ [seededCandidate], ∀ c ∈ [algebra, chemLab],
      courseCount c._id t.schedule =
        ⌈(c.hoursPerWeek : ℚ) / (if c.type = CourseType.practical then 2 else 1)⌉₊ :=
  ⟨by rfl,
    generateInitialPopulation_session_counts 8 (emptyTimetable 1 1 "2025" none)
      [algebra, chemLab] staff rooms 1 (fun i => i / 2) 0 [seededCandidate] 10
      (by decide) (by decide) (by rfl)⟩

/-! ## Free slots and placement -/

theorem timeSlots_eq :
    timeSlots = [⟨⟨8, 0⟩, ⟨9, 0⟩⟩, ⟨⟨9, 0⟩, ⟨10, 0⟩⟩, ⟨⟨10, 0⟩, ⟨11, 0⟩⟩, ⟨⟨11, 0⟩, ⟨12, 0⟩⟩,
      ⟨⟨12, 0⟩, ⟨13, 0⟩⟩, ⟨⟨13, 0⟩, ⟨14, 0⟩⟩, ⟨⟨14, 0⟩, ⟨15, 0⟩⟩, ⟨⟨15, 0⟩, ⟨16, 0⟩⟩,
      ⟨⟨16, 0⟩, ⟨17, 0⟩⟩] := by
  decide

theorem mem_timeSlots (slot : Slot) (h : slot ∈ timeSlots) :
    ∃ hh, 8 ≤ hh ∧ hh ≤ 16 ∧ slot = ⟨⟨hh, 0⟩, ⟨hh + 1, 0⟩⟩ := by
  rw [timeSlots_eq] at h
  simp only [List.mem_cons, List.mem_singleton, List.not_mem_nil, or_false] at h
  rcases h with h | h | h | h | h | h | h | h | h <;> subst h
  exacts [⟨8, by omega, by omega, rfl⟩, ⟨9, by omega, by omega, rfl⟩,
    ⟨10, by omega, by omega, rfl⟩, ⟨11, by omega, by omega, rfl⟩,
    ⟨12, by omega, by omega, rfl⟩, ⟨13, by omega, by omega, rfl⟩,
    ⟨14, by omega, by omega, rfl⟩, ⟨15, by omega, by omega, rfl⟩,
    ⟨16, by omega, by omega, rfl⟩]

theorem filterSlots_nil (constraints : Constraints) (slots : List Slot) :
    filterSlots [] constraints slots =
      .ok (slots.filter
        (fun s => !isLunchBreak constraints (minutesOf s.start) (minutesOf s.end_))) := by
  induction slots with
  | nil => rfl
  | cons s rest ih =>
    simp only [filterSlots, slotIsAvailable, hasOverlap, ih, Bool.not_false, Bool.true_and,
      List.filter_cons]

theorem filterSlots_cons (used : UsedSlot) (usedSlots : List UsedSlot)
    (constraints : Constraints) (slot : Slot) (slots : List Slot) :
    filterSlots (used :: usedSlots) constraints (slot :: slots) = .error .typeError := by
  simp [filterSlots, slotIsAvailable, hasOverlap, parseTime]

theorem getAvailableSlots_of_empty (daySchedule : DaySchedule) (constraints : Constraints)
    (h : daySchedule.timeSlots = []) :
    getAvailableSlots daySchedule constraints =
      .ok (timeSlots.filter
        (fun s => !isLunchBreak constraints (minutesOf s.start) (minutesOf s.end_))) := by
  simp [getAvailableSlots, h, filterSlots_nil]

theorem getAvailableSlots_of_ne_nil (daySchedule : DaySchedule) (constraints : Constraints)
    (h : daySchedule.timeSlots ≠ []) :
    getAvailableSlots daySchedule constraints = .error .typeError := by
  cases hts : daySchedule.timeSlots with
  | nil => exact absurd hts h
  | cons a rest =>
    rw [getAvailableSlots, hts, timeSlots_eq]
    exact filterSlots_cons _ _ _ _ _

theorem getAvailableSlots_ok (daySchedule : DaySchedule) (constraints : Constraints)
    (slots : List Slot) (h : getAvailableSlots daySchedule constraints = .ok slots) :
    daySchedule.timeSlots = [] ∧
      slots = timeSlots.filter
        (fun s => !isLunchBreak constraints (minutesOf s.start) (minutesOf s.end_)) := by
  by_cases he : daySchedule.timeSlots = []
  · rw [getAvailableSlots_of_empty _ _ he] at h
    exact ⟨he, by simpa using h.symm⟩
  · rw [getAvailableSlots_of_ne_nil _ _ he] at h
    cases h

theorem mutate_state (t : Timetable) (rnd : Rand) (pos : Nat) :
    (mutate t rnd pos).state.1 = t := by
  unfold mutate
  split
  · simp only
    split
    · rfl
    · rename_i daySchedule _
      split
      · rename_i hlen
        have hne : daySchedule.timeSlots ≠ [] := by
          intro h; simp [h] at hlen
        rw [getAvailableSlots_of_ne_nil _ _ hne]
        rfl
      · rfl
  · rfl

theorem extendsBy_refl (Q : Assignment → Prop) (s : List DaySchedule) : ExtendsBy Q s s := by
  induction s with
  | nil => exact List.Forall₂.nil
  | cons d rest ih => exact List.Forall₂.cons ⟨rfl, [], by simp, by simp⟩ ih

theorem extendsBy_mono {Q R : Assignment → Prop} (hQR : ∀ a, Q a → R a)
    {s1 s2 : List DaySchedule} (h : ExtendsBy Q s1 s2) : ExtendsBy R s1 s2 := by
  induction h with
  | nil => exact List.Forall₂.nil
  | cons hd _ ih =>
    obtain ⟨hday, added, hadd, hall⟩ := hd
    exact List.Forall₂.cons ⟨hday, added, hadd, fun a ha => hQR a (hall a ha)⟩ ih

theorem extendsBy_push {Q : Assignment → Prop} {s1 s2 : List DaySchedule}
    (h : ExtendsBy Q s1 s2) (d : Day) (a : Assignment) (ha : Q a) :
    ExtendsBy Q s1
      (updateDay d (fun x => { x with timeSlots := x.timeSlots ++ [a] }) s2) := by
  induction h with
  | nil => exact List.Forall₂.nil
  | cons hd htl ih =>
    rename_i d1 d2 l1 l2
    obtain ⟨hday, added, hadd, hall⟩ := hd
    by_cases hd2 : d2.day = d
    · simp only [updateDay, hd2, beq_self_eq_true, if_true]
      refine List.Forall₂.cons ⟨hd2 ▸ hday, added ++ [a], by simp [hadd], ?_⟩ htl
      intro b hb
      rcases List.mem_append.mp hb with hb | hb
      · exact hall b hb
      · simp only [List.mem_singleton] at hb
        exact hb ▸ ha
    · simp only [updateDay, beq_iff_eq, hd2, if_false]
      exact List.Forall₂.cons ⟨hday, added, hadd, hall⟩ ih

/-- Whatever way a run of the placement loop ends, the timetable has only
gained assignments built for the course on calendar slots that pass the
lunch test, and no other field has changed. -/
theorem assignLoop_extends (course : Course) (faculties : List Faculty)
    (classrooms : List Classroom) (rnd : Rand) (required fuel : Nat) (t : Timetable)
    (pos k : Nat) (r : Run (Timetable × Nat))
    (h : assignLoop course faculties classrooms rnd required fuel t pos k = some r) :
    r.state.1.constraints = t.constraints ∧ r.state.1.conflicts = t.conflicts ∧
      r.state.1.fitnessScore = t.fitnessScore ∧
      ExtendsBy (PlacedFor course faculties classrooms t.constraints) t.schedule
        r.state.1.schedule := by
  have key := assignLoop_invariant course faculties classrooms rnd required
    (fun t2 _ => t2.constraints = t.constraints ∧ t2.conflicts = t.conflicts ∧
      t2.fitnessScore = t.fitnessScore ∧
      ExtendsBy (PlacedFor course faculties classrooms t.constraints) t.schedule t2.schedule)
    (by
      intro t2 k d daySchedule slots slot hP _ _ _ hslots hslot
      obtain ⟨hc, hcf, hf, hext⟩ := hP
      refine ⟨hc, hcf, hf, ?_⟩
      apply extendsBy_push hext
      obtain ⟨_, hs⟩ := getAvailableSlots_ok _ _ _ hslots
      rw [hs, List.mem_filter] at hslot
      exact ⟨slot, hslot.1, by simpa [hc] using hslot.2, rfl⟩)
    fuel t pos k r ⟨rfl, rfl, rfl, extendsBy_refl _ _⟩ h
  obtain ⟨_, hP, _⟩ := key
  exact hP

theorem placedFor_within_calendar {course : Course} {faculties : List Faculty}
    {classrooms : List Classroom} {constraints : Constraints} {a : Assignment}
    (h : PlacedFor course faculties classrooms constraints a) :
    (⟨a.startTime, a.endTime⟩ : Slot) ∈ timeSlots ∧
      minutesOf ⟨8, 0⟩ ≤ minutesOf a.startTime ∧ minutesOf a.endTime ≤ minutesOf ⟨17, 0⟩ := by
  obtain ⟨slot, hslot, _, rfl⟩ := h
  refine ⟨hslot, ?_⟩
  obtain ⟨hh, h8, h16, rfl⟩ := mem_timeSlots slot hslot
  simp only [newAssignment, minutesOf]
  omega

theorem slot_lunch (constraints : Constraints) (lb : TimeRange)
    (hlb : constraints.lunchBreak = some lb) (slot : Slot) (hslot : slot ∈ timeSlots)
    (hpass : isLunchBreak constraints (minutesOf slot.start) (minutesOf slot.end_) = false) :
    ¬ (minutesOf lb.start ≤ minutesOf slot.start ∧ minutesOf slot.end_ ≤ minutesOf lb.end_) ∧
      (lb.start.mm = 0 → lb.end_.mm = 0 →
        ¬ (minutesOf slot.start < minutesOf lb.end_ ∧
          minutesOf lb.start < minutesOf slot.end_)) := by
  obtain ⟨hh, h8, h16, rfl⟩ := mem_timeSlots slot hslot
  simp only [isLunchBreak, hlb, Bool.and_eq_false_imp, decide_eq_true_eq,
    decide_eq_false_iff_not] at hpass
  constructor
  · intro ⟨h1, h2⟩
    exact hpass h1 h2
  · intro hs he ⟨h1, h2⟩
    simp only [minutesOf, hs, he] at h1 h2 hpass
    exact hpass (by omega) (by omega)

theorem placedFor_lunch {course : Course} {faculties : List Faculty}
    {classrooms : List Classroom} {constraints : Constraints} {a : Assignment}
    (h : PlacedFor course faculties classrooms constraints a) (lb : TimeRange)
    (hlb : constraints.lunchBreak = some lb) :
    ¬ (minutesOf lb.start ≤ minutesOf a.startTime ∧ minutesOf a.endTime ≤ minutesOf lb.end_) ∧
      (lb.start.mm = 0 → lb.end_.mm = 0 →
        ¬ (minutesOf a.startTime < minutesOf lb.end_ ∧
          minutesOf lb.start < minutesOf a.endTime)) := by
  obtain ⟨slot, hslot, hlunch, rfl⟩ := h
  exact slot_lunch constraints lb hlb slot hslot hlunch

/-! ## Crossover -/

theorem eq_six_of_length {α : Type} (l : List α) (h : l.length = 6) :
    ∃ a b c d e f, l = [a, b, c, d, e, f] := by
  match l, h with
  | [a, b, c, d, e, f], _ => exact ⟨a, b, c, d, e, f, rfl⟩

theorem crossoverAt_eq (parent1 parent2 : Timetable) (k : Nat)
    (h1 : parent1.schedule.length = 6) (h2 : parent2.schedule.length = 6) (hk : k < 6) :
    crossoverAt k parent1 parent2 =
      .ok { parent1 with schedule := crossedSchedule k parent1.schedule parent2.schedule } := by
  obtain ⟨a1, b1, c1, d1, e1, f1, hs1⟩ := eq_six_of_length _ h1
  obtain ⟨a2, b2, c2, d2, e2, f2, hs2⟩ := eq_six_of_length _ h2
  interval_cases k <;>
    simp [crossoverAt, crossoverLoop, crossoverStep, crossedSchedule, days, hs1, hs2,
      List.range']

theorem courseCount_append (c : Nat) (s1 s2 : List DaySchedule) :
    courseCount c (s1 ++ s2) = courseCount c s1 + courseCount c s2 := by
  simp [courseCount]

theorem courseCount_zipWith (c : Nat) (s1 s2 : List DaySchedule) (h : s1.length = s2.length) :
    courseCount c (List.zipWith (fun d1 d2 => { d1 with timeSlots := d2.timeSlots }) s1 s2) =
      courseCount c s2 := by
  induction s1 generalizing s2 with
  | nil => cases s2 <;> simp_all [courseCount]
  | cons x xs ih =>
    cases s2 with
    | nil => simp at h
    | cons y ys =>
      have := ih ys (by simpa using h)
      simp only [courseCount] at this
      simp [courseCount, this]

theorem courseCount_crossedSchedule (c k : Nat) (s1 s2 : List DaySchedule)
    (h : s1.length = s2.length) :
    courseCount c (crossedSchedule k s1 s2) =
      courseCount c (s1.take k) + courseCount c (s2.drop k) := by
  rw [crossedSchedule, courseCount_append, courseCount_zipWith]
  simp [h]

/-! ## Crossover: claims -/

/-- Claim C8: for parents with six days each and a cut point `k` in `0..5`,
`crossover` returns a child with six days, the day labels of parent1 in the
same order, parent1's assignment list on every day before `k`, parent2's on
every day from `k` on, and parent1's constraints block. -/
theorem crossover_days (parent1 parent2 : Timetable) (k : Nat)
    (h1 : parent1.schedule.length = 6) (h2 : parent2.schedule.length = 6) (hk : k < 6) :
    ∃ child, crossoverAt k parent1 parent2 = .ok child ∧
      child.schedule.length = 6 ∧
      child.schedule.map (fun d => d.day) = parent1.schedule.map (fun d => d.day) ∧
      (∀ i, i < k → (child.schedule[i]?).map (fun d => d.timeSlots) =
        (parent1.schedule[i]?).map (fun d => d.timeSlots)) ∧
      (∀ i, k ≤ i → i < 6 → (child.schedule[i]?).map (fun d => d.timeSlots) =
        (parent2.schedule[i]?).map (fun d => d.timeSlots)) ∧
      child.constraints = parent1.constraints ∧
      (∀ (rnd : Rand) (pos : Nat), rnd pos % 6 = k →
        crossover parent1 parent2 rnd pos = .ok (child, pos + 1)) := by
  refine ⟨_, crossoverAt_eq parent1 parent2 k h1 h2 hk, ?_, ?_, ?_, ?_, rfl, ?_⟩
  · obtain ⟨a1, b1, c1, d1, e1, f1, hs1⟩ := eq_six_of_length _ h1
    obtain ⟨a2, b2, c2, d2, e2, f2, hs2⟩ := eq_six_of_length _ h2
    interval_cases k <;> simp [crossedSchedule, hs1, hs2]
  · obtain ⟨a1, b1, c1, d1, e1, f1, hs1⟩ := eq_six_of_length _ h1
    obtain ⟨a2, b2, c2, d2, e2, f2, hs2⟩ := eq_six_of_length _ h2
    interval_cases k <;> simp [crossedSchedule, hs1, hs2]
  · intro i hi
    obtain ⟨a1, b1, c1, d1, e1, f1, hs1⟩ := eq_six_of_length _ h1
    obtain ⟨a2, b2, c2, d2, e2, f2, hs2⟩ := eq_six_of_length _ h2
    interval_cases k <;> interval_cases i <;> simp [crossedSchedule, hs1, hs2]
  · intro i hki hi
    obtain ⟨a1, b1, c1, d1, e1, f1, hs1⟩ := eq_six_of_length _ h1
    obtain ⟨a2, b2, c2, d2, e2, f2, hs2⟩ := eq_six_of_length _ h2
    interval_cases k <;> interval_cases i <;> simp [crossedSchedule, hs1, hs2]
  · intro rnd pos hr
    simp [crossover, randomIndex, days, hr, crossoverAt_eq parent1 parent2 k h1 h2 hk]

/-- The child of claim C8 for the cut point 1. -/
theorem crossover_days_witness :
    ∃ child, crossoverAt 1 mondayPlan tuesdayPlan = .ok child ∧
      child.schedule.length = 6 ∧
      child.schedule.map (fun d => d.day) = mondayPlan.schedule.map (fun d => d.day) ∧
      (∀ i, i < 1 → (child.schedule[i]?).map (fun d => d.timeSlots) =
        (mondayPlan.schedule[i]?).map (fun d => d.timeSlots)) ∧
      (∀ i, 1 ≤ i → i < 6 → (child.schedule[i]?).map (fun d => d.timeSlots) =
        (tuesdayPlan.schedule[i]?).map (fun d => d.timeSlots)) ∧
      child.constraints = mondayPlan.constraints ∧
      (∀ (rnd : Rand) (pos : Nat), rnd pos % 6 = 1 →
        crossover mondayPlan tuesdayPlan rnd pos = .ok (child, pos + 1)) :=
  crossover_days mondayPlan tuesdayPlan 1 (by decide) (by decide) (by decide)

/-- Claim C4 fails: both parents hold the one required seminar session, the
child of the cut point 1 holds two, and so does the candidate that
`evolvePopulation` returns after one generation. -/
theorem crossover_session_count_counterexample :
    requiredSlots seminar = 1 ∧
    courseCount seminar._id mondayPlan.schedule = 1 ∧
    courseCount seminar._id tuesdayPlan.schedule = 1 ∧
    crossoverAt 1 mondayPlan tuesdayPlan = .ok bothDaysPlan ∧
    evolvePopulation [mondayPlan, tuesdayPlan, mondayPlan] 1
      (draws [0, 0, 0, 1, 1, 1, 0, 1, 1, 1, 0, 1, 1, 1, 0, 1, 1, 1]) 0 =
        .ok (some bothDaysPlan, 18) ∧
    courseCount seminar._id bothDaysPlan.schedule = 2 := by
  refine ⟨by decide, by decide, by decide, by rfl, by rfl, by decide⟩

/-- Claim C4, amended: for parents with six days each and a cut point `k` in
`0..5`, the child holds for every course the assignments of parent1 on the
days before `k` plus those of parent2 on the days from `k` on; it holds the
count `n` common to both parents when they hold equally many on the days
before `k`. -/
theorem crossover_courseCount (parent1 parent2 : Timetable) (k : Nat)
    (h1 : parent1.schedule.length = 6) (h2 : parent2.schedule.length = 6) (hk : k < 6) :
    ∃ child, crossoverAt k parent1 parent2 = .ok child ∧
      ∀ c, courseCount c child.schedule =
          courseCount c (parent1.schedule.take k) + courseCount c (parent2.schedule.drop k) ∧
        ∀ n, courseCount c parent1.schedule = n → courseCount c parent2.schedule = n →
          courseCount c (parent1.schedule.take k) = courseCount c (parent2.schedule.take k) →
          courseCount c child.schedule = n := by
  refine ⟨_, crossoverAt_eq parent1 parent2 k h1 h2 hk, fun c => ?_⟩
  have hcount := courseCount_crossedSchedule c k parent1.schedule parent2.schedule
    (h1.trans h2.symm)
  refine ⟨hcount, fun n _ hn2 htake => ?_⟩
  have hsplit : courseCount c parent2.schedule =
      courseCount c (parent2.schedule.take k) + courseCount c (parent2.schedule.drop k) := by
    rw [← courseCount_append, List.take_append_drop]
  show courseCount c (crossedSchedule k parent1.schedule parent2.schedule) = n
  omega

/-- The count of claim C4 for the cut point 0. -/
theorem crossover_courseCount_witness :
    ∃ child, crossoverAt 0 mondayPlan tuesdayPlan = .ok child ∧
      ∀ c, courseCount c child.schedule =
          courseCount c (mondayPlan.schedule.take 0) +
            courseCount c (tuesdayPlan.schedule.drop 0) ∧
        ∀ n, courseCount c mondayPlan.schedule = n → courseCount c tuesdayPlan.schedule = n →
          courseCount c (mondayPlan.schedule.take 0) =
            courseCount c (tuesdayPlan.schedule.take 0) →
          courseCount c child.schedule = n :=
  crossover_courseCount mondayPlan tuesdayPlan 0 (by decide) (by decide) (by decide)

/-! ## Working hours and lunch break -/

theorem relocatesBy_refl (Q : Assignment → Prop) (s : List DaySchedule) :
    RelocatesBy Q s s := by
  induction s with
  | nil => exact List.Forall₂.nil
  | cons d rest ih =>
    refine List.Forall₂.cons ⟨rfl, ?_⟩ ih
    induction d.timeSlots with
    | nil => exact List.Forall₂.nil
    | cons a l iha => exact List.Forall₂.cons (Or.inl rfl) iha

/-- Claim C5 fails: with working hours 09:00-16:00 in the constraints block,
`assignCourseRandomly` places the seminar at 08:00. -/
theorem working_hours_counterexample :
    assignCourseRandomly 3 (emptyTimetable 1 1 "2025" (some shortDay)) seminar [] []
        (fun _ => 0) 0 = some (.returned (seminarPlaced (some shortDay), 2)) ∧
    seminarSession ∈ (seminarPlaced (some shortDay)).schedule.flatMap (fun d => d.timeSlots) ∧
    minutesOf seminarSession.startTime <
      minutesOf (seminarPlaced (some shortDay)).constraints.workingHours.start := by
  refine ⟨by rfl, by decide, by decide⟩

/-- Claim C5, amended: every assignment added by `assignCourseRandomly`, and
every assignment whose time `mutate` has changed, occupies a slot of the fixed
calendar of the generator, so it starts at 08:00 or later and ends at 17:00
or earlier, whatever `constraints.workingHours` holds. -/
theorem placed_within_calendar (fuel : Nat) (t : Timetable) (course : Course)
    (faculties : List Faculty) (classrooms : List Classroom) (rnd : Rand) (pos : Nat)
    (r : Run (Timetable × Nat))
    (h : assignCourseRandomly fuel t course faculties classrooms rnd pos = some r) :
    ExtendsBy (fun a => (⟨a.startTime, a.endTime⟩ : Slot) ∈ timeSlots ∧
        minutesOf ⟨8, 0⟩ ≤ minutesOf a.startTime ∧ minutesOf a.endTime ≤ minutesOf ⟨17, 0⟩)
      t.schedule r.state.1.schedule ∧
    ∀ (t2 : Timetable) (rnd2 : Rand) (pos2 : Nat),
      RelocatesBy (fun a => (⟨a.startTime, a.endTime⟩ : Slot) ∈ timeSlots ∧
          minutesOf ⟨8, 0⟩ ≤ minutesOf a.startTime ∧ minutesOf a.endTime ≤ minutesOf ⟨17, 0⟩)
        t2.schedule (mutate t2 rnd2 pos2).state.1.schedule := by
  constructor
  · exact extendsBy_mono (fun a ha => placedFor_within_calendar ha)
      (assignLoop_extends _ _ _ _ _ _ _ _ _ _ h).2.2.2
  · intro t2 rnd2 pos2
    rw [mutate_state]
    exact relocatesBy_refl _ _

/-- The bound of claim C5 for the seminar placed on Monday. -/
theorem placed_within_calendar_witness :
    ExtendsBy (fun a => (⟨a.startTime, a.endTime⟩ : Slot) ∈ timeSlots ∧
        minutesOf ⟨8, 0⟩ ≤ minutesOf a.startTime ∧ minutesOf a.endTime ≤ minutesOf ⟨17, 0⟩)
      (emptyTimetable 1 1 "2025" none).schedule
      (Run.returned (seminarPlaced none, 2)).state.1.schedule ∧
    ∀ (t2 : Timetable) (rnd2 : Rand) (pos2 : Nat),
      RelocatesBy (fun a => (⟨a.startTime, a.endTime⟩ : Slot) ∈ timeSlots ∧
          minutesOf ⟨8, 0⟩ ≤ minutesOf a.startTime ∧ minutesOf a.endTime ≤ minutesOf ⟨17, 0⟩)
        t2.schedule (mutate t2 rnd2 pos2).state.1.schedule :=
  placed_within_calendar 3 (emptyTimetable 1 1 "2025" none) seminar [] [] (fun _ => 0) 0
    (.returned (seminarPlaced none, 2)) (by rfl)

/-- Claim C6 fails: with the lunch break 12:30-13:30 `getAvailableSlots`
returns the whole calendar, the slot 12:00-13:00 included, and
`assignCourseRandomly` places the seminar on it. -/
theorem lunch_window_counterexample :
    getAvailableSlots ⟨Day.friday, []⟩ lateLunch = .ok timeSlots ∧
    (⟨⟨12, 0⟩, ⟨13, 0⟩⟩ : Slot) ∈ timeSlots ∧
    minutesOf ⟨12, 0⟩ < minutesOf ⟨13, 30⟩ ∧ minutesOf ⟨12, 30⟩ < minutesOf ⟨13, 0⟩ ∧
    assignCourseRandomly 3 (emptyTimetable 1 1 "2025" (some lateLunch)) seminar [] []
        (fun _ => 4) 0 =
      some (.returned
        ({ emptyTimetable 1 1 "2025" (some lateLunch) with
            schedule :=
              [⟨Day.monday, []⟩, ⟨Day.tuesday, []⟩, ⟨Day.wednesday, []⟩, ⟨Day.thursday, []⟩,
                ⟨Day.friday, [⟨⟨12, 0⟩, ⟨13, 0⟩, 9, none, none, "A", false⟩]⟩,
                ⟨Day.saturday, []⟩] }, 2)) := by
  refine ⟨by rfl, by decide, by decide, by decide, by rfl⟩

/-- Claim C6, amended: no slot returned by `getAvailableSlots` lies inside the
lunch window (start at or after its start and end at or before its end), and
when both bounds of the window are whole hours no returned slot intersects
it; the same holds for the assignments added by `assignCourseRandomly` and
for an assignment whose time `mutate` has changed. -/
theorem available_slots_lunch (constraints : Constraints) (lb : TimeRange)
    (hlb : constraints.lunchBreak = some lb) :
    (∀ (daySchedule : DaySchedule) (slots : List Slot),
      getAvailableSlots daySchedule constraints = .ok slots → ∀ slot ∈ slots,
        ¬ (minutesOf lb.start ≤ minutesOf slot.start ∧
            minutesOf slot.end_ ≤ minutesOf lb.end_) ∧
        (lb.start.mm = 0 → lb.end_.mm = 0 →
          ¬ (minutesOf slot.start < minutesOf lb.end_ ∧
            minutesOf lb.start < minutesOf slot.end_))) ∧
    (∀ (fuel : Nat) (t : Timetable) (course : Course) (faculties : List Faculty)
      (classrooms : List Classroom) (rnd : Rand) (pos : Nat) (r : Run (Timetable × Nat)),
      t.constraints = constraints →
      assignCourseRandomly fuel t course faculties classrooms rnd pos = some r →
      ExtendsBy (fun a =>
          ¬ (minutesOf lb.start ≤ minutesOf a.startTime ∧
              minutesOf a.endTime ≤ minutesOf lb.end_) ∧
          (lb.start.mm = 0 → lb.end_.mm = 0 →
            ¬ (minutesOf a.startTime < minutesOf lb.end_ ∧
              minutesOf lb.start < minutesOf a.endTime)))
        t.schedule r.state.1.schedule) ∧
    (∀ (t : Timetable) (rnd : Rand) (pos : Nat), t.constraints = constraints →
      RelocatesBy (fun a =>
          ¬ (minutesOf lb.start ≤ minutesOf a.startTime ∧
              minutesOf a.endTime ≤ minutesOf lb.end_) ∧
          (lb.start.mm = 0 → lb.end_.mm = 0 →
            ¬ (minutesOf a.startTime < minutesOf lb.end_ ∧
              minutesOf lb.start < minutesOf a.endTime)))
        t.schedule (mutate t rnd pos).state.1.schedule) := by
  refine ⟨?_, ?_, ?_⟩
  · intro daySchedule slots h slot hslot
    obtain ⟨_, hs⟩ := getAvailableSlots_ok _ _ _ h
    rw [hs, List.mem_filter] at hslot
    exact slot_lunch constraints lb hlb slot hslot.1 (by simpa using hslot.2)
  · intro fuel t course faculties classrooms rnd pos r hc h
    exact extendsBy_mono (fun a ha => placedFor_lunch ha lb (hc ▸ hlb))
      (assignLoop_extends _ _ _ _ _ _ _ _ _ _ h).2.2.2
  · intro t rnd pos _
    rw [mutate_state]
    exact relocatesBy_refl _ _

/-- The lunch rule of claim C6 under the default constraints. -/
theorem available_slots_lunch_witness :
    defaultConstraints.lunchBreak = some ⟨⟨12, 0⟩, ⟨13, 0⟩⟩ ∧
    ∀ slot ∈ timeSlots.filter (fun s => s.start.hh != 12),
      ¬ (minutesOf slot.start < minutesOf ⟨13, 0⟩ ∧ minutesOf ⟨12, 0⟩ < minutesOf slot.end_) :=
  ⟨rfl, fun slot hslot =>
    (((available_slots_lunch defaultConstraints ⟨⟨12, 0⟩, ⟨13, 0⟩⟩ rfl).1
      ⟨Day.monday, []⟩ _ (by rfl)) slot hslot).2 rfl rfl⟩

/-! ## Termination of the placement loop -/

theorem randomDay_mem (r : Nat) : days.getD (randomIndex r days.length) Day.monday ∈ days := by
  have h : r % 6 < 6 := Nat.mod_lt _ (by omega)
  simp only [randomIndex, days, List.length_cons, List.length_nil]
  norm_num
  interval_cases (r % 6) <;> simp

theorem assignLoop_blocked (course : Course) (faculties : List Faculty)
    (classrooms : List Classroom) (rnd : Rand) (required : Nat) (t : Timetable) (k : Nat)
    (hk : k < required)
    (hfull : ∀ d ∈ days, ∃ ds, findDay t.schedule d = some ds ∧
      t.constraints.maxClassesPerDay ≤ (ds.timeSlots.length : Int)) :
    ∀ (fuel pos : Nat),
      assignLoop course faculties classrooms rnd required fuel t pos k = none := by
  intro fuel
  induction fuel with
  | zero => intro pos; rfl
  | succ fuel ih =>
    intro pos
    obtain ⟨ds, hfind, hmax⟩ := hfull _ (randomDay_mem (rnd pos))
    rw [assignLoop, if_pos hk]
    simp only [hfind]
    rw [if_neg (not_lt.mpr hmax)]
    exact ih (pos + 1)

/-- Claim C7 fails: with `maxClassesPerDay = 0` no day accepts a session, and
the placement loop of `assignCourseRandomly` is still running after any
number of rounds, for every source of draws. -/
theorem assignCourseRandomly_diverges :
    requiredSlots seminar = 1 ∧
    (∀ d ∈ (emptyTimetable 1 1 "2025" (some noClasses)).schedule,
      (emptyTimetable 1 1 "2025" (some noClasses)).constraints.maxClassesPerDay ≤
        (d.timeSlots.length : Int)) ∧
    ∀ (rnd : Rand) (pos fuel : Nat),
      assignCourseRandomly fuel (emptyTimetable 1 1 "2025" (some noClasses)) seminar [] []
        rnd pos = none := by
  refine ⟨by decide, by decide, fun rnd pos fuel => ?_⟩
  exact assignLoop_blocked seminar [] [] rnd _ _ 0 (by decide) (by decide) fuel pos

/-- Claim C7, amended: `assignCourseRandomly` has no bound on its attempts
and records no unresolved session. When a session is required and each of the
six days already holds `maxClassesPerDay` assignments or more, the loop never
exits, for every source of draws; and a call that ends, by return or by an
exception, leaves `timetable.conflicts` as it was. -/
theorem assignCourseRandomly_unbounded (t : Timetable) (course : Course)
    (faculties : List Faculty) (classrooms : List Classroom)
    (hreq : 0 < requiredSlots course)
    (hfull : ∀ d ∈ days, ∃ ds, findDay t.schedule d = some ds ∧
      t.constraints.maxClassesPerDay ≤ (ds.timeSlots.length : Int)) :
    (∀ (rnd : Rand) (pos fuel : Nat),
      assignCourseRandomly fuel t course faculties classrooms rnd pos = none) ∧
    (∀ (t2 : Timetable) (rnd : Rand) (pos fuel : Nat) (r : Run (Timetable × Nat)),
      assignCourseRandomly fuel t2 course faculties classrooms rnd pos = some r →
      r.state.1.conflicts = t2.conflicts) := by
  constructor
  · intro rnd pos fuel
    exact assignLoop_blocked course faculties classrooms rnd _ t 0 hreq hfull fuel pos
  · intro t2 rnd pos fuel r h
    exact (assignLoop_extends _ _ _ _ _ _ _ _ _ _ h).2.1

/-- The loop of claim C7 on a week whose days are all full. -/
theorem assignCourseRandomly_unbounded_witness :
    0 < requiredSlots algebra ∧
    (∀ (rnd : Rand) (pos fuel : Nat),
      assignCourseRandomly fuel fullWeek algebra staff rooms rnd pos = none) ∧
    (∀ (t2 : Timetable) (rnd : Rand) (pos fuel : Nat) (r : Run (Timetable × Nat)),
      assignCourseRandomly fuel t2 algebra staff rooms rnd pos = some r →
      r.state.1.conflicts = t2.conflicts) :=
  ⟨by decide, assignCourseRandomly_unbounded fullWeek algebra staff rooms (by decide)
    (by decide)⟩

/-! ## Mutation -/

/-- Claim C9: `mutate` changes at most one assignment and only its
`startTime` and `endTime`, to a calendar slot free on that day; days, number
of assignments per day and all other fields stay as they were; the timetable
is unchanged when the draw fails the gate, when the chosen day is empty and
when the chosen day has no free slot. The timetable is in fact never changed:
on a day that holds an assignment `getAvailableSlots` raises before the
writes of `mutate` are reached. -/
theorem mutate_frame (t : Timetable) (rnd : Rand) (pos : Nat) :
    MovedAtMostOne t.constraints t.schedule (mutate t rnd pos).state.1.schedule ∧
    RelocatesBy (fun _ => True) t.schedule (mutate t rnd pos).state.1.schedule ∧
    (mutate t rnd pos).state.1.constraints = t.constraints ∧
    (mutate t rnd pos).state.1.conflicts = t.conflicts ∧
    (mutate t rnd pos).state.1.fitnessScore = t.fitnessScore ∧
    (mutationGate (rnd pos) = false → mutate t rnd pos = .returned (t, pos + 1)) ∧
    (∀ ds, mutationGate (rnd pos) = true →
      findDay t.schedule (days.getD (randomIndex (rnd (pos + 1)) days.length) Day.monday)
        = some ds →
      ds.timeSlots = [] → mutate t rnd pos = .returned (t, pos + 2)) ∧
    (∀ ds, mutationGate (rnd pos) = true →
      findDay t.schedule (days.getD (randomIndex (rnd (pos + 1)) days.length) Day.monday)
        = some ds →
      (∀ slot, ¬ FreeOn t.constraints ds slot) → (mutate t rnd pos).state.1 = t) ∧
    (mutate t rnd pos).state.1 = t := by
  refine ⟨?_, ?_, ?_, ?_, ?_, ?_, ?_, ?_, mutate_state t rnd pos⟩
  · rw [mutate_state]; exact Or.inl rfl
  · rw [mutate_state]; exact relocatesBy_refl _ _
  · rw [mutate_state]
  · rw [mutate_state]
  · rw [mutate_state]
  · intro hg
    simp [mutate, hg]
  · intro ds hg hfind hempty
    rw [mutate, if_pos hg]
    simp only [hfind, hempty, List.length_nil, gt_iff_lt, Nat.lt_irrefl, if_false]
  · intro ds _ _ _
    exact mutate_state t rnd pos

/-! ## Evolution -/

theorem sortByFitness_head (xs : List Timetable) (hne : xs ≠ []) :
    ∃ best, (sortByFitness xs).head? = some best ∧ best ∈ xs ∧
      ∀ c ∈ xs, c.fitnessScore ≤ best.fitnessScore := by
  haveI : IsTotal Timetable (fun a b => b.fitnessScore ≤ a.fitnessScore) :=
    ⟨fun a b => le_total b.fitnessScore a.fitnessScore⟩
  haveI : IsTrans Timetable (fun a b => b.fitnessScore ≤ a.fitnessScore) :=
    ⟨fun a b c hab hbc => le_trans hbc hab⟩
  have hsorted := List.sorted_insertionSort (fun a b : Timetable => b.fitnessScore ≤ a.fitnessScore) xs
  have hperm := List.perm_insertionSort (fun a b : Timetable => b.fitnessScore ≤ a.fitnessScore) xs
  unfold sortByFitness
  cases hs : List.insertionSort (fun a b : Timetable => b.fitnessScore ≤ a.fitnessScore) xs with
  | nil =>
    rw [hs] at hperm
    exact absurd hperm.symm.eq_nil hne
  | cons best rest =>
    rw [hs] at hperm hsorted
    refine ⟨best, rfl, hperm.subset (List.mem_cons_self _ _), fun c hc => ?_⟩
    rcases List.mem_cons.mp (hperm.symm.subset hc) with rfl | hrest
    · exact le_refl _
    · exact List.rel_of_sorted_cons hsorted c hrest

/-- Claim C10 fails: from an initial population whose best candidate scores
100, one generation returns a candidate that scores 90. -/
theorem evolvePopulation_loses_best :
    (calculateFitness mondayPlan).1 = mondayPlan.fitnessScore ∧
    (calculateFitness clash).1 = clash.fitnessScore ∧
    evolvePopulation [mondayPlan, clash] 1 (fun _ => 1) 0 = .ok (some clash, 11) ∧
    clash.fitnessScore < mondayPlan.fitnessScore := by
  refine ⟨by rfl, by rfl, by rfl, by decide⟩

/-- Claim C10, amended: the candidate returned by `evolvePopulation` is a
member of the population after the last generation (the initial population
when `generations = 0`) and scores at least as high as every member of that
population. -/
theorem evolvePopulation_best_of_last (population : List Timetable) (generations : Nat)
    (rnd : Rand) (pos : Nat) (final : List Timetable) (pos1 : Nat)
    (hrun : evolveGenerations rnd generations population pos = .ok (final, pos1))
    (hne : final ≠ []) :
    ∃ best, evolvePopulation population generations rnd pos = .ok (some best, pos1) ∧
      best ∈ final ∧ (∀ c ∈ final, c.fitnessScore ≤ best.fitnessScore) ∧
      (generations = 0 → final = population) := by
  obtain ⟨best, hhead, hmem, hmax⟩ := sortByFitness_head final hne
  refine ⟨best, ?_, hmem, hmax, ?_⟩
  · simp [evolvePopulation, hrun, hhead]
  · intro h0
    subst h0
    simp only [evolveGenerations, Except.ok.injEq, Prod.mk.injEq] at hrun
    exact hrun.1.symm

/-- The bound of claim C10 on a run of one generation. -/
theorem evolvePopulation_best_of_last_witness :
    ∃ best, evolvePopulation [mondayPlan, clash] 1 (fun _ => 1) 0 = .ok (some best, 11) ∧
      best ∈ [clash, clash] ∧ (∀ c ∈ [clash, clash], c.fitnessScore ≤ best.fitnessScore) ∧
      (1 = 0 → [clash, clash] = [mondayPlan, clash]) :=
  evolvePopulation_best_of_last [mondayPlan, clash] 1 (fun _ => 1) 0 [clash, clash] 11
    (by rfl) (by decide)

/-! ## Zero generations -/

/-- The head of a stable sort is the first element that no element beats. -/
theorem insertionSort_head_first {α : Type} (r : α → α → Prop) [DecidableRel r]
    (htotal : ∀ a b, r a b ∨ r b a) (htrans : ∀ a b c, r a b → r b c → r a c) :
    ∀ (l : List α), l ≠ [] →
      ∃ x pre post, (l.insertionSort r).head? = some x ∧ l = pre ++ x :: post ∧
        (∀ y ∈ pre, ¬ r y x) ∧ (∀ y ∈ post, r x y) := by
  intro l
  induction l with
  | nil => intro h; exact absurd rfl h
  | cons a rest ih =>
    intro _
    by_cases hrest : rest = []
    · subst hrest
      exact ⟨a, [], [], rfl, rfl, by simp, by simp⟩
    · obtain ⟨b, pre, post, hhead, hsplit, hpre, hpost⟩ := ih hrest
      cases hs : List.insertionSort r rest with
      | nil => rw [hs] at hhead; cases hhead
      | cons b2 tail =>
        rw [hs] at hhead
        simp only [List.head?_cons, Option.some.injEq] at hhead
        subst hhead
        by_cases hab : r a b2
        · refine ⟨a, [], rest, ?_, rfl, by simp, ?_⟩
          · simp [List.insertionSort, hs, List.orderedInsert, hab]
          · intro y hy
            rw [hsplit] at hy
            rcases List.mem_append.mp hy with hy | hy
            · rcases htotal y b2 with h | h
              · exact absurd h (hpre y hy)
              · exact htrans _ _ _ hab h
            · rcases List.mem_cons.mp hy with rfl | hy
              · exact hab
              · exact htrans _ _ _ hab (hpost y hy)
        · refine ⟨b2, a :: pre, post, ?_, by simp [hsplit], ?_, hpost⟩
          · simp [List.insertionSort, hs, List.orderedInsert, hab]
          · intro y hy
            rcases List.mem_cons.mp hy with rfl | hy
            · exact hab
            · exact hpre y hy

theorem sortByFitness_head_first (xs : List Timetable) (hne : xs ≠ []) :
    ∃ best pre post, (sortByFitness xs).head? = some best ∧ xs = pre ++ best :: post ∧
      (∀ c ∈ pre, c.fitnessScore < best.fitnessScore) ∧
      (∀ c ∈ post, c.fitnessScore ≤ best.fitnessScore) := by
  obtain ⟨best, pre, post, hhead, hsplit, hpre, hpost⟩ :=
    insertionSort_head_first (fun a b : Timetable => b.fitnessScore ≤ a.fitnessScore)
      (fun a b => le_total b.fitnessScore a.fitnessScore)
      (fun a b c hab hbc => le_trans hbc hab) xs hne
  exact ⟨best, pre, post, hhead, hsplit, fun c hc => lt_of_not_le (hpre c hc), hpost⟩

/-- Claim C11: for a non-empty population `evolvePopulation(population, 0)`
runs no generation and consumes no random draw, and returns the first member
of the population whose `fitnessScore` is maximal, as it stands in the
population. -/
theorem evolvePopulation_zero (population : List Timetable) (rnd : Rand) (pos : Nat)
    (hne : population ≠ []) :
    evolveGenerations rnd 0 population pos = .ok (population, pos) ∧
    ∃ best pre post, evolvePopulation population 0 rnd pos = .ok (some best, pos) ∧
      population = pre ++ best :: post ∧
      (∀ c ∈ pre, c.fitnessScore < best.fitnessScore) ∧
      (∀ c ∈ post, c.fitnessScore ≤ best.fitnessScore) := by
  refine ⟨rfl, ?_⟩
  obtain ⟨best, pre, post, hhead, hsplit, hpre, hpost⟩ :=
    sortByFitness_head_first population hne
  exact ⟨best, pre, post, by simp [evolvePopulation, evolveGenerations, hhead], hsplit, hpre,
    hpost⟩

/-- The result of claim C11 on a population of three. -/
theorem evolvePopulation_zero_witness :
    [clash, mondayPlan, tuesdayPlan] ≠ [] ∧
    evolveGenerations (fun _ => 0) 0 [clash, mondayPlan, tuesdayPlan] 0 =
      .ok ([clash, mondayPlan, tuesdayPlan], 0) ∧
    ∃ best pre post,
      evolvePopulation [clash, mondayPlan, tuesdayPlan] 0 (fun _ => 0) 0 = .ok (some best, 0) ∧
      [clash, mondayPlan, tuesdayPlan] = pre ++ best :: post ∧
      (∀ c ∈ pre, c.fitnessScore < best.fitnessScore) ∧
      (∀ c ∈ post, c.fitnessScore ≤ best.fitnessScore) :=
  ⟨by decide, evolvePopulation_zero [clash, mondayPlan, tuesdayPlan] (fun _ => 0) 0 (by decide)⟩

/-! ## Tournament selection -/

theorem tournament_eq (population : List Timetable) (rnd : Rand) (p : Nat)
    (hne : population ≠ []) :
    ∃ a b c, tournament population rnd p = [a, b, c] ∧
      population[rnd p % population.length]? = some a ∧
      population[rnd (p + 1) % population.length]? = some b ∧
      population[rnd (p + 2) % population.length]? = some c := by
  have hlen : 0 < population.length := List.length_pos.mpr hne
  have hn : population.length ≠ 0 := Nat.pos_iff_ne_zero.mp hlen
  have h0 := Nat.mod_lt (rnd p) hlen
  have h1 := Nat.mod_lt (rnd (p + 1)) hlen
  have h2 := Nat.mod_lt (rnd (p + 2)) hlen
  refine ⟨population[rnd p % population.length], population[rnd (p + 1) % population.length],
    population[rnd (p + 2) % population.length], ?_, ?_, ?_, ?_⟩
  · simp [tournament, randomIndex, hn, List.getElem?_eq_getElem, h0, h1, h2]
  · exact List.getElem?_eq_getElem h0
  · exact List.getElem?_eq_getElem h1
  · exact List.getElem?_eq_getElem h2

theorem tournament_winner (population : List Timetable) (rnd : Rand) (p : Nat)
    (hne : population ≠ []) :
    ∃ w, (sortByFitness (tournament population rnd p)).head? = some w ∧
      w ∈ tournament population rnd p ∧ w ∈ population ∧
      ∀ c ∈ tournament population rnd p, c.fitnessScore ≤ w.fitnessScore := by
  obtain ⟨a, b, c, ht, ha, hb, hc⟩ := tournament_eq population rnd p hne
  obtain ⟨w, hhead, hmem, hmax⟩ := sortByFitness_head (tournament population rnd p)
    (by rw [ht]; simp)
  refine ⟨w, hhead, hmem, ?_, hmax⟩
  rw [ht] at hmem
  simp only [List.mem_cons, List.mem_singleton, List.not_mem_nil, or_false] at hmem
  rcases hmem with rfl | rfl | rfl
  · exact List.getElem?_mem ha
  · exact List.getElem?_mem hb
  · exact List.getElem?_mem hc

theorem selectParentsLoop_spec (population : List Timetable) (rnd : Rand)
    (hne : population ≠ []) :
    ∀ (fuel pos : Nat) (parents : List Timetable),
      parents.length ≤ (population.length + 1) / 2 →
      (population.length + 1) / 2 + 1 ≤ fuel + parents.length →
      (selectParentsLoop population rnd fuel pos parents).1.length
          = (population.length + 1) / 2 ∧
        (selectParentsLoop population rnd fuel pos parents).2
          = pos + 3 * ((population.length + 1) / 2 - parents.length) ∧
        (∃ t, (selectParentsLoop population rnd fuel pos parents).1 = parents ++ t) ∧
        ∀ i, parents.length ≤ i → i < (population.length + 1) / 2 →
          ∃ w, (selectParentsLoop population rnd fuel pos parents).1[i]? = some w ∧
            (sortByFitness
              (tournament population rnd (pos + 3 * (i - parents.length)))).head? = some w := by
  intro fuel
  induction fuel with
  | zero => intro pos parents h1 h2; omega
  | succ fuel ih =>
    intro pos parents h1 h2
    rw [selectParentsLoop]
    split
    · rename_i hlt
      obtain ⟨w, hhead, _, _, _⟩ := tournament_winner population rnd pos hne
      rw [hhead]
      simp only [Option.toList]
      have hlen : (parents ++ [w]).length = parents.length + 1 := by simp
      obtain ⟨r1, r2, ⟨t, ht⟩, r3⟩ := ih (pos + 3) (parents ++ [w]) (by rw [hlen]; omega)
        (by rw [hlen]; omega)
      refine ⟨r1, by rw [r2, hlen]; omega, ⟨w :: t, by rw [ht]; simp⟩, fun i hi him => ?_⟩
      by_cases hi0 : i = parents.length
      · subst hi0
        refine ⟨w, ?_, by simpa using hhead⟩
        rw [ht, List.append_assoc, List.getElem?_append_right (Nat.le_refl _)]
        simp
      · obtain ⟨w2, hw2, hw2h⟩ := r3 i (by rw [hlen]; omega) him
        refine ⟨w2, hw2, ?_⟩
        rw [hlen] at hw2h
        have e : pos + 3 + 3 * (i - (parents.length + 1)) = pos + 3 * (i - parents.length) := by
          omega
        rw [← e]; exact hw2h
    · rename_i hge
      have : parents.length = (population.length + 1) / 2 := by omega
      refine ⟨this, by simp [this], ⟨[], by simp⟩, fun i hi him => by omega⟩

/-- Claim C12: for a population of size `n`, `selectParents` returns
`ceil(n / 2)` candidates (`n / 2` for even `n`, none for `n = 0`); the `i`-th
is a member of the population, is one of the three members drawn for its
tournament and scores at least as high as each of them. The population is
only read. -/
theorem selectParents_spec (population : List Timetable) (rnd : Rand) (pos : Nat) :
    (selectParents population rnd pos).1.length = (population.length + 1) / 2 ∧
    (population.length % 2 = 0 →
      (selectParents population rnd pos).1.length = population.length / 2) ∧
    (population = [] → (selectParents population rnd pos).1 = []) ∧
    (selectParents population rnd pos).2 = pos + 3 * ((population.length + 1) / 2) ∧
    ∀ i, i < (population.length + 1) / 2 →
      ∃ w a b c, (selectParents population rnd pos).1[i]? = some w ∧ w ∈ population ∧
        population[rnd (pos + 3 * i) % population.length]? = some a ∧
        population[rnd (pos + 3 * i + 1) % population.length]? = some b ∧
        population[rnd (pos + 3 * i + 2) % population.length]? = some c ∧
        (w = a ∨ w = b ∨ w = c) ∧
        a.fitnessScore ≤ w.fitnessScore ∧ b.fitnessScore ≤ w.fitnessScore ∧
        c.fitnessScore ≤ w.fitnessScore := by
  by_cases hne : population = []
  · subst hne
    simp [selectParents, selectParentsLoop]
  · obtain ⟨h1, h2, _, h4⟩ := selectParentsLoop_spec population rnd hne
      (population.length + 1) pos [] (by simp) (by simp; omega)
    refine ⟨h1, fun heven => ?_, fun h => absurd h hne, by simpa using h2, fun i hi => ?_⟩
    · rw [selectParents, h1]; omega
    · obtain ⟨w, hw, hhead⟩ := h4 i (by simp) hi
      simp only [List.length_nil, Nat.sub_zero] at hhead
      obtain ⟨a, b, c, ht, ha, hb, hc⟩ := tournament_eq population rnd (pos + 3 * i) hne
      obtain ⟨w2, hhead2, hmem, hpop, hmax⟩ :=
        tournament_winner population rnd (pos + 3 * i) hne
      rw [hhead] at hhead2
      cases hhead2
      rw [ht] at hmem hmax
      refine ⟨w, a, b, c, hw, hpop, ha, hb, hc, by simpa using hmem, ?_, ?_, ?_⟩
      · exact hmax a (by simp)
      · exact hmax b (by simp)
      · exact hmax c (by simp)

/-! ## Calendar slots -/

theorem minutesOf_formatTime (m : Nat) (h : m < 24 * 60) : minutesOf (formatTime m) = m := by
  simp only [minutesOf, formatTime]
  have h1 : m / 60 < 24 := by omega
  rw [Nat.mod_eq_of_lt h1]
  omega

theorem generateTimeSlotsLoop_spec (endT duration : Nat) (hd : 0 < duration) :
    ∀ (m fuel cur : Nat) (slots : List Slot), cur ≤ endT → (endT - cur) / duration = m →
      m + 2 ≤ fuel →
      generateTimeSlotsLoop endT duration fuel cur slots =
        some (slots ++ (List.range m).map (fun k =>
          (⟨formatTime (cur + k * duration), formatTime (cur + (k + 1) * duration)⟩ : Slot))) := by
  intro m
  induction m with
  | zero =>
    intro fuel cur slots hle hdiv hfuel
    have hlt : endT - cur < duration := (Nat.div_eq_zero_iff hd).mp hdiv
    obtain ⟨fuel1, rfl⟩ : ∃ f, fuel = f + 2 := ⟨fuel - 2, by omega⟩
    rw [generateTimeSlotsLoop]
    by_cases hc : cur < endT
    · have hnot : ¬ (cur + duration ≤ endT) := by omega
      have hnot2 : ¬ (cur + duration < endT) := by omega
      simp only [hc, if_true, hnot, if_false]
      rw [generateTimeSlotsLoop]
      simp [hnot2]
    · simp [hc]
  | succ m ih =>
    intro fuel cur slots hle hdiv hfuel
    have hge : duration ≤ endT - cur := by
      by_contra hcon
      have : (endT - cur) / duration = 0 := Nat.div_eq_of_lt (by omega)
      omega
    obtain ⟨fuel1, rfl⟩ : ∃ f, fuel = f + 1 := ⟨fuel - 1, by omega⟩
    have hc : cur < endT := by omega
    have hpush : cur + duration ≤ endT := by omega
    have hdiv1 : (endT - (cur + duration)) / duration = m := by
      have e : endT - cur = (endT - (cur + duration)) + duration := by omega
      rw [e, Nat.add_div_right _ hd] at hdiv
      omega
    rw [generateTimeSlotsLoop]
    simp only [hc, if_true, hpush]
    rw [ih fuel1 (cur + duration) _ hpush hdiv1 (by omega), List.range_succ_eq_map]
    simp only [List.map_cons, List.map_map, List.append_assoc, List.singleton_append,
      Nat.zero_mul, Nat.add_zero, Nat.zero_add, Nat.one_mul]
    congr 3
    apply List.map_congr_left
    intro k _
    simp only [Function.comp, Nat.succ_eq_add_one]
    have e1 : cur + duration + k * duration = cur + (k + 1) * duration := by ring
    have e2 : cur + duration + (k + 1) * duration = cur + (k + 1 + 1) * duration := by ring
    rw [e1, e2]

/-- Claim C13: for times of one day with `s <= e` (in minutes) and a duration
`d > 0`, `generateTimeSlots(s, e, d)` ends and returns `floor((e - s) / d)`
slots, the `k`-th running from `s + k * d` to `s + (k + 1) * d`, which is at
most `e`. -/
theorem generateTimeSlots_spec (startTime endTime : HHMM) (duration fuel : Nat)
    (hd : 0 < duration) (hse : minutesOf startTime ≤ minutesOf endTime)
    (hday : minutesOf endTime < 24 * 60)
    (hfuel : (minutesOf endTime - minutesOf startTime) / duration + 2 ≤ fuel) :
    ∃ slots, generateTimeSlots fuel startTime endTime duration = some slots ∧
      slots.length = (minutesOf endTime - minutesOf startTime) / duration ∧
      ∀ k, k < (minutesOf endTime - minutesOf startTime) / duration →
        slots[k]? = some ⟨formatTime (minutesOf startTime + k * duration),
          formatTime (minutesOf startTime + (k + 1) * duration)⟩ ∧
        minutesOf (formatTime (minutesOf startTime + k * duration))
          = minutesOf startTime + k * duration ∧
        minutesOf (formatTime (minutesOf startTime + (k + 1) * duration))
          = minutesOf startTime + (k + 1) * duration ∧
        minutesOf startTime + (k + 1) * duration ≤ minutesOf endTime := by
  refine ⟨_, generateTimeSlotsLoop_spec _ duration hd _ fuel _ [] hse rfl hfuel, ?_, ?_⟩
  · simp
  · intro k hk
    have hbound : minutesOf startTime + (k + 1) * duration ≤ minutesOf endTime := by
      have h1 : (k + 1) * duration ≤
          ((minutesOf endTime - minutesOf startTime) / duration) * duration :=
        Nat.mul_le_mul_right _ hk
      have h2 := Nat.div_mul_le_self (minutesOf endTime - minutesOf startTime) duration
      omega
    have hbound0 : minutesOf startTime + k * duration ≤ minutesOf endTime := by
      have : k * duration ≤ (k + 1) * duration := Nat.mul_le_mul_right _ (by omega)
      omega
    refine ⟨by simp [hk], minutesOf_formatTime _ (by omega), minutesOf_formatTime _ (by omega),
      hbound⟩

/-- The nine slots of claim C13 for 08:00, 17:00 and 60 minutes. -/
theorem generateTimeSlots_spec_witness :
    generateTimeSlots 11 ⟨8, 0⟩ ⟨17, 0⟩ 60 =
      some [⟨⟨8, 0⟩, ⟨9, 0⟩⟩, ⟨⟨9, 0⟩, ⟨10, 0⟩⟩, ⟨⟨10, 0⟩, ⟨11, 0⟩⟩, ⟨⟨11, 0⟩, ⟨12, 0⟩⟩,
        ⟨⟨12, 0⟩, ⟨13, 0⟩⟩, ⟨⟨13, 0⟩, ⟨14, 0⟩⟩, ⟨⟨14, 0⟩, ⟨15, 0⟩⟩, ⟨⟨15, 0⟩, ⟨16, 0⟩⟩,
        ⟨⟨16, 0⟩, ⟨17, 0⟩⟩] ∧
    ∃ slots, generateTimeSlots 11 ⟨8, 0⟩ ⟨17, 0⟩ 60 = some slots ∧
      slots.length = (minutesOf ⟨17, 0⟩ - minutesOf ⟨8, 0⟩) / 60 ∧
      ∀ k, k < (minutesOf ⟨17, 0⟩ - minutesOf ⟨8, 0⟩) / 60 →
        slots[k]? = some ⟨formatTime (minutesOf ⟨8, 0⟩ + k * 60),
          formatTime (minutesOf ⟨8, 0⟩ + (k + 1) * 60)⟩ ∧
        minutesOf (formatTime (minutesOf ⟨8, 0⟩ + k * 60)) = minutesOf ⟨8, 0⟩ + k * 60 ∧
        minutesOf (formatTime (minutesOf ⟨8, 0⟩ + (k + 1) * 60))
          = minutesOf ⟨8, 0⟩ + (k + 1) * 60 ∧
        minutesOf ⟨8, 0⟩ + (k + 1) * 60 ≤ minutesOf ⟨17, 0⟩ :=
  ⟨by decide, generateTimeSlots_spec ⟨8, 0⟩ ⟨17, 0⟩ 60 11 (by decide) (by decide) (by decide)
    (by decide)⟩

/-! ## Choice of faculty and room -/

theorem filter_sort_head {α : Type} (r : α → α → Prop) [DecidableRel r]
    (htotal : ∀ a b, r a b ∨ r b a) (htrans : ∀ a b c, r a b → r b c → r a c)
    (p : α → Bool) (l : List α) (hex : ∃ x ∈ l, p x = true) :
    ∃ x pre post, ((l.filter p).insertionSort r).head? = some x ∧ l = pre ++ x :: post ∧
      p x = true ∧ (∀ y ∈ pre, p y = true → ¬ r y x) ∧ (∀ y ∈ post, p y = true → r x y) := by
  have hne : l.filter p ≠ [] := by
    obtain ⟨x, hx, hpx⟩ := hex
    exact List.ne_nil_of_mem (List.mem_filter.mpr ⟨hx, hpx⟩)
  obtain ⟨x, a, b, hhead, hsplit, ha, hb⟩ :=
    insertionSort_head_first r htotal htrans (l.filter p) hne
  obtain ⟨l1, l2, hl, hf1, hf2⟩ := List.filter_eq_append_iff.mp hsplit
  obtain ⟨m1, m2, hl2, hm1, hpx, hfm2⟩ := List.filter_eq_cons_iff.mp hf2
  refine ⟨x, l1 ++ m1, m2, hhead, by rw [hl, hl2, List.append_assoc], hpx, ?_, ?_⟩
  · intro y hy hpy
    rcases List.mem_append.mp hy with hy | hy
    · exact ha y (hf1 ▸ List.mem_filter.mpr ⟨hy, hpy⟩)
    · exact absurd hpy (hm1 y hy)
  · intro y hy hpy
    exact hb y (hfm2 ▸ List.mem_filter.mpr ⟨hy, hpy⟩)

theorem filter_sort_head_none {α : Type} (r : α → α → Prop) [DecidableRel r]
    (p : α → Bool) (l : List α) :
    ((l.filter p).insertionSort r).head? = none ↔ ∀ x ∈ l, ¬ (p x = true) := by
  rw [List.head?_eq_none_iff, ← List.length_eq_zero, List.length_insertionSort,
    List.length_eq_zero, List.filter_eq_nil_iff]

theorem classroomFits_iff (course : Course) (c : Classroom) :
    (decide (course.batchSize ≤ c.capacity) &&
      (c.type == (if course.isLabRequired then ClassroomType.laboratory
        else ClassroomType.classroom)) &&
      c.availableFor.any (fun dept => dept == course.department)) = true ↔
    classroomFits course c := by
  simp only [classroomFits, Bool.and_eq_true, decide_eq_true_eq, beq_iff_eq, List.any_eq_true]
  constructor
  · rintro ⟨⟨h1, h2⟩, d, hd, rfl⟩
    exact ⟨h1, h2, hd⟩
  · rintro ⟨h1, h2, h3⟩
    exact ⟨⟨h1, h2⟩, _, h3, rfl⟩

/-- Claim C15: when some classroom has the capacity for the batch, the room
type the course needs and the course's department in `availableFor`,
`selectClassroomForCourse` returns such a classroom of least capacity (the
first of them in list order); it returns none exactly when no classroom
satisfies the three conditions. The list is only read. -/
theorem selectClassroomForCourse_spec (course : Course) (classrooms : List Classroom) :
    ((∃ c ∈ classrooms, classroomFits course c) →
      ∃ r pre post, selectClassroomForCourse course classrooms = some r ∧
        classrooms = pre ++ r :: post ∧ classroomFits course r ∧
        (∀ c ∈ classrooms, classroomFits course c → r.capacity ≤ c.capacity) ∧
        (∀ c ∈ pre, classroomFits course c → r.capacity < c.capacity)) ∧
    (selectClassroomForCourse course classrooms = none ↔
      ∀ c ∈ classrooms, ¬ classroomFits course c) := by
  constructor
  · rintro ⟨c0, hc0, hfit0⟩
    obtain ⟨r, pre, post, hhead, hsplit, hpr, hpre, hpost⟩ :=
      filter_sort_head (fun a b : Classroom => a.capacity ≤ b.capacity)
        (fun a b => le_total a.capacity b.capacity) (fun a b c h1 h2 => le_trans h1 h2)
        (fun c =>
          decide (course.batchSize ≤ c.capacity) &&
          (c.type == (if course.isLabRequired then ClassroomType.laboratory
            else ClassroomType.classroom)) &&
          c.availableFor.any (fun dept => dept == course.department))
        classrooms ⟨c0, hc0, (classroomFits_iff course c0).mpr hfit0⟩
    have hpre2 : ∀ c ∈ pre, classroomFits course c → r.capacity < c.capacity :=
      fun c hc hfit => lt_of_not_le (hpre c hc ((classroomFits_iff course c).mpr hfit))
    refine ⟨r, pre, post, hhead, hsplit, (classroomFits_iff course r).mp hpr, ?_, hpre2⟩
    intro c hc hfit
    rw [hsplit] at hc
    rcases List.mem_append.mp hc with hc | hc
    · exact le_of_lt (hpre2 c hc hfit)
    · rcases List.mem_cons.mp hc with rfl | hc
      · exact le_refl _
      · exact hpost c hc ((classroomFits_iff course c).mpr hfit)
  · rw [selectClassroomForCourse, filter_sort_head_none]
    constructor
    · intro h c hc hfit
      exact h c hc ((classroomFits_iff course c).mpr hfit)
    · intro h c hc hp
      exact h c hc ((classroomFits_iff course c).mp hp)

theorem toString_hex_iff (ps : SubjectRef) (id : Nat) :
    (ps.toString == IdText.hex id) = true ↔ ps = SubjectRef.objectId id := by
  cases ps with
  | objectId n => simp [SubjectRef.toString]
  | populated c => simp [SubjectRef.toString]

theorem prefers_of_match (course : Course) (f : Faculty)
    (h : f.preferredSubjects.any (fun ps => ps.toString == IdText.hex course._id) = true) :
    Prefers f course := by
  obtain ⟨ps, hps, hm⟩ := List.any_eq_true.mp h
  rw [toString_hex_iff] at hm
  exact ⟨ps, hps, by rw [hm]; rfl⟩

theorem match_iff_of_unpopulated (course : Course) (f : Faculty)
    (hf : ∀ ps ∈ f.preferredSubjects, ∃ id, ps = SubjectRef.objectId id) :
    f.preferredSubjects.any (fun ps => ps.toString == IdText.hex course._id) = true ↔
      Prefers f course := by
  refine ⟨prefers_of_match course f, ?_⟩
  rintro ⟨ps, hps, hid⟩
  obtain ⟨id, rfl⟩ := hf ps hps
  refine List.any_eq_true.mpr ⟨_, hps, ?_⟩
  rw [toString_hex_iff]
  exact congrArg SubjectRef.objectId hid

theorem no_match_of_populated (course : Course) (f : Faculty)
    (hf : ∀ ps ∈ f.preferredSubjects, ∃ c, ps = SubjectRef.populated c) :
    ¬ (f.preferredSubjects.any (fun ps => ps.toString == IdText.hex course._id) = true) := by
  intro h
  obtain ⟨ps, hps, hm⟩ := List.any_eq_true.mp h
  obtain ⟨c, rfl⟩ := hf ps hps
  rw [toString_hex_iff] at hm
  cases hm

/-- The result of `selectFacultyForCourse` in terms of the test that the code
applies to `preferredSubjects`: the first faculty that passes it; when none
passes, the first faculty of the course's department of minimal
`calculateFacultyWorkload`; none exactly when no faculty passes the test and
none is of the department. -/
theorem selectFacultyForCourse_by_match (course : Course) (faculties : List Faculty) :
    ((∃ f ∈ faculties,
        f.preferredSubjects.any (fun ps => ps.toString == IdText.hex course._id) = true) →
      ∃ f pre post, selectFacultyForCourse course faculties = some f ∧
        faculties = pre ++ f :: post ∧
        f.preferredSubjects.any (fun ps => ps.toString == IdText.hex course._id) = true ∧
        ∀ g ∈ pre,
          ¬ (g.preferredSubjects.any (fun ps => ps.toString == IdText.hex course._id) = true)) ∧
    ((∀ f ∈ faculties,
        ¬ (f.preferredSubjects.any (fun ps => ps.toString == IdText.hex course._id) = true)) →
      (∃ f ∈ faculties, f.department = course.department) →
      ∃ f pre post, selectFacultyForCourse course faculties = some f ∧
        faculties = pre ++ f :: post ∧ f.department = course.department ∧
        (∀ g ∈ faculties, g.department = course.department →
          calculateFacultyWorkload f ≤ calculateFacultyWorkload g) ∧
        (∀ g ∈ pre, g.department = course.department →
          calculateFacultyWorkload f < calculateFacultyWorkload g) ∧
        (∀ g ∈ pre, g.department ≠ course.department)) ∧
    (selectFacultyForCourse course faculties = none ↔
      ∀ f ∈ faculties,
        ¬ (f.preferredSubjects.any (fun ps => ps.toString == IdText.hex course._id) = true) ∧
        f.department ≠ course.department) := by
  refine ⟨?_, ?_, ?_⟩
  · rintro ⟨f0, hf0, hpref0⟩
    cases hfind : faculties.find? (fun f =>
        f.preferredSubjects.any (fun ps => ps.toString == IdText.hex course._id)) with
    | none =>
      rw [List.find?_eq_none] at hfind
      exact absurd hpref0 (hfind f0 hf0)
    | some f =>
      obtain ⟨hp, pre, post, hsplit, hpre⟩ := List.find?_eq_some.mp hfind
      refine ⟨f, pre, post, by simp [selectFacultyForCourse, hfind], hsplit, hp,
        fun g hg hpg => ?_⟩
      have := hpre g hg
      rw [hpg] at this
      simp at this
  · intro hnone hex
    have hfind : faculties.find? (fun f =>
        f.preferredSubjects.any (fun ps => ps.toString == IdText.hex course._id)) = none := by
      rw [List.find?_eq_none]
      exact hnone
    obtain ⟨f0, hf0, hdept0⟩ := hex
    obtain ⟨f, pre, post, hhead, hsplit, hpf, hpre, hpost⟩ :=
      filter_sort_head
        (fun a b : Faculty => calculateFacultyWorkload a ≤ calculateFacultyWorkload b)
        (fun a b => le_total _ _) (fun a b c h1 h2 => le_trans h1 h2)
        (fun f => f.department == course.department) faculties
        ⟨f0, hf0, by simpa using hdept0⟩
    have hpre2 : ∀ g ∈ pre, g.department = course.department →
        calculateFacultyWorkload f < calculateFacultyWorkload g :=
      fun g hg hd => lt_of_not_le (hpre g hg (by simpa using hd))
    refine ⟨f, pre, post, by simp only [selectFacultyForCourse, hfind, hhead], hsplit,
      by simpa using hpf, ?_, hpre2, ?_⟩
    · intro g hg hd
      rw [hsplit] at hg
      rcases List.mem_append.mp hg with hg | hg
      · exact le_of_lt (hpre2 g hg hd)
      · rcases List.mem_cons.mp hg with rfl | hg
        · exact le_refl _
        · exact hpost g hg (by simpa using hd)
    · intro g hg hd
      have := hpre2 g hg hd
      simp [calculateFacultyWorkload] at this
  · constructor
    · intro h f hf
      cases hfind : faculties.find? (fun f =>
          f.preferredSubjects.any (fun ps => ps.toString == IdText.hex course._id)) with
      | some g => simp [selectFacultyForCourse, hfind] at h
      | none =>
        simp only [selectFacultyForCourse, hfind] at h
        rw [filter_sort_head_none] at h
        rw [List.find?_eq_none] at hfind
        exact ⟨hfind f hf, fun hd => h f hf (by simpa using hd)⟩
    · intro h
      have hfind : faculties.find? (fun f =>
          f.preferredSubjects.any (fun ps => ps.toString == IdText.hex course._id)) = none := by
        rw [List.find?_eq_none]
        intro g hg hp
        exact (h g hg).1 hp
      simp only [selectFacultyForCourse, hfind]
      rw [filter_sort_head_none]
      intro g hg hd
      exact (h g hg).2 (by simpa using hd)

/-- Claim C14, a defect of the code: the route hands over faculties with
populated `preferredSubjects`, and `toString()` of a course document is never
the hex string of the course id, so the preference test of
`selectFacultyForCourse` passes for no faculty. On `lecturers` the faculty
who prefers `algebra` is passed over for the first faculty of the department,
and `visitor`, who prefers `algebra` too, is not returned at all. On every
populated list the result is the first faculty of the course's department,
and none exactly when the department has no faculty in the list. On a list
that holds the stored ids the result is the first faculty who prefers the
course when there is one, and none exactly when no faculty prefers the course
or is of its department. On every list where no faculty prefers the course
the result is the first faculty of the department of minimal
`calculateFacultyWorkload`, and none when the department has no faculty. -/
theorem preferred_faculty_passed_over :
    (algebraist ∈ lecturers ∧ Prefers algebraist algebra ∧ ¬ Prefers colleague algebra ∧
      Populated lecturers ∧
      selectFacultyForCourse algebra lecturers = some colleague ∧
      selectFacultyForCourse algebra lecturers ≠ some algebraist) ∧
    (Prefers visitor algebra ∧ Populated [visitor] ∧
      selectFacultyForCourse algebra [visitor] = none) ∧
    (∀ (course : Course) (faculties : List Faculty), Populated faculties →
      (selectFacultyForCourse course faculties = none ↔
        ∀ f ∈ faculties, f.department ≠ course.department) ∧
      (∀ f, selectFacultyForCourse course faculties = some f →
        f.department = course.department ∧
        ∃ pre post, faculties = pre ++ f :: post ∧
          ∀ g ∈ pre, g.department ≠ course.department)) ∧
    (∀ (course : Course) (faculties : List Faculty), Unpopulated faculties →
      ((∃ f ∈ faculties, Prefers f course) →
        ∃ f pre post, selectFacultyForCourse course faculties = some f ∧
          faculties = pre ++ f :: post ∧ Prefers f course ∧
          ∀ g ∈ pre, ¬ Prefers g course) ∧
      (selectFacultyForCourse course faculties = none ↔
        ∀ f ∈ faculties, ¬ Prefers f course ∧ f.department ≠ course.department)) ∧
    (∀ (course : Course) (faculties : List Faculty),
      (∀ f ∈ faculties, ¬ Prefers f course) →
      ((∃ f ∈ faculties, f.department = course.department) →
        ∃ f pre post, selectFacultyForCourse course faculties = some f ∧
          faculties = pre ++ f :: post ∧ f.department = course.department ∧
          (∀ g ∈ faculties, g.department = course.department →
            calculateFacultyWorkload f ≤ calculateFacultyWorkload g) ∧
          (∀ g ∈ pre, g.department = course.department →
            calculateFacultyWorkload f < calculateFacultyWorkload g)) ∧
      ((∀ f ∈ faculties, f.department ≠ course.department) →
        selectFacultyForCourse course faculties = none)) := by
  have hpref : Prefers algebraist algebra :=
    ⟨SubjectRef.populated algebra, by simp [algebraist], rfl⟩
  have hvisitor : Prefers visitor algebra :=
    ⟨SubjectRef.populated algebra, by simp [visitor], rfl⟩
  have hpop : Populated [visitor] := by
    intro f hf ps hps
    simp only [List.mem_singleton] at hf
    subst hf
    simp only [visitor, List.mem_singleton] at hps
    exact ⟨algebra, hps⟩
  refine ⟨⟨by simp [lecturers], hpref, ?_, ?_, by rfl, by decide⟩, ⟨hvisitor, hpop, by rfl⟩,
    ?_, ?_, ?_⟩
  · rintro ⟨ps, hps, _⟩
    simp [colleague] at hps
  · intro f hf ps hps
    simp only [lecturers, List.mem_cons, List.mem_singleton, List.not_mem_nil, or_false] at hf
    rcases hf with rfl | rfl
    · simp [colleague] at hps
    · simp only [algebraist, List.mem_singleton] at hps
      exact ⟨algebra, hps⟩
  · intro course faculties hpop
    obtain ⟨_, h2, h3⟩ := selectFacultyForCourse_by_match course faculties
    have hnone : ∀ f ∈ faculties,
        ¬ (f.preferredSubjects.any (fun ps => ps.toString == IdText.hex course._id) = true) :=
      fun f hf => no_match_of_populated course f (hpop f hf)
    constructor
    · rw [h3]
      exact ⟨fun h f hf => (h f hf).2, fun h f hf => ⟨hnone f hf, h f hf⟩⟩
    · intro f hsel
      have hex : ∃ g ∈ faculties, g.department = course.department := by
        by_contra hcon
        have : selectFacultyForCourse course faculties = none :=
          h3.mpr (fun g hg => ⟨hnone g hg, fun hd => hcon ⟨g, hg, hd⟩⟩)
        rw [this] at hsel
        cases hsel
      obtain ⟨f2, pre, post, hsel2, hsplit, hdept, _, _, hpre⟩ := h2 hnone hex
      rw [hsel2] at hsel
      cases hsel
      exact ⟨hdept, pre, post, hsplit, hpre⟩
  · intro course faculties hun
    obtain ⟨h1, _, h3⟩ := selectFacultyForCourse_by_match course faculties
    constructor
    · rintro ⟨f0, hf0, hp0⟩
      obtain ⟨f, pre, post, hsel, hsplit, hm, hpre⟩ :=
        h1 ⟨f0, hf0, (match_iff_of_unpopulated course f0 (hun f0 hf0)).mpr hp0⟩
      refine ⟨f, pre, post, hsel, hsplit, prefers_of_match course f hm, fun g hg hpg => ?_⟩
      have hgmem : g ∈ faculties := by
        rw [hsplit]; exact List.mem_append_left _ hg
      exact hpre g hg ((match_iff_of_unpopulated course g (hun g hgmem)).mpr hpg)
    · rw [h3]
      constructor
      · intro h f hf
        exact ⟨fun hp => (h f hf).1 ((match_iff_of_unpopulated course f (hun f hf)).mpr hp),
          (h f hf).2⟩
      · intro h f hf
        exact ⟨fun hm => (h f hf).1 (prefers_of_match course f hm), (h f hf).2⟩
  · intro course faculties hno
    obtain ⟨_, h2, h3⟩ := selectFacultyForCourse_by_match course faculties
    have hnone : ∀ f ∈ faculties,
        ¬ (f.preferredSubjects.any (fun ps => ps.toString == IdText.hex course._id) = true) :=
      fun f hf hm => hno f hf (prefers_of_match course f hm)
    constructor
    · intro hex
      obtain ⟨f, pre, post, hsel, hsplit, hdept, hmin, hfirst, _⟩ := h2 hnone hex
      exact ⟨f, pre, post, hsel, hsplit, hdept, hmin, hfirst⟩
    · intro hd
      exact h3.mpr (fun f hf => ⟨hnone f hf, hd f hf⟩)

/-! ## Fitness as a function of the schedule -/

theorem detectConflicts_congr (t1 t2 : Timetable) (h : t1.schedule = t2.schedule) :
    detectConflicts t1 = detectConflicts t2 := by
  simp only [detectConflicts, h]

/-- Claim C17: `calculateFitness` sets `conflicts` to `detectConflicts` of
the timetable and leaves schedule and constraints as they are; score and
conflict list are the same for any timetable with the same schedule, whatever
its `conflicts` and `fitnessScore` held, and the same again on a second
call. -/
theorem calculateFitness_pure (t : Timetable) :
    (calculateFitness t).2.conflicts = detectConflicts t ∧
    (calculateFitness t).2.schedule = t.schedule ∧
    (calculateFitness t).2.constraints = t.constraints ∧
    (calculateFitness t).2.fitnessScore = t.fitnessScore ∧
    (∀ t2 : Timetable, t2.schedule = t.schedule →
      (calculateFitness t2).1 = (calculateFitness t).1 ∧
      (calculateFitness t2).2.conflicts = (calculateFitness t).2.conflicts) ∧
    (calculateFitness (calculateFitness t).2).1 = (calculateFitness t).1 ∧
    (calculateFitness (calculateFitness t).2).2 = (calculateFitness t).2 ∧
    (calculateFitness { (calculateFitness t).2 with fitnessScore := (calculateFitness t).1 }).1
      = (calculateFitness t).1 ∧
    (calculateFitness
        { (calculateFitness t).2 with fitnessScore := (calculateFitness t).1 }).2.conflicts
      = (calculateFitness t).2.conflicts := by
  have hcongr : ∀ t2 : Timetable, t2.schedule = t.schedule →
      (calculateFitness t2).1 = (calculateFitness t).1 ∧
      (calculateFitness t2).2.conflicts = (calculateFitness t).2.conflicts := by
    intro t2 h
    simp only [calculateFitness, detectConflicts_congr t2 t h, and_self]
  refine ⟨rfl, rfl, rfl, rfl, hcongr, (hcongr _ rfl).1, ?_, (hcongr _ rfl).1, (hcongr _ rfl).2⟩
  simp only [calculateFitness]
  congr 1


/-! ## Sessions without a room -/

theorem extendsBy_resourceKeys (resource : Assignment → Option Nat)
    {s1 s2 : List DaySchedule}
    (h : ExtendsBy (fun a => resource a = none) s1 s2) :
    resourceKeys resource s2 = resourceKeys resource s1 := by
  induction h with
  | nil => rfl
  | cons hd htl ih =>
    rename_i d1 d2 l1 l2
    obtain ⟨hday, added, hadd, hall⟩ := hd
    rw [resourceKeys_cons, resourceKeys_cons, ih, hadd, hday, List.filterMap_append]
    have : List.filterMap
        (fun slot => (resource slot).map (fun r => (⟨r, d1.day, slot.startTime⟩ : Key))) added
          = [] := by
      rw [List.filterMap_eq_nil_iff]
      intro a ha
      simp [hall a ha]
    rw [this, List.append_nil]

/-- Claim C16 fails: without a fitting classroom the seminar is placed with a
null classroom, and after `calculateFitness` the conflict list is empty and
the score is 100. -/
theorem unroomed_session_counterexample :
    (∀ c ∈ ([] : List Classroom), ¬ classroomFits seminar c) ∧
    assignCourseRandomly 3 (emptyTimetable 1 1 "2025" none) seminar [] [] (fun _ => 0) 0 =
      some (.returned (seminarPlaced none, 2)) ∧
    (seminarPlaced none).schedule.flatMap (fun d => d.timeSlots) = [seminarSession] ∧
    seminarSession.classroom = none ∧
    (calculateFitness (seminarPlaced none)).2.conflicts = [] ∧
    (calculateFitness (seminarPlaced none)).1 = 100 := by
  refine ⟨by simp, by rfl, by rfl, by rfl, by rfl, by rfl⟩

/-- Claim C16, amended: when no classroom passes the filter for the course,
every assignment that `assignCourseRandomly` adds is of that course and has a
null classroom; such a session adds no key to the room pass of
`detectConflicts`, so `calculateFitness` leaves the room-conflict records as
they were, and every record it lists is a faculty or a room conflict. -/
theorem unroomed_session (fuel : Nat) (t : Timetable) (course : Course)
    (faculties : List Faculty) (classrooms : List Classroom) (rnd : Rand) (pos : Nat)
    (r : Run (Timetable × Nat))
    (hno : ∀ c ∈ classrooms, ¬ classroomFits course c)
    (h : assignCourseRandomly fuel t course faculties classrooms rnd pos = some r) :
    ExtendsBy (fun a => a.course = course._id ∧ a.classroom = none)
      t.schedule r.state.1.schedule ∧
    resourceKeys (fun slot => slot.classroom) r.state.1.schedule =
      resourceKeys (fun slot => slot.classroom) t.schedule ∧
    ((calculateFitness r.state.1).2.conflicts.filter
        (fun c => c.type == ConflictType.roomConflict)) =
      ((calculateFitness t).2.conflicts.filter
        (fun c => c.type == ConflictType.roomConflict)) ∧
    (∀ c ∈ (calculateFitness r.state.1).2.conflicts,
      c.type = ConflictType.facultyConflict ∨ c.type = ConflictType.roomConflict) := by
  have hsel : selectClassroomForCourse course classrooms = none := by
    rw [selectClassroomForCourse, filter_sort_head_none]
    intro c hc hp
    exact hno c hc ((classroomFits_iff course c).mp hp)
  have hext : ExtendsBy (fun a => a.course = course._id ∧ a.classroom = none)
      t.schedule r.state.1.schedule := by
    refine extendsBy_mono ?_ (assignLoop_extends _ _ _ _ _ _ _ _ _ _ h).2.2.2
    rintro a ⟨slot, _, _, rfl⟩
    simp [newAssignment, hsel]
  have hkeys := extendsBy_resourceKeys (fun slot => slot.classroom)
    (extendsBy_mono (fun a ha => ha.2) hext)
  refine ⟨hext, hkeys, ?_, ?_⟩
  · simp only [calculateFitness, detectConflicts_eq, hkeys, List.filter_append,
      List.filter_replicate, facultyConflictRecord, roomConflictRecord]
    simp
  · intro c hc
    simp only [calculateFitness, detectConflicts_eq, List.mem_append, List.mem_replicate] at hc
    rcases hc with ⟨_, rfl⟩ | ⟨_, rfl⟩
    · exact Or.inl rfl
    · exact Or.inr rfl

/-- The unroomed seminar of claim C16, with a laboratory as the only room. -/
theorem unroomed_session_witness :
    (∀ c ∈ [(⟨2, 40, ClassroomType.laboratory, [1]⟩ : Classroom)],
      ¬ classroomFits seminar c) ∧
    ExtendsBy (fun a => a.course = seminar._id ∧ a.classroom = none)
      (emptyTimetable 1 1 "2025" none).schedule
      (Run.returned (seminarPlaced none, 2)).state.1.schedule ∧
    resourceKeys (fun slot => slot.classroom)
        (Run.returned (seminarPlaced none, 2)).state.1.schedule =
      resourceKeys (fun slot => slot.classroom) (emptyTimetable 1 1 "2025" none).schedule ∧
    ((calculateFitness (Run.returned (seminarPlaced none, 2)).state.1).2.conflicts.filter
        (fun c => c.type == ConflictType.roomConflict)) =
      ((calculateFitness (emptyTimetable 1 1 "2025" none)).2.conflicts.filter
        (fun c => c.type == ConflictType.roomConflict)) ∧
    (∀ c ∈ (calculateFitness (Run.returned (seminarPlaced none, 2)).state.1).2.conflicts,
      c.type = ConflictType.facultyConflict ∨ c.type = ConflictType.roomConflict) :=
  ⟨by simp [classroomFits, seminar],
    unroomed_session 3 (emptyTimetable 1 1 "2025" none) seminar []
      [⟨2, 40, ClassroomType.laboratory, [1]⟩] (fun _ => 0) 0
      (.returned (seminarPlaced none, 2)) (by simp [classroomFits, seminar]) (by rfl)⟩

/-! ## Order of the conflict records -/

theorem scanSlotsTraced_spec (resource : Assignment → Option Nat) (record : Conflict)
    (day : Day) (i : Nat) :
    ∀ (slots : List Assignment) (j : Nat) (conflicts : List (Conflict × Nat × Nat))
      (seen : List Key),
      ∃ new, (scanSlotsTraced resource record day i j slots (conflicts, seen)).1
          = conflicts ++ new ∧
        (∀ x ∈ new, x.1 = record ∧ x.2.1 = i ∧ j ≤ x.2.2 ∧ x.2.2 < j + slots.length) ∧
        new.Pairwise (fun x y => x.2.2 < y.2.2) ∧
        (((scanSlotsTraced resource record day i j slots (conflicts, seen)).1.map
              (fun x => x.1),
            (scanSlotsTraced resource record day i j slots (conflicts, seen)).2) =
          scanSlots resource record day slots (conflicts.map (fun x => x.1), seen)) := by
  intro slots
  induction slots with
  | nil =>
    intro j conflicts seen
    exact ⟨[], by simp [scanSlotsTraced], by simp, List.Pairwise.nil, by simp [scanSlotsTraced, scanSlots]⟩
  | cons slot rest ih =>
    intro j conflicts seen
    cases hr : resource slot with
    | none =>
      obtain ⟨new, h1, h2, h3, h4⟩ := ih (j + 1) conflicts seen
      refine ⟨new, by simp only [scanSlotsTraced, hr, h1], ?_, h3, ?_⟩
      · intro x hx
        obtain ⟨a, b, c, d⟩ := h2 x hx
        exact ⟨a, b, by omega, by simp only [List.length_cons]; omega⟩
      · simp only [scanSlotsTraced, scanSlots, hr, h4]
    | some r =>
      by_cases hk : (⟨r, day, slot.startTime⟩ : Key) ∈ seen
      · obtain ⟨new, h1, h2, h3, h4⟩ :=
          ih (j + 1) (conflicts ++ [(record, i, j)]) (⟨r, day, slot.startTime⟩ :: seen)
        refine ⟨(record, i, j) :: new, ?_, ?_, ?_, ?_⟩
        · simp only [scanSlotsTraced, hr, hk, if_true, h1, List.append_assoc,
            List.singleton_append]
        · intro x hx
          rcases List.mem_cons.mp hx with rfl | hx
          · exact ⟨rfl, rfl, Nat.le_refl _, by simp only [List.length_cons]; omega⟩
          · obtain ⟨a, b, c, d⟩ := h2 x hx
            exact ⟨a, b, by omega, by simp only [List.length_cons]; omega⟩
        · refine List.Pairwise.cons ?_ h3
          intro y hy
          have := (h2 y hy).2.2.1
          show j < y.2.2
          omega
        · simp only [scanSlotsTraced, scanSlots, hr, hk, if_true, h4, List.map_append,
            List.map_cons, List.map_nil]
      · obtain ⟨new, h1, h2, h3, h4⟩ :=
          ih (j + 1) conflicts (⟨r, day, slot.startTime⟩ :: seen)
        refine ⟨new, by simp only [scanSlotsTraced, hr, hk, if_false, h1], ?_, h3, ?_⟩
        · intro x hx
          obtain ⟨a, b, c, d⟩ := h2 x hx
          exact ⟨a, b, by omega, by simp only [List.length_cons]; omega⟩
        · simp only [scanSlotsTraced, scanSlots, hr, hk, if_false, h4]

theorem scanDaysTraced_spec (resource : Assignment → Option Nat) (record : Conflict) :
    ∀ (schedule : List DaySchedule) (i : Nat) (conflicts : List (Conflict × Nat × Nat))
      (seen : List Key),
      ∃ new, (scanDaysTraced resource record i schedule (conflicts, seen)).1
          = conflicts ++ new ∧
        (∀ x ∈ new, x.1 = record ∧ i ≤ x.2.1 ∧ x.2.1 < i + schedule.length ∧
          ∃ d, schedule[x.2.1 - i]? = some d ∧ x.2.2 < d.timeSlots.length) ∧
        new.Pairwise (fun x y => placeBefore x.2 y.2) ∧
        (((scanDaysTraced resource record i schedule (conflicts, seen)).1.map (fun x => x.1),
            (scanDaysTraced resource record i schedule (conflicts, seen)).2) =
          scanDays resource record schedule (conflicts.map (fun x => x.1), seen)) := by
  intro schedule
  induction schedule with
  | nil =>
    intro i conflicts seen
    exact ⟨[], by simp [scanDaysTraced], by simp, List.Pairwise.nil, by simp [scanDaysTraced, scanDays]⟩
  | cons day rest ih =>
    intro i conflicts seen
    obtain ⟨new1, a1, a2, a3, a4⟩ :=
      scanSlotsTraced_spec resource record day.day i day.timeSlots 0 conflicts seen
    obtain ⟨new2, b1, b2, b3, b4⟩ := ih (i + 1)
      (scanSlotsTraced resource record day.day i 0 day.timeSlots (conflicts, seen)).1
      (scanSlotsTraced resource record day.day i 0 day.timeSlots (conflicts, seen)).2
    refine ⟨new1 ++ new2, ?_, ?_, ?_, ?_⟩
    · rw [scanDaysTraced, b1, a1, List.append_assoc]
    · intro x hx
      rcases List.mem_append.mp hx with hx | hx
      · obtain ⟨c1, c2, _, c4⟩ := a2 x hx
        refine ⟨c1, by omega, by simp only [List.length_cons]; omega, day, ?_, by omega⟩
        simp [c2]
      · obtain ⟨c1, c2, c3, d, c4, c5⟩ := b2 x hx
        refine ⟨c1, by omega, by simp only [List.length_cons]; omega, d, ?_, c5⟩
        have e : x.2.1 - i = (x.2.1 - (i + 1)) + 1 := by omega
        rw [e, List.getElem?_cons_succ]
        exact c4
    · rw [List.pairwise_append]
      refine ⟨a3.imp_of_mem ?_, b3, ?_⟩
      · intro x y hx hy hlt
        exact Or.inr ⟨by rw [(a2 x hx).2.1, (a2 y hy).2.1], hlt⟩
      · intro x hx y hy
        have h1 := (a2 x hx).2.1
        have h2 := (b2 y hy).2.1
        exact Or.inl (by omega)
    · rw [scanDaysTraced, b4, scanDays, ← a4]

/-- Claim C18 fails: the faculty conflict of Tuesday is emitted before the
room conflict of Monday. -/
theorem conflict_order_counterexample :
    detectConflicts mixedClash = [facultyConflictRecord, roomConflictRecord] ∧
    detectConflictsTraced mixedClash =
      [(facultyConflictRecord, 1, 1), (roomConflictRecord, 0, 1)] ∧
    placeBefore (0, 1) (1, 1) :=
  ⟨by rfl, by rfl, Or.inl (by decide)⟩

/-- Claim C18, amended: `detectConflicts` emits the faculty-conflict records
first and the room-conflict records after them; within each of the two groups
the assignments that triggered the records follow day order, then slot
order. -/
theorem detectConflicts_order (t : Timetable) :
    (detectConflictsTraced t).map (fun x => x.1) = detectConflicts t ∧
    ∃ F R, detectConflictsTraced t = F ++ R ∧
      (∀ x ∈ F, x.1 = facultyConflictRecord) ∧ (∀ x ∈ R, x.1 = roomConflictRecord) ∧
      F.Pairwise (fun x y => placeBefore x.2 y.2) ∧
      R.Pairwise (fun x y => placeBefore x.2 y.2) ∧
      ∀ x ∈ F ++ R, ∃ d, t.schedule[x.2.1]? = some d ∧ x.2.2 < d.timeSlots.length := by
  obtain ⟨F, f1, f2, f3, f4⟩ :=
    scanDaysTraced_spec (fun slot => slot.faculty) facultyConflictRecord t.schedule 0 [] []
  obtain ⟨R, r1, r2, r3, r4⟩ :=
    scanDaysTraced_spec (fun slot => slot.classroom) roomConflictRecord t.schedule 0
      (scanDaysTraced (fun slot => slot.faculty) facultyConflictRecord 0 t.schedule ([], [])).1
      []
  have hF : (scanDaysTraced (fun slot => slot.faculty) facultyConflictRecord 0 t.schedule
      ([], [])).1 = F := by simpa using f1
  refine ⟨?_, F, R, ?_, fun x hx => (f2 x hx).1, fun x hx => (r2 x hx).1, f3, r3, ?_⟩
  · have h1 := congrArg Prod.fst r4
    have h2 := congrArg Prod.fst f4
    simp only [List.map_nil] at h1 h2
    simp only [detectConflictsTraced, detectConflicts]
    rw [h1, h2]
  · simp only [detectConflictsTraced]
    rw [r1, hF]
  · intro x hx
    rcases List.mem_append.mp hx with hx | hx
    · obtain ⟨_, _, _, d, hd, hlt⟩ := f2 x hx
      exact ⟨d, by simpa using hd, hlt⟩
    · obtain ⟨_, _, _, d, hd, hlt⟩ := r2 x hx
      exact ⟨d, by simpa using hd, hlt⟩

/-! ## A run without courses -/

theorem emptyScored_schedule (departmentId semester : Nat) (academicYear : String)
    (constraints : Option Constraints) :
    (emptyScored departmentId semester academicYear constraints).schedule =
      [⟨Day.monday, []⟩, ⟨Day.tuesday, []⟩, ⟨Day.wednesday, []⟩, ⟨Day.thursday, []⟩,
        ⟨Day.friday, []⟩, ⟨Day.saturday, []⟩] := rfl

theorem calculateFitness_emptyTimetable (departmentId semester : Nat) (academicYear : String)
    (constraints : Option Constraints) :
    ({ (calculateFitness (emptyTimetable departmentId semester academicYear constraints)).2 with
        fitnessScore :=
          (calculateFitness (emptyTimetable departmentId semester academicYear constraints)).1 }
      : Timetable) = emptyScored departmentId semester academicYear constraints := rfl

theorem calculateFitness_emptyScored (departmentId semester : Nat) (academicYear : String)
    (constraints : Option Constraints) :
    ({ (calculateFitness (emptyScored departmentId semester academicYear constraints)).2 with
        fitnessScore :=
          (calculateFitness (emptyScored departmentId semester academicYear constraints)).1 }
      : Timetable) = emptyScored departmentId semester academicYear constraints := rfl

theorem populationLoop_no_courses (fuel : Nat) (baseTimetable : Timetable)
    (faculties : List Faculty) (classrooms : List Classroom) (rnd : Rand) :
    ∀ (remaining : Nat) (population : List Timetable) (pos : Nat),
      populationLoop fuel baseTimetable [] faculties classrooms rnd remaining population pos =
        some (.ok (population ++ List.replicate remaining
          { (calculateFitness baseTimetable).2 with
            fitnessScore := (calculateFitness baseTimetable).1 }, pos)) := by
  intro remaining
  induction remaining with
  | zero => intro population pos; simp [populationLoop]
  | succ n ih =>
    intro population pos
    rw [populationLoop]
    simp only [assignCourses]
    rw [ih, List.replicate_succ, List.append_assoc, List.singleton_append]

theorem crossover_emptyScored (departmentId semester : Nat) (academicYear : String)
    (constraints : Option Constraints) (rnd : Rand) (pos : Nat) :
    crossover (emptyScored departmentId semester academicYear constraints)
        (emptyScored departmentId semester academicYear constraints) rnd pos =
      .ok (emptyScored departmentId semester academicYear constraints, pos + 1) := by
  have hk : rnd pos % 6 < 6 := Nat.mod_lt _ (by omega)
  have hidx : randomIndex (rnd pos) days.length = rnd pos % 6 := by
    simp [randomIndex, days]
  have hcross : ∀ k, k < 6 →
      ({ emptyScored departmentId semester academicYear constraints with
          schedule := crossedSchedule k
            (emptyScored departmentId semester academicYear constraints).schedule
            (emptyScored departmentId semester academicYear constraints).schedule }
        : Timetable) = emptyScored departmentId semester academicYear constraints := by
    intro k hk
    interval_cases k <;> rfl
  rw [crossover, hidx,
    crossoverAt_eq (emptyScored departmentId semester academicYear constraints)
      (emptyScored departmentId semester academicYear constraints) (rnd pos % 6)
      (by rfl) (by rfl) hk, hcross _ hk]

theorem mutate_emptyScored (departmentId semester : Nat) (academicYear : String)
    (constraints : Option Constraints) (rnd : Rand) (pos : Nat) :
    ∃ pos1, mutate (emptyScored departmentId semester academicYear constraints) rnd pos =
      .returned (emptyScored departmentId semester academicYear constraints, pos1) := by
  by_cases hg : mutationGate (rnd pos) = true
  · refine ⟨pos + 2, ?_⟩
    have hk : rnd (pos + 1) % 6 < 6 := Nat.mod_lt _ (by omega)
    rw [mutate, if_pos hg]
    simp only [randomIndex, days, List.length_cons, List.length_nil, emptyScored_schedule]
    norm_num
    interval_cases (rnd (pos + 1) % 6) <;> rfl
  · refine ⟨pos + 1, ?_⟩
    rw [mutate, if_neg hg]

theorem stationary_emptyScored (departmentId semester : Nat) (academicYear : String)
    (constraints : Option Constraints) :
    Stationary (emptyScored departmentId semester academicYear constraints) :=
  ⟨crossover_emptyScored departmentId semester academicYear constraints,
    mutate_emptyScored departmentId semester academicYear constraints,
    calculateFitness_emptyScored departmentId semester academicYear constraints⟩

theorem breedChild_stationary (T : Timetable) (hT : Stationary T) (parents : List Timetable)
    (hne : parents ≠ []) (hall : ∀ c ∈ parents, c = T) (rnd : Rand) (pos : Nat) :
    ∃ pos1, breedChild parents rnd pos = .ok (T, pos1) := by
  have hlen : 0 < parents.length := List.length_pos.mpr hne
  have hn : parents.length ≠ 0 := Nat.pos_iff_ne_zero.mp hlen
  have hpick : ∀ r, parents[randomIndex r parents.length]? = some T := by
    intro r
    have hlt : r % parents.length < parents.length := Nat.mod_lt _ hlen
    simp only [randomIndex, hn, if_false]
    rw [List.getElem?_eq_getElem hlt]
    exact congrArg some (hall _ (List.getElem_mem _))
  obtain ⟨pos1, hm⟩ := hT.2.1 rnd (pos + 2 + 1)
  refine ⟨pos1, ?_⟩
  simp only [breedChild, hpick, hT.1, hm, hT.2.2]

theorem breedLoop_stationary (T : Timetable) (hT : Stationary T) (parents : List Timetable)
    (hne : parents ≠ []) (hall : ∀ c ∈ parents, c = T) (rnd : Rand) (size : Nat) :
    ∀ (fuel : Nat) (newGeneration : List Timetable) (pos : Nat),
      (∀ c ∈ newGeneration, c = T) → newGeneration.length + fuel = size →
      ∃ result pos1, breedLoop parents rnd size fuel newGeneration pos = .ok (result, pos1) ∧
        result.length = size ∧ ∀ c ∈ result, c = T := by
  intro fuel
  induction fuel with
  | zero =>
    intro newGeneration pos hnew hlen
    exact ⟨newGeneration, pos, rfl, by omega, hnew⟩
  | succ fuel ih =>
    intro newGeneration pos hnew hlen
    obtain ⟨pos1, hchild⟩ := breedChild_stationary T hT parents hne hall rnd pos
    have hlt : newGeneration.length < size := by omega
    rw [breedLoop, if_pos hlt]
    simp only [hchild]
    apply ih
    · intro c hc
      rcases List.mem_append.mp hc with hc | hc
      · exact hnew c hc
      · simpa using hc
    · simp only [List.length_append, List.length_singleton]; omega

theorem selectParentsLoop_mem (population : List Timetable) (rnd : Rand) :
    ∀ (fuel pos : Nat) (parents : List Timetable),
      ∀ c ∈ (selectParentsLoop population rnd fuel pos parents).1,
        c ∈ parents ∨ c ∈ population := by
  intro fuel
  induction fuel with
  | zero => intro pos parents c hc; exact Or.inl hc
  | succ fuel ih =>
    intro pos parents c hc
    rw [selectParentsLoop] at hc
    split at hc
    · rcases ih _ _ c hc with h | h
      · rcases List.mem_append.mp h with h | h
        · exact Or.inl h
        · by_cases hne : population = []
          · subst hne
            simp [tournament, sortByFitness] at h
          · obtain ⟨w, hhead, _, hpop, _⟩ := tournament_winner population rnd pos hne
            rw [hhead] at h
            simp only [Option.toList, List.mem_singleton] at h
            exact Or.inr (h ▸ hpop)
      · exact Or.inr h
    · exact Or.inl hc

theorem evolveGenerations_stationary (T : Timetable) (hT : Stationary T) (rnd : Rand) :
    ∀ (generations : Nat) (population : List Timetable) (pos : Nat),
      population ≠ [] → (∀ c ∈ population, c = T) →
      ∃ final pos1, evolveGenerations rnd generations population pos = .ok (final, pos1) ∧
        final ≠ [] ∧ ∀ c ∈ final, c = T := by
  intro generations
  induction generations with
  | zero =>
    intro population pos hne hall
    exact ⟨population, pos, rfl, hne, hall⟩
  | succ n ih =>
    intro population pos hne hall
    have hplen : 0 < population.length := List.length_pos.mpr hne
    have hsel := selectParentsLoop_spec population rnd hne (population.length + 1) pos []
      (by simp) (by simp; omega)
    have hparents_ne : (selectParents population rnd pos).1 ≠ [] := by
      intro h
      have := hsel.1
      rw [selectParents] at h
      rw [h] at this
      simp at this
      omega
    have hparents_all : ∀ c ∈ (selectParents population rnd pos).1, c = T := by
      intro c hc
      rcases selectParentsLoop_mem population rnd _ _ _ c hc with h | h
      · simp at h
      · exact hall c h
    obtain ⟨result, pos1, hbreed, hrlen, hrall⟩ :=
      breedLoop_stationary T hT _ hparents_ne hparents_all rnd population.length
        population.length [] (selectParents population rnd pos).2 (by simp) (by simp)
    rw [evolveGenerations]
    simp only [hbreed]
    exact ih result pos1 (by intro h; rw [h] at hrlen; simp at hrlen; omega) hrall

theorem evolvePopulation_stationary (T : Timetable) (hT : Stationary T) (rnd : Rand)
    (generations : Nat) (population : List Timetable) (pos : Nat)
    (hne : population ≠ []) (hall : ∀ c ∈ population, c = T) :
    ∃ pos1, evolvePopulation population generations rnd pos = .ok (some T, pos1) := by
  obtain ⟨final, pos1, hrun, hfne, hfall⟩ :=
    evolveGenerations_stationary T hT rnd generations population pos hne hall
  obtain ⟨best, hhead, hmem, _⟩ := sortByFitness_head final hfne
  refine ⟨pos1, ?_⟩
  rw [evolvePopulation, hrun]
  simp only [hhead, hfall best hmem]

theorem generateTimetable_no_courses (fuel departmentId semester : Nat)
    (academicYear : String) (courses : List Course) (faculties : List Faculty)
    (classrooms : List Classroom) (constraints : Option Constraints) (rnd : Rand) (pos : Nat)
    (hnone : courses.filter (fun course => course.semester == semester) = []) :
    ∃ pos1, generateTimetable fuel departmentId semester academicYear courses faculties
        classrooms constraints rnd pos =
      some (.ok (some (emptyScored departmentId semester academicYear constraints), pos1)) := by
  obtain ⟨pos1, hev⟩ := evolvePopulation_stationary
    (emptyScored departmentId semester academicYear constraints)
    (stationary_emptyScored departmentId semester academicYear constraints) rnd 100
    (List.replicate 50 (emptyScored departmentId semester academicYear constraints)) pos
    (by simp) (fun c hc => (List.mem_replicate.mp hc).2)
  refine ⟨pos1, ?_⟩
  rw [generateTimetable, hnone, generateInitialPopulation, populationLoop_no_courses,
    calculateFitness_emptyTimetable]
  simp only [List.nil_append, hev]

/-- Claim C19 fails: with an empty course list `generateTimetable` returns the
timetable whose six days are empty, scored 100. -/
theorem empty_course_list_counterexample :
    ∃ pos1, generateTimetable 0 1 1 "2025" [] staff rooms none (fun _ => 0) 0 =
        some (.ok (some (emptyScored 1 1 "2025" none), pos1)) ∧
      (emptyScored 1 1 "2025" none).schedule =
        [⟨Day.monday, []⟩, ⟨Day.tuesday, []⟩, ⟨Day.wednesday, []⟩, ⟨Day.thursday, []⟩,
          ⟨Day.friday, []⟩, ⟨Day.saturday, []⟩] := by
  obtain ⟨pos1, h⟩ := generateTimetable_no_courses 0 1 1 "2025" [] staff rooms none
    (fun _ => 0) 0 rfl
  exact ⟨pos1, h, rfl⟩

/-- Claim C19, amended: when the course list holds no course of the requested
semester, `generateTimetable` does not reject the run: for every source of
draws it returns a timetable with the six days, no assignment on any of
them, score 100 and no conflict. -/
theorem generateTimetable_empty_courses (fuel departmentId semester : Nat)
    (academicYear : String) (courses : List Course) (faculties : List Faculty)
    (classrooms : List Classroom) (constraints : Option Constraints) (rnd : Rand) (pos : Nat)
    (hnone : ∀ course ∈ courses, course.semester ≠ semester) :
    ∃ best pos1, generateTimetable fuel departmentId semester academicYear courses faculties
        classrooms constraints rnd pos = some (.ok (some best, pos1)) ∧
      best.schedule.map (fun d => d.day) = days ∧
      (∀ d ∈ best.schedule, d.timeSlots = []) ∧
      best.fitnessScore = 100 ∧ best.conflicts = [] ∧
      best.constraints = constraints.getD defaultConstraints := by
  have hfilter : courses.filter (fun course => course.semester == semester) = [] := by
    rw [List.filter_eq_nil_iff]
    intro course hc
    simpa using hnone course hc
  obtain ⟨pos1, h⟩ := generateTimetable_no_courses fuel departmentId semester academicYear
    courses faculties classrooms constraints rnd pos hfilter
  refine ⟨_, pos1, h, rfl, ?_, rfl, rfl, rfl⟩
  intro d hd
  rw [emptyScored_schedule] at hd
  simp only [List.mem_cons, List.mem_singleton, List.not_mem_nil, or_false] at hd
  rcases hd with rfl | rfl | rfl | rfl | rfl | rfl <;> rfl

/-- The run of claim C19 when no course is of the requested semester. -/
theorem generateTimetable_empty_courses_witness :
    (∀ course ∈ [algebra, chemLab], course.semester ≠ 2) ∧
    ∃ best pos1, generateTimetable 5 1 2 "2025" [algebra, chemLab] staff rooms none
        (fun i => i) 0 = some (.ok (some best, pos1)) ∧
      best.schedule.map (fun d => d.day) = days ∧
      (∀ d ∈ best.schedule, d.timeSlots = []) ∧
      best.fitnessScore = 100 ∧ best.conflicts = [] ∧
      best.constraints = (none : Option Constraints).getD defaultConstraints :=
  ⟨by decide, generateTimetable_empty_courses 5 1 2 "2025" [algebra, chemLab] staff rooms none
    (fun i => i) 0 (by decide)⟩

/-! ## Length of a practical session -/

theorem placedFor_duration {course : Course} {faculties : List Faculty}
    {classrooms : List Classroom} {constraints : Constraints} {a : Assignment}
    (h : PlacedFor course faculties classrooms constraints a) :
    minutesOf a.endTime = minutesOf a.startTime + 60 ∧
      a.isLabSession = (course.type == CourseType.practical) := by
  obtain ⟨slot, hslot, _, rfl⟩ := h
  obtain ⟨hh, _, _, rfl⟩ := mem_timeSlots slot hslot
  refine ⟨?_, rfl⟩
  simp only [newAssignment, minutesOf]
  omega

/-- Claim C20 at a practical course of three weekly hours: the two sessions
that `assignCourseRandomly` places last 60 minutes each, as every assignment
it places does, while `requiredSlots` has counted two hours per session. -/
theorem practical_session_one_slot :
    chemLab.type = CourseType.practical ∧ requiredSlots chemLab = 2 ∧
    assignCourseRandomly 3 (emptyTimetable 1 1 "2025" none) chemLab [] [] (fun i => i / 2) 0 =
      some (.returned
        ({ emptyTimetable 1 1 "2025" none with
            schedule :=
              [⟨Day.monday, [⟨⟨8, 0⟩, ⟨9, 0⟩, 8, none, none, "A", true⟩]⟩,
                ⟨Day.tuesday, [⟨⟨9, 0⟩, ⟨10, 0⟩, 8, none, none, "A", true⟩]⟩,
                ⟨Day.wednesday, []⟩, ⟨Day.thursday, []⟩, ⟨Day.friday, []⟩,
                ⟨Day.saturday, []⟩] }, 4)) ∧
    minutesOf ⟨9, 0⟩ = minutesOf ⟨8, 0⟩ + 60 ∧ minutesOf ⟨10, 0⟩ = minutesOf ⟨9, 0⟩ + 60 ∧
    (∀ (fuel : Nat) (t : Timetable) (course : Course) (faculties : List Faculty)
      (classrooms : List Classroom) (rnd : Rand) (pos : Nat) (r : Run (Timetable × Nat)),
      assignCourseRandomly fuel t course faculties classrooms rnd pos = some r →
      ExtendsBy (fun a => minutesOf a.endTime = minutesOf a.startTime + 60)
        t.schedule r.state.1.schedule) := by
  refine ⟨rfl, by decide, by rfl, by decide, by decide, ?_⟩
  intro fuel t course faculties classrooms rnd pos r h
  exact extendsBy_mono (fun a ha => (placedFor_duration ha).1)
    (assignLoop_extends _ _ _ _ _ _ _ _ _ _ h).2.2.2

/-! ## Free slots of a day that holds assignments -/

/-- Claim C23 at a day that holds one assignment: `getAvailableSlots` raises
a `TypeError`, because the overlap test applies `parseTime` to the `Date`s of
`usedSlots`; it does so on every day that holds an assignment. On an empty
day under the default constraints it returns the eight slots outside the
lunch hour. -/
theorem getAvailableSlots_raises :
    getAvailableSlots ⟨Day.monday, [seminarSession]⟩ defaultConstraints
      = .error JsError.typeError ∧
    parseTime (.date (minutesOf seminarSession.endTime)) = .error JsError.typeError ∧
    (∀ (daySchedule : DaySchedule) (constraints : Constraints),
      daySchedule.timeSlots ≠ [] →
      getAvailableSlots daySchedule constraints = .error JsError.typeError) ∧
    getAvailableSlots ⟨Day.monday, []⟩ defaultConstraints =
      .ok [⟨⟨8, 0⟩, ⟨9, 0⟩⟩, ⟨⟨9, 0⟩, ⟨10, 0⟩⟩, ⟨⟨10, 0⟩, ⟨11, 0⟩⟩, ⟨⟨11, 0⟩, ⟨12, 0⟩⟩,
        ⟨⟨13, 0⟩, ⟨14, 0⟩⟩, ⟨⟨14, 0⟩, ⟨15, 0⟩⟩, ⟨⟨15, 0⟩, ⟨16, 0⟩⟩, ⟨⟨16, 0⟩, ⟨17, 0⟩⟩] :=
  ⟨by rfl, by rfl, getAvailableSlots_of_ne_nil, by rfl⟩

/-- Claim C21 for the theory course of three weekly hours, when every draw
picks Monday: the first session is placed at 08:00, the second attempt raises
a `TypeError` in `getAvailableSlots`, and for no number of rounds does the
call return. -/
theorem three_sessions_raise :
    algebra.type = CourseType.theory ∧ requiredSlots algebra = 3 ∧
    assignCourseRandomly 5 (emptyTimetable 1 1 "2025" none) algebra [] [] (fun _ => 0) 0 =
      some (.raised JsError.typeError (algebraOnMonday, 3)) ∧
    (∀ (fuel : Nat) (s : Timetable × Nat),
      assignCourseRandomly fuel (emptyTimetable 1 1 "2025" none) algebra [] [] (fun _ => 0) 0
        ≠ some (.returned s)) := by
  refine ⟨rfl, by decide, by rfl, ?_⟩
  intro fuel s
  match fuel with
  | 0 => intro h; cases h
  | 1 => intro h; cases h
  | n + 2 =>
    have : assignCourseRandomly (n + 2) (emptyTimetable 1 1 "2025" none) algebra [] []
        (fun _ => 0) 0 = some (.raised JsError.typeError (algebraOnMonday, 3)) := by rfl
    rw [this]
    intro h
    cases h

/-! ## Mutation and fitness -/

/-- Claim C25: after `mutate`, whether it returns or raises, `detectConflicts`
gives at most as many records as before and `calculateFitness` at least the
score of before, for every timetable and every source of draws (`mutate`
leaves the timetable as it was). -/
theorem mutate_conflicts_le (t : Timetable) (rnd : Rand) (pos : Nat) :
    (detectConflicts (mutate t rnd pos).state.1).length ≤ (detectConflicts t).length ∧
    (calculateFitness t).1 ≤ (calculateFitness (mutate t rnd pos).state.1).1 ∧
    (∀ s, mutate t rnd pos = .returned s →
      (detectConflicts s.1).length ≤ (detectConflicts t).length ∧
      (calculateFitness t).1 ≤ (calculateFitness s.1).1) := by
  have hs := mutate_state t rnd pos
  refine ⟨by rw [hs], by rw [hs], ?_⟩
  intro s h
  rw [h] at hs
  simp only [Run.state] at hs
  rw [hs]
  exact ⟨le_refl _, le_refl _⟩

/-! ## The daily cap -/

theorem mem_updateDay (d : Day) (f : DaySchedule → DaySchedule) (s : List DaySchedule)
    (ds : DaySchedule) (h : findDay s d = some ds) :
    ∀ x ∈ updateDay d f s, x ∈ s ∨ x = f ds := by
  induction s with
  | nil => simp [findDay] at h
  | cons y rest ih =>
    intro x hx
    by_cases hy : y.day = d
    · have hds : ds = y := by
        simp only [findDay, List.find?_cons, hy, beq_self_eq_true] at h
        exact (Option.some.inj h).symm
      simp only [updateDay, hy, beq_self_eq_true, if_true, List.mem_cons] at hx
      rcases hx with rfl | hx
      · exact Or.inr (by rw [hds])
      · exact Or.inl (List.mem_cons_of_mem _ hx)
    · have hrest : findDay rest d = some ds := by
        simpa [findDay, List.find?_cons, hy] using h
      simp only [updateDay, beq_iff_eq, hy, if_false, List.mem_cons] at hx
      rcases hx with rfl | hx
      · exact Or.inl (List.mem_cons_self _ _)
      · rcases ih hrest x hx with h1 | h1
        · exact Or.inl (List.mem_cons_of_mem _ h1)
        · exact Or.inr h1

theorem extendsBy_map_day {Q : Assignment → Prop} {s1 s2 : List DaySchedule}
    (h : ExtendsBy Q s1 s2) : s2.map (fun d => d.day) = s1.map (fun d => d.day) := by
  induction h with
  | nil => rfl
  | cons hd htl ih => simp only [List.map_cons, hd.1, ih]

/-- A property of timetables kept by every push of the placement loop holds
in the final state of a run, however the run ends. -/
theorem assignCourseRandomly_keeps (P : Timetable → Prop) (fuel : Nat) (t : Timetable)
    (course : Course) (faculties : List Faculty) (classrooms : List Classroom) (rnd : Rand)
    (pos : Nat) (r : Run (Timetable × Nat))
    (hstep : ∀ (t2 : Timetable) (d : Day) (daySchedule : DaySchedule) (slot : Slot),
      P t2 → findDay t2.schedule d = some daySchedule →
      (daySchedule.timeSlots.length : Int) < t2.constraints.maxClassesPerDay →
      daySchedule.timeSlots = [] →
      P (pushAssignment t2 d (newAssignment course faculties classrooms slot)))
    (hP : P t)
    (h : assignCourseRandomly fuel t course faculties classrooms rnd pos = some r) :
    P r.state.1 := by
  obtain ⟨_, hres, _⟩ := assignLoop_invariant course faculties classrooms rnd
    (requiredSlots course) (fun t2 _ => P t2)
    (fun t2 _ d daySchedule slots slot hP2 _ hfind hlen hslots _ =>
      hstep t2 d daySchedule slot hP2 hfind hlen (getAvailableSlots_ok _ _ _ hslots).1)
    fuel t pos 0 r hP h
  exact hres

theorem assignCourses_keeps (P : Timetable → Prop) (fuel : Nat) (faculties : List Faculty)
    (classrooms : List Classroom) (rnd : Rand)
    (hrun : ∀ (t : Timetable) (course : Course) (pos : Nat) (r : Run (Timetable × Nat)),
      P t → assignCourseRandomly fuel t course faculties classrooms rnd pos = some r →
      P r.state.1) :
    ∀ (courses : List Course) (t : Timetable) (pos : Nat) (t1 : Timetable) (pos1 : Nat),
      P t → assignCourses fuel faculties classrooms rnd courses t pos = some (.ok (t1, pos1)) →
      P t1 := by
  intro courses
  induction courses with
  | nil =>
    intro t pos t1 pos1 hP h
    simp only [assignCourses, Option.some.injEq, Except.ok.injEq, Prod.mk.injEq] at h
    exact h.1 ▸ hP
  | cons course rest ih =>
    intro t pos t1 pos1 hP h
    rw [assignCourses] at h
    split at h
    · simp at h
    · simp at h
    · rename_i t2 pos2 hrun2
      exact ih t2 pos2 t1 pos1 (hrun t course pos _ hP hrun2) h

theorem withinDailyCap_push (t2 : Timetable) (d : Day) (daySchedule : DaySchedule)
    (a : Assignment) (hcap : WithinDailyCap t2)
    (hfind : findDay t2.schedule d = some daySchedule)
    (hlen : (daySchedule.timeSlots.length : Int) < t2.constraints.maxClassesPerDay) :
    WithinDailyCap (pushAssignment t2 d a) := by
  intro x hx
  rcases mem_updateDay d _ t2.schedule daySchedule hfind x hx with h | h
  · exact hcap x h
  · subst h
    simp only [List.length_append, List.length_singleton, pushAssignment]
    push_cast
    omega

theorem crossoverLoop_days (parent2 : Timetable) :
    ∀ (indices : List Nat) (child result : Timetable),
      crossoverLoop parent2 indices child = .ok result →
      result.constraints = child.constraints ∧ result.fitnessScore = child.fitnessScore ∧
        result.conflicts = child.conflicts ∧
        result.schedule.map (fun d => d.day) = child.schedule.map (fun d => d.day) ∧
        ∀ d ∈ result.schedule, ∃ d1, (d1 ∈ child.schedule ∨ d1 ∈ parent2.schedule) ∧
          d.timeSlots = d1.timeSlots := by
  intro indices
  induction indices with
  | nil =>
    intro child result h
    simp only [crossoverLoop, Except.ok.injEq] at h
    subst h
    exact ⟨rfl, rfl, rfl, rfl, fun d hd => ⟨d, Or.inl hd, rfl⟩⟩
  | cons i rest ih =>
    intro child result h
    rw [crossoverLoop] at h
    split at h
    · cases h
    · rename_i child1 hstep
      obtain ⟨h1, h2, h3, h4, h5⟩ := ih child1 result h
      unfold crossoverStep at hstep
      split at hstep
      · rename_i d2 dc hd2 hdc
        simp only [Except.ok.injEq] at hstep
        subst hstep
        refine ⟨h1, h2, h3, ?_, ?_⟩
        · rw [h4]
          simp only
          apply List.ext_getElem?
          intro n
          simp only [List.getElem?_map, List.getElem?_set]
          by_cases hn : i = n
          · subst hn
            obtain ⟨hlt, _⟩ := List.getElem?_eq_some.mp hdc
            simp [hdc, hlt]
          · simp [hn]
        · intro d hd
          obtain ⟨d1, hd1, heq⟩ := h5 d hd
          rcases hd1 with hd1 | hd1
          · rcases List.mem_or_eq_of_mem_set hd1 with hm | hm
            · exact ⟨d1, Or.inl hm, heq⟩
            · exact ⟨d2, Or.inr (List.getElem?_mem hd2), by rw [heq, hm]⟩
          · exact ⟨d1, Or.inr hd1, heq⟩
      · cases hstep

theorem updateDay_length (d : Day) (f : DaySchedule → DaySchedule) (s : List DaySchedule) :
    (updateDay d f s).length = s.length := by
  induction s with
  | nil => rfl
  | cons y rest ih =>
    by_cases hy : y.day = d
    · simp [updateDay, hy]
    · simp [updateDay, hy, ih]

theorem population_keeps (P : Timetable → Prop) (fuel : Nat) (baseTimetable : Timetable)
    (courses : List Course) (faculties : List Faculty) (classrooms : List Classroom)
    (populationSize : Nat) (rnd : Rand) (pos : Nat) (population : List Timetable) (pos1 : Nat)
    (hrun : ∀ (t : Timetable) (course : Course) (pos : Nat) (r : Run (Timetable × Nat)),
      P t → assignCourseRandomly fuel t course faculties classrooms rnd pos = some r →
      P r.state.1)
    (hbase : P baseTimetable)
    (hret : generateInitialPopulation fuel baseTimetable courses faculties classrooms
      populationSize rnd pos = some (.ok (population, pos1))) :
    ∀ t ∈ population, ∃ built, P built ∧
      t = { (calculateFitness built).2 with fitnessScore := (calculateFitness built).1 } := by
  intro t ht
  rcases populationLoop_members fuel baseTimetable courses faculties classrooms rnd
    populationSize [] pos population pos1 hret t ht with hnil | ⟨built, p, p1, hbuilt, rfl⟩
  · simp at hnil
  · exact ⟨built, assignCourses_keeps P fuel faculties classrooms rnd hrun courses
      baseTimetable p built p1 hbase hbuilt, rfl⟩

/-- Claim C24: every candidate that `generateInitialPopulation` returns on a
base timetable without assignments and with `maxClassesPerDay >= 0` holds at
most `maxClassesPerDay` assignments on each day; crossover of two candidates
with the same constraints block keeps this, and so does `mutate`; with a cap
of 6 and six days no day holds more than 6 and the week no more than 36. -/
theorem daily_cap (fuel : Nat) (baseTimetable : Timetable) (courses : List Course)
    (faculties : List Faculty) (classrooms : List Classroom) (populationSize : Nat)
    (rnd : Rand) (pos : Nat) (population : List Timetable) (pos1 : Nat)
    (hbase : ∀ d ∈ baseTimetable.schedule, d.timeSlots = [])
    (hmax : 0 ≤ baseTimetable.constraints.maxClassesPerDay)
    (hret : generateInitialPopulation fuel baseTimetable courses faculties classrooms
      populationSize rnd pos = some (.ok (population, pos1))) :
    (∀ t ∈ population, WithinDailyCap t ∧ t.constraints = baseTimetable.constraints ∧
      t.schedule.length = baseTimetable.schedule.length) ∧
    (∀ (k : Nat) (parent1 parent2 child : Timetable),
      parent1.constraints = parent2.constraints → WithinDailyCap parent1 →
      WithinDailyCap parent2 → crossoverAt k parent1 parent2 = .ok child →
      WithinDailyCap child ∧ child.constraints = parent1.constraints ∧
        child.schedule.length = parent1.schedule.length) ∧
    (∀ (t : Timetable) (rnd2 : Rand) (pos2 : Nat), WithinDailyCap t →
      WithinDailyCap (mutate t rnd2 pos2).state.1) ∧
    (∀ t : Timetable, WithinDailyCap t → t.constraints.maxClassesPerDay = 6 →
      t.schedule.length = 6 →
      (∀ d ∈ t.schedule, d.timeSlots.length ≤ 6) ∧ totalClasses t ≤ 36) := by
  refine ⟨?_, ?_, ?_, ?_⟩
  · intro t ht
    obtain ⟨built, hP, rfl⟩ := population_keeps
      (fun t2 => WithinDailyCap t2 ∧ t2.constraints = baseTimetable.constraints ∧
        t2.schedule.length = baseTimetable.schedule.length)
      fuel baseTimetable courses faculties classrooms populationSize rnd pos population pos1
      (by
        intro t0 course p r hP0 hr
        refine assignCourseRandomly_keeps
          (fun t2 => WithinDailyCap t2 ∧ t2.constraints = baseTimetable.constraints ∧
            t2.schedule.length = baseTimetable.schedule.length)
          fuel t0 course faculties classrooms rnd p r ?_ hP0 hr
        intro t2 d daySchedule slot hP2 hfind hlen _
        exact ⟨withinDailyCap_push t2 d daySchedule _ hP2.1 hfind hlen, hP2.2.1,
          by rw [← hP2.2.2]; exact updateDay_length _ _ _⟩)
      ⟨fun d hd => by rw [hbase d hd]; simpa using hmax, rfl, rfl⟩ hret t ht
    exact hP
  · intro k parent1 parent2 child hc h1 h2 hcross
    obtain ⟨c1, _, _, c4, c5⟩ := crossoverLoop_days parent2 _ parent1 child hcross
    refine ⟨?_, c1, ?_⟩
    · intro d hd
      obtain ⟨d1, hd1, heq⟩ := c5 d hd
      rw [heq, c1]
      rcases hd1 with hd1 | hd1
      · exact h1 d1 hd1
      · rw [hc]; exact h2 d1 hd1
    · have := congrArg List.length c4
      simpa using this
  · intro t rnd2 pos2 h
    rw [mutate_state]
    exact h
  · intro t hcap h6 hlen
    have hday : ∀ d ∈ t.schedule, d.timeSlots.length ≤ 6 := by
      intro d hd
      have := hcap d hd
      rw [h6] at this
      exact_mod_cast this
    refine ⟨hday, ?_⟩
    obtain ⟨a, b, c, d, e, f, hs⟩ := eq_six_of_length _ hlen
    have ha := hday a (by simp [hs])
    have hb := hday b (by simp [hs])
    have hc := hday c (by simp [hs])
    have hd := hday d (by simp [hs])
    have he := hday e (by simp [hs])
    have hf := hday f (by simp [hs])
    simp only [totalClasses, hs, List.map_cons, List.map_nil, List.sum_cons, List.sum_nil]
    omega

/-- The cap of claim C24 on the population built from two courses. -/
theorem daily_cap_witness :
    (∀ d ∈ (emptyTimetable 1 1 "2025" none).schedule, d.timeSlots = []) ∧
    0 ≤ (emptyTimetable 1 1 "2025" none).constraints.maxClassesPerDay ∧
    generateInitialPopulation 8 (emptyTimetable 1 1 "2025" none) [algebra, chemLab] staff
        rooms 1 (fun i => i / 2) 0 = some (.ok ([seededCandidate], 10)) ∧
    (∀ t ∈ [seededCandidate], WithinDailyCap t ∧
      t.constraints = (emptyTimetable 1 1 "2025" none).constraints ∧
      t.schedule.length = (emptyTimetable 1 1 "2025" none).schedule.length) :=
  ⟨by decide, by decide, by rfl,
    (daily_cap 8 (emptyTimetable 1 1 "2025" none) [algebra, chemLab] staff rooms 1
      (fun i => i / 2) 0 [seededCandidate] 10 (by decide) (by decide) (by rfl)).1⟩

/-! ## Reachable candidates -/

theorem repeats_nil_of_nodup (ks : List Key) (h : ks.Nodup) : repeats [] ks = 0 := by
  have h1 := repeats_add_card [] ks
  simp only [List.toFinset_nil, Finset.sdiff_empty] at h1
  rw [List.toFinset_card_of_nodup h] at h1
  omega

theorem resourceKeys_nodup (resource : Assignment → Option Nat) (schedule : List DaySchedule)
    (hdays : (schedule.map (fun d => d.day)).Nodup)
    (hstarts : ∀ d ∈ schedule, (d.timeSlots.map (fun a => a.startTime)).Nodup) :
    (resourceKeys resource schedule).Nodup := by
  rw [resourceKeys, List.nodup_flatMap]
  constructor
  · intro d hd
    have hp : d.timeSlots.Pairwise (fun a b => a.startTime ≠ b.startTime) :=
      List.pairwise_map.mp (hstarts d hd)
    refine List.Pairwise.filterMap _ ?_ hp
    intro a a2 hne b hb b2 hb2 heq
    simp only [Option.mem_def, Option.map_eq_some'] at hb hb2
    obtain ⟨r, _, rfl⟩ := hb
    obtain ⟨r2, _, rfl⟩ := hb2
    exact hne (congrArg Key.startTime heq)
  · have hp : schedule.Pairwise (fun a b => a.day ≠ b.day) := List.pairwise_map.mp hdays
    refine hp.imp ?_
    intro a b hne
    rw [Function.onFun, List.disjoint_left]
    intro k hk hk2
    simp only [List.mem_filterMap, Option.map_eq_some'] at hk hk2
    obtain ⟨_, _, r, _, rfl⟩ := hk
    obtain ⟨_, _, r2, _, heq⟩ := hk2
    exact hne (congrArg Key.day heq).symm

theorem detectConflicts_nil_of_distinct (t : Timetable)
    (hdays : (t.schedule.map (fun d => d.day)).Nodup)
    (hstarts : ∀ d ∈ t.schedule, (d.timeSlots.map (fun a => a.startTime)).Nodup) :
    detectConflicts t = [] := by
  rw [detectConflicts_eq, repeats_nil_of_nodup _ (resourceKeys_nodup _ _ hdays hstarts),
    repeats_nil_of_nodup _ (resourceKeys_nodup _ _ hdays hstarts)]
  rfl

theorem nodup_of_length_le_one {α : Type} (l : List α) (h : l.length ≤ 1) : l.Nodup := by
  match l, h with
  | [], _ => exact List.nodup_nil
  | [a], _ => exact List.nodup_singleton a

theorem pairwise_of_length_le_one {α : Type} (R : α → α → Prop) (l : List α)
    (h : l.length ≤ 1) : l.Pairwise R := by
  match l, h with
  | [], _ => exact List.Pairwise.nil
  | [a], _ => exact List.pairwise_singleton R a

theorem onePerDay_detectConflicts (t : Timetable) (h : OnePerDay t) :
    detectConflicts t = [] := by
  refine detectConflicts_nil_of_distinct t ?_ ?_
  · rw [h.1]; decide
  · intro d hd
    exact nodup_of_length_le_one _ (by simpa using h.2 d hd)

theorem cleanCandidate_scored (t : Timetable) (h : OnePerDay t) :
    CleanCandidate { (calculateFitness t).2 with fitnessScore := (calculateFitness t).1 } := by
  refine ⟨h, ?_, ?_⟩
  · simp [calculateFitness, onePerDay_detectConflicts t h]
  · simp [calculateFitness, onePerDay_detectConflicts t h]

theorem updateDay_map_day (d : Day) (f : DaySchedule → DaySchedule)
    (hf : ∀ x, (f x).day = x.day) (s : List DaySchedule) :
    (updateDay d f s).map (fun x => x.day) = s.map (fun x => x.day) := by
  induction s with
  | nil => rfl
  | cons y rest ih =>
    by_cases hy : y.day = d
    · simp [updateDay, hy, hf]
    · simp [updateDay, hy, ih]

theorem onePerDay_push (t2 : Timetable) (d : Day) (daySchedule : DaySchedule)
    (a : Assignment) (h : OnePerDay t2) (hfind : findDay t2.schedule d = some daySchedule)
    (hempty : daySchedule.timeSlots = []) :
    OnePerDay (pushAssignment t2 d a) := by
  constructor
  · rw [← h.1]
    exact updateDay_map_day d (fun x => { x with timeSlots := x.timeSlots ++ [a] })
      (fun _ => rfl) t2.schedule
  · intro x hx
    rcases mem_updateDay d _ t2.schedule daySchedule hfind x hx with hm | hm
    · exact h.2 x hm
    · subst hm
      simp [hempty]

theorem cleanCandidate_cross (p1 p2 child : Timetable) (rnd : Rand) (pos pos1 : Nat)
    (h1 : CleanCandidate p1) (h2 : CleanCandidate p2)
    (h : crossover p1 p2 rnd pos = .ok (child, pos1)) : CleanCandidate child := by
  rw [crossover] at h
  split at h
  · cases h
  · rename_i c hc
    simp only [Except.ok.injEq, Prod.mk.injEq] at h
    obtain ⟨rfl, _⟩ := h
    obtain ⟨_, c2, c3, c4, c5⟩ := crossoverLoop_days p2 _ p1 c hc
    refine ⟨⟨by rw [c4, h1.1.1], ?_⟩, by rw [c2, h1.2.1], by rw [c3, h1.2.2]⟩
    intro d hd
    obtain ⟨d1, hd1, heq⟩ := c5 d hd
    rw [heq]
    rcases hd1 with hd1 | hd1
    · exact h1.1.2 d1 hd1
    · exact h2.1.2 d1 hd1

theorem reachable_clean (init : List Timetable) (hinit : ∀ t ∈ init, CleanCandidate t) :
    ∀ t, Reachable init t → CleanCandidate t := by
  intro t ht
  induction ht with
  | seed hmem => exact hinit _ hmem
  | cross rnd pos pos1 _ _ hc ih1 ih2 => exact cleanCandidate_cross _ _ _ rnd pos pos1 ih1 ih2 hc
  | mutation rnd pos _ ih => rw [mutate_state]; exact ih
  | score _ ih => exact cleanCandidate_scored _ ih.1

theorem breedLoop_reachable (init parents : List Timetable) (rnd : Rand) (size : Nat)
    (hparents : ∀ c ∈ parents, Reachable init c) :
    ∀ (fuel : Nat) (newGeneration : List Timetable) (pos : Nat) (result : List Timetable)
      (pos1 : Nat),
      (∀ c ∈ newGeneration, Reachable init c) →
      breedLoop parents rnd size fuel newGeneration pos = .ok (result, pos1) →
      ∀ c ∈ result, Reachable init c := by
  intro fuel
  induction fuel with
  | zero =>
    intro newGeneration pos result pos1 hnew h
    simp only [breedLoop, Except.ok.injEq, Prod.mk.injEq] at h
    exact h.1 ▸ hnew
  | succ fuel ih =>
    intro newGeneration pos result pos1 hnew h
    rw [breedLoop] at h
    split at h
    · split at h
      · cases h
      · rename_i child pos2 hchild
        refine ih _ _ result pos1 ?_ h
        intro c hc
        rcases List.mem_append.mp hc with hc | hc
        · exact hnew c hc
        · simp only [List.mem_singleton] at hc
          subst hc
          unfold breedChild at hchild
          split at hchild
          · rename_i parent1 parent2 hp1 hp2
            split at hchild
            · cases hchild
            · rename_i crossed pos3 hcross
              split at hchild
              · cases hchild
              · rename_i mutated pos4 hmut
                simp only [Except.ok.injEq, Prod.mk.injEq] at hchild
                obtain ⟨rfl, _⟩ := hchild
                have hr1 := hparents _ (List.getElem?_mem hp1)
                have hr2 := hparents _ (List.getElem?_mem hp2)
                have hrc : Reachable init crossed :=
                  Reachable.cross rnd (pos + 2) pos3 hr1 hr2 hcross
                have hrm := Reachable.mutation rnd pos3 hrc
                rw [hmut] at hrm
                exact Reachable.score hrm
          · cases hchild
    · simp only [Except.ok.injEq, Prod.mk.injEq] at h
      exact h.1 ▸ hnew

theorem evolveGenerations_reachable (init : List Timetable) (rnd : Rand) :
    ∀ (generations : Nat) (population : List Timetable) (pos : Nat) (final : List Timetable)
      (pos1 : Nat),
      (∀ c ∈ population, Reachable init c) →
      evolveGenerations rnd generations population pos = .ok (final, pos1) →
      ∀ c ∈ final, Reachable init c := by
  intro generations
  induction generations with
  | zero =>
    intro population pos final pos1 hpop h
    simp only [evolveGenerations, Except.ok.injEq, Prod.mk.injEq] at h
    exact h.1 ▸ hpop
  | succ n ih =>
    intro population pos final pos1 hpop h
    rw [evolveGenerations] at h
    split at h
    · cases h
    · rename_i newGeneration pos2 hbreed
      refine ih newGeneration pos2 final pos1 ?_ h
      refine breedLoop_reachable init _ rnd _ ?_ _ [] _ newGeneration pos2 (by simp) hbreed
      intro c hc
      rcases selectParentsLoop_mem population rnd _ _ _ c hc with hm | hm
      · simp at hm
      · exact hpop c hm

theorem generateInitialPopulation_clean (fuel : Nat) (baseTimetable : Timetable)
    (courses : List Course) (faculties : List Faculty) (classrooms : List Classroom)
    (populationSize : Nat) (rnd : Rand) (pos : Nat) (population : List Timetable) (pos1 : Nat)
    (hbase : baseTimetable.schedule = days.map (fun day => ⟨day, []⟩))
    (hret : generateInitialPopulation fuel baseTimetable courses faculties classrooms
      populationSize rnd pos = some (.ok (population, pos1))) :
    ∀ t ∈ population, CleanCandidate t := by
  intro t ht
  obtain ⟨built, hP, rfl⟩ := population_keeps OnePerDay fuel baseTimetable courses faculties
    classrooms populationSize rnd pos population pos1
    (by
      intro t0 course p r hP0 hr
      refine assignCourseRandomly_keeps OnePerDay fuel t0 course faculties classrooms rnd p r
        ?_ hP0 hr
      intro t2 d daySchedule slot hP2 hfind _ hempty
      exact onePerDay_push t2 d daySchedule _ hP2 hfind hempty)
    (by
      constructor
      · rw [hbase]; rfl
      · intro d hd
        rw [hbase] at hd
        simp only [List.mem_map] at hd
        obtain ⟨_, _, rfl⟩ := hd
        simp)
    hret t ht
  exact cleanCandidate_scored built hP

theorem evolvePopulation_clean (population : List Timetable) (generations : Nat) (rnd : Rand)
    (pos : Nat) (best : Timetable) (pos1 : Nat)
    (hpop : ∀ c ∈ population, CleanCandidate c)
    (h : evolvePopulation population generations rnd pos = .ok (some best, pos1)) :
    Reachable population best ∧ CleanCandidate best := by
  rw [evolvePopulation] at h
  split at h
  · cases h
  · rename_i final pos2 hrun
    simp only [Except.ok.injEq, Prod.mk.injEq] at h
    have hmem : best ∈ final :=
      (List.perm_insertionSort _ final).subset (List.mem_of_mem_head? h.1)
    have hreach := evolveGenerations_reachable population rnd generations population pos final
      pos2 (fun c hc => Reachable.seed hc) hrun best hmem
    exact ⟨hreach, reachable_clean population hpop best hreach⟩

/-- Claim C22: every candidate that `generateInitialPopulation` returns on
the base timetable of six empty days, and every candidate reached from them
by crossover, mutation and scoring, holds on each day assignments with
pairwise distinct start times and pairwise disjoint slots (at most one
assignment a day); `detectConflicts` gives no record, `calculateFitness`
gives 100, and a candidate returned by `generateTimetable` has score 100 and
no conflicts. -/
theorem reachable_conflict_free (fuel : Nat) (baseTimetable : Timetable)
    (courses : List Course) (faculties : List Faculty) (classrooms : List Classroom)
    (populationSize : Nat) (rnd : Rand) (pos : Nat) (population : List Timetable) (pos1 : Nat)
    (hbase : baseTimetable.schedule = days.map (fun day => ⟨day, []⟩))
    (hret : generateInitialPopulation fuel baseTimetable courses faculties classrooms
      populationSize rnd pos = some (.ok (population, pos1))) :
    (∀ t, Reachable population t →
      (∀ d ∈ t.schedule, d.timeSlots.Pairwise (fun a b => a.startTime ≠ b.startTime ∧
        ¬ (minutesOf a.startTime < minutesOf b.endTime ∧
          minutesOf b.startTime < minutesOf a.endTime))) ∧
      (∀ d ∈ t.schedule, d.timeSlots.length ≤ 1) ∧
      detectConflicts t = [] ∧ (calculateFitness t).1 = 100 ∧
      t.fitnessScore = 100 ∧ t.conflicts = []) ∧
    (∀ (generations : Nat) (rnd2 : Rand) (pos2 : Nat) (final : List Timetable) (pos3 : Nat),
      evolveGenerations rnd2 generations population pos2 = .ok (final, pos3) →
      ∀ c ∈ final, Reachable population c) ∧
    (∀ (fuel2 departmentId semester : Nat) (academicYear : String) (courses2 : List Course)
      (faculties2 : List Faculty) (classrooms2 : List Classroom)
      (constraints : Option Constraints) (rnd2 : Rand) (pos2 : Nat) (best : Timetable)
      (pos3 : Nat),
      generateTimetable fuel2 departmentId semester academicYear courses2 faculties2
        classrooms2 constraints rnd2 pos2 = some (.ok (some best, pos3)) →
      best.fitnessScore = 100 ∧ best.conflicts = [] ∧ detectConflicts best = []) := by
  have hclean := generateInitialPopulation_clean fuel baseTimetable courses faculties
    classrooms populationSize rnd pos population pos1 hbase hret
  refine ⟨?_, ?_, ?_⟩
  · intro t ht
    obtain ⟨hone, hfit, hconf⟩ := reachable_clean population hclean t ht
    have hdc := onePerDay_detectConflicts t hone
    refine ⟨fun d hd => pairwise_of_length_le_one _ _ (hone.2 d hd), hone.2, hdc, ?_, hfit,
      hconf⟩
    simp [calculateFitness, hdc]
  · intro generations rnd2 pos2 final pos3 hrun
    exact evolveGenerations_reachable population rnd2 generations population pos2 final pos3
      (fun c hc => Reachable.seed hc) hrun
  · intro fuel2 departmentId semester academicYear courses2 faculties2 classrooms2
      constraints rnd2 pos2 best pos3 h
    rw [generateTimetable] at h
    split at h
    · cases h
    · cases h
    · rename_i population2 pos4 hgen
      simp only [Option.some.injEq] at h
      have hclean2 := generateInitialPopulation_clean fuel2 _ _ faculties2 classrooms2 50 rnd2
        pos2 population2 pos4 rfl hgen
      obtain ⟨_, hone, hfit, hconf⟩ :=
        evolvePopulation_clean population2 100 rnd2 pos4 best pos3 hclean2 h
      exact ⟨hfit, hconf, onePerDay_detectConflicts best hone⟩

/-- The candidate of claim C22 built from two courses. -/
theorem reachable_conflict_free_witness :
    (emptyTimetable 1 1 "2025" none).schedule = days.map (fun day => ⟨day, []⟩) ∧
    generateInitialPopulation 8 (emptyTimetable 1 1 "2025" none) [algebra, chemLab] staff
        rooms 1 (fun i => i / 2) 0 = some (.ok ([seededCandidate], 10)) ∧
    detectConflicts seededCandidate = [] ∧ (calculateFitness seededCandidate).1 = 100 :=
  ⟨rfl, by rfl,
    ((reachable_conflict_free 8 (emptyTimetable 1 1 "2025" none) [algebra, chemLab] staff
      rooms 1 (fun i => i / 2) 0 [seededCandidate] 10 rfl (by rfl)).1 seededCandidate
      (Reachable.seed (List.mem_singleton.mpr rfl))).2.2.1,
    ((reachable_conflict_free 8 (emptyTimetable 1 1 "2025" none) [algebra, chemLab] staff
      rooms 1 (fun i => i / 2) 0 [seededCandidate] 10 rfl (by rfl)).1 seededCandidate
      (Reachable.seed (List.mem_singleton.mpr rfl))).2.2.2.1⟩

end TimetableGenerator
